import Mathlib

/-!
# PNM image generator (`main.c`): shallow embedding and verified properties

The C program parses five command-line arguments, validates them, and calls one
of three generators that fill a pixel buffer with a test pattern and hand it to
the `libpnm` library for saving.

Modelling conventions

* C `int` values are Lean `Int`s in the range of a 32-bit two's-complement `int`,
  `-2147483648 .. 2147483647`.  `/` on `int` truncates toward zero and is
  `Int.tdiv`; a division whose divisor is a variable goes through `cdiv`, which
  has no result for a zero divisor.  `%` is `Int.tmod`.
* `int` arithmetic wraps: every product of the generators (`row * width`,
  `col_offset * rect_height`, `-col_offset * rect_height`, `dist * 255`,
  `row * 255`, `local_row * 255`) and the column `width - 1 - (row * width) / height`
  of the second diagonal are reduced modulo `2^32` by `wrap32`, as the compiled
  program computes them.  The remaining sums, differences and quotients (the
  rectangle's bounds, the offsets from the centre, `2 * (width / 3)`, `255 - q`)
  cannot leave the range of `int` when `width` and `height` are `int`s, and are
  written without `wrap32`.
* A pixel buffer is a total map from keys to stored samples together with the
  buffer's dimensions and the list of values handed to each store so far.  A
  store outside the `height x width` grid has no result.
* Samples are 8-bit: a store keeps the value modulo 256.
* A generator has a result only if every division it executes has a non-zero
  divisor and every store lands inside the grid.
* The `libpnm` routines (`create_*`, `save_*`, `copy_PPM_to_PGM`, `free_*`) are
  not part of `main.c`; their return codes are inputs of the model (`Lib`) and
  their calls are recorded, with the text printed, in a trace of events.
* What those routines compute (the image types, `create_PGM_Image`,
  `copy_PPM_to_PGM`, the encoders `save_*_Image` and the decoders) is modelled
  from the spec's sections 3 and 4; each such definition says so.  A file is a
  list of bytes, a byte a natural number below 256.
-/

namespace PNM

/-! ## C arithmetic -/

/-- C integer division with a variable divisor: no result when the divisor is zero,
the quotient truncated toward zero otherwise. -/
def cdiv (a b : Int) : Option Int :=
  if b = 0 then none else some (a.tdiv b)

/-- The value that a computation on 32-bit two's-complement `int`s leaves for the
mathematical result `x`: `x` reduced modulo `2^32` into `-2147483648 .. 2147483647`. -/
def wrap32 (x : Int) : Int :=
  (x + 2147483648) % 4294967296 - 2147483648

/-! ## Constants of `libpnm.h` -/

/-- Modelled from the spec: the macro `BLACK` of `libpnm.h` (section 3: "0=white,1=black"). -/
def BLACK : Int := 1

/-- Modelled from the spec: the macro `WHITE` of `libpnm.h` (section 3: "0=white,1=black"). -/
def WHITE : Int := 0

/-- Modelled from the spec: the channel selectors `RED`, `GREEN`, `BLUE` of `libpnm.h`,
the three distinct indices of a colour pixel's components in the order (R,G,B). -/
inductive Chan
  | RED
  | GREEN
  | BLUE
  deriving DecidableEq, Repr

/-! ## Observable events -/

/-- What the program does that is visible from outside: text printed on standard
output and calls into `libpnm`; `var` is the C variable that holds the buffer. -/
inductive Event
  | print (text : String)
  | create_PBM_Image (var : String) (width height : Int)
  | create_PGM_Image (var : String) (width height maxv : Int)
  | create_PPM_Image (var : String) (width height maxv : Int)
  | save_PBM_Image (var : String) (filename : String) (raw : Bool)
  | save_PGM_Image (var : String) (filename : String) (raw : Bool)
  | save_PPM_Image (var : String) (filename : String) (raw : Bool)
  | copy_PPM_to_PGM (src dst : String) (channel : Chan)
  | free_PBM_Image (var : String)
  | free_PGM_Image (var : String)
  | free_PPM_Image (var : String)
  deriving DecidableEq, Repr

/-- An event that is a call into `libpnm` (creates, copies, saves or frees a buffer). -/
def Event.isLibCall : Event → Bool
  | .print _ => false
  | _ => true

/-- The return codes of the `libpnm` calls made by `main.c`, one per call site (0 is
success), and the unspecified contents of the freshly created buffers. -/
structure Lib where
  create_PBM : Int
  save_PBM : Int
  create_PGM : Int
  save_PGM : Int
  create_PPM : Int
  save_PPM : Int
  chan_create : Chan → Int
  chan_copy : Chan → Int
  chan_save : Chan → Int
  pbm_garbage : Int × Int → Int
  pgm_garbage : Int × Int → Int
  ppm_garbage : Int × Int × Chan → Int

/-! ## `validate_dimensions` (main.c 69-94) -/

/-- `validate_dimensions`: the returned `int` and the diagnostics printed. -/
def validate_dimensions (img_type width height : Int) : Int × List Event :=
  if height < 4 ∨ height.tmod 4 ≠ 0 then
    (0, [Event.print ("Error: Height must be divisible by 4 and >= 4 (given: "
          ++ toString height ++ ")\n")])
  else if img_type = 1 ∨ img_type = 2 then
    if width < 4 ∨ width.tmod 4 ≠ 0 then
      (0, [Event.print ("Error: Width for PBM/PGM must be divisible by 4 and >= 4 (given: "
            ++ toString width ++ ")\n")])
    else (1, [])
  else if img_type = 3 then
    if width < 6 ∨ width.tmod 6 ≠ 0 then
      (0, [Event.print ("Error: Width for PPM must be divisible by 6 and >= 6 (given: "
            ++ toString width ++ ")\n")])
    else (1, [])
  else (1, [])

/-! ## Pixel buffers and loops -/

/-- A pixel buffer with keys `κ` (`(row, col)` for the bit and gray buffers,
`(row, col, channel)` for the colour buffer): its dimensions, the sample stored
under every key, and the values handed to the stores so far, oldest first. -/
structure Image (κ : Type) where
  width : Int
  height : Int
  image : κ → Int
  written : List (κ × Int)

/-- The assignment `img.image[...] = v` of an `int` to an 8-bit sample. -/
def Image.put {κ : Type} [DecidableEq κ] (img : Image κ) (k : κ) (v : Int) : Image κ :=
  { img with
    image := fun k' => if k' = k then v % 256 else img.image k'
    written := img.written ++ [(k, v)] }

/-- The store `img.image[row][col] = v` into a bit or gray buffer: defined only inside the grid. -/
def store2 (img : Image (Int × Int)) (row col v : Int) : Option (Image (Int × Int)) :=
  if 0 ≤ row ∧ row < img.height ∧ 0 ≤ col ∧ col < img.width then
    some (img.put (row, col) v)
  else none

/-- The store `img.image[row][col][ch] = v` into a colour buffer: defined only inside the grid. -/
def store3 (img : Image (Int × Int × Chan)) (row col : Int) (ch : Chan) (v : Int) :
    Option (Image (Int × Int × Chan)) :=
  if 0 ≤ row ∧ row < img.height ∧ 0 ≤ col ∧ col < img.width then
    some (img.put (row, col, ch) v)
  else none

/-- The loop `for (i = lo; i < hi; i++) body`, threading the state; it has no result
as soon as one iteration has none. -/
def forLoop {σ : Type} (lo hi : Int) (body : Int → σ → Option σ) (s : σ) : Option σ :=
  (List.range (hi - lo).toNat).foldlM (fun (s : σ) (k : Nat) => body (lo + Int.ofNat k) s) s

/-- Modelled from the spec: the buffer a successful `create_*_Image` of `libpnm` hands
back (section 4.1: the requested dimensions, "all samples defined but value
unspecified"); `garbage` is the unspecified content. -/
def created {κ : Type} (width height : Int) (garbage : κ → Int) : Image κ :=
  { width := width, height := height, image := garbage, written := [] }

/-! ## `generate_pbm_image`: the pattern (main.c 106-148) -/

/-- Lines 106-148 of `generate_pbm_image`: the four loops that fill the bit buffer. -/
def pbm_fill (width height : Int) (img : Image (Int × Int)) : Option (Image (Int × Int)) := do
  let rect_width := width.tdiv 2
  let rect_height := height.tdiv 2
  let rect_left := (width - rect_width).tdiv 2
  let rect_right := rect_left + rect_width - 1
  let rect_top := (height - rect_height).tdiv 2
  let rect_bottom := rect_top + rect_height - 1
  -- Initialize entire image to black (1)
  let img ← forLoop 0 height (fun row img =>
    forLoop 0 width (fun col img => store2 img row col BLACK) img) img
  -- Draw white rectangle (0) in the center
  let img ← forLoop rect_top (rect_bottom + 1) (fun row img =>
    forLoop rect_left (rect_right + 1) (fun col img => store2 img row col WHITE) img) img
  -- Diagonal 1: top-left to bottom-right
  let img ← forLoop 0 height (fun row img => do
    let col ← cdiv (wrap32 (row * width)) height
    if col < width then store2 img row col BLACK else pure img) img
  -- Diagonal 2: top-right to bottom-left
  forLoop 0 height (fun row img => do
    let q ← cdiv (wrap32 (row * width)) height
    let col := wrap32 (width - 1 - q)
    if col ≥ 0 ∧ col < width then store2 img row col BLACK else pure img) img

/-! ## `generate_pgm_image`: the pattern (main.c 170-238) -/

/-- The value computed for pixel `(row, col)` by the body of the loops of
`generate_pgm_image` (lines 187-236), before it is stored. -/
def pgm_value (width height row col : Int) : Option Int := do
  let rect_width := width.tdiv 2
  let rect_height := height.tdiv 2
  let rect_left := (width - rect_width).tdiv 2
  let rect_right := rect_left + rect_width - 1
  let rect_top := (height - rect_height).tdiv 2
  let rect_bottom := rect_top + rect_height - 1
  let center_row := height.tdiv 2
  let center_col := width.tdiv 2
  if row ≥ rect_top ∧ row ≤ rect_bottom ∧ col ≥ rect_left ∧ col ≤ rect_right then
    let row_offset := row - center_row
    let col_offset := col - center_col
    let d1 ← cdiv (wrap32 (col_offset * rect_height)) rect_width
    let d2 ← cdiv (wrap32 (-col_offset * rect_height)) rect_width
    if row_offset ≤ d1 ∧ row_offset ≤ d2 then
      -- UPPER triangle
      let dist_from_edge := row - rect_top
      let max_dist := center_row - rect_top
      let q ← cdiv (wrap32 (dist_from_edge * 255)) max_dist
      pure (255 - q)
    else if row_offset ≥ d1 ∧ row_offset ≥ d2 then
      -- LOWER triangle
      let dist_from_center := row - center_row
      let max_dist := rect_bottom - center_row
      cdiv (wrap32 (dist_from_center * 255)) max_dist
    else if col_offset < 0 then
      -- LEFT triangle
      let dist_from_edge := col - rect_left
      let max_dist := center_col - rect_left
      let q ← cdiv (wrap32 (dist_from_edge * 255)) max_dist
      pure (255 - q)
    else
      -- RIGHT triangle
      let dist_from_center := col - center_col
      let max_dist := rect_right - center_col
      cdiv (wrap32 (dist_from_center * 255)) max_dist
  else
    -- Outside rectangle
    pure 0

/-- Lines 170-238 of `generate_pgm_image`: the loops that fill the gray buffer. -/
def pgm_fill (width height : Int) (img : Image (Int × Int)) : Option (Image (Int × Int)) :=
  forLoop 0 height (fun row img =>
    forLoop 0 width (fun col img => do
      let v ← pgm_value width height row col
      store2 img row col v) img) img

/-! ## `generate_ppm_image`: the pattern (main.c 260-328) -/

/-- The three components `(R, G, B)` computed for pixel `(row, col)` by the body of the
loops of `generate_ppm_image` (lines 273-326), before they are stored. -/
def ppm_value (width height row col : Int) : Option (Int × Int × Int) := do
  let half_height := height.tdiv 2
  let section_width_upper := width.tdiv 3
  let section_width_lower := width.tdiv 2
  if row < half_height then
    if col < section_width_upper then
      let progress ← cdiv (wrap32 (row * 255)) half_height
      pure (255, progress, progress)
    else if col < 2 * section_width_upper then
      let progress ← cdiv (wrap32 (row * 255)) half_height
      pure (255 - progress, 255, 255 - progress)
    else
      let progress ← cdiv (wrap32 (row * 255)) half_height
      pure (progress, progress, 255)
  else
    let local_row := row - half_height
    if col < section_width_lower then
      let progress ← cdiv (wrap32 (local_row * 255)) (height - half_height)
      pure (progress, progress, progress)
    else
      let progress ← cdiv (wrap32 (local_row * 255)) (height - half_height)
      pure (255 - progress, 255 - progress, 255 - progress)

/-- Lines 260-328 of `generate_ppm_image`: the loops that fill the colour buffer; the
components of a pixel are stored in the order RED, GREEN, BLUE. -/
def ppm_fill (width height : Int) (img : Image (Int × Int × Chan)) :
    Option (Image (Int × Int × Chan)) :=
  forLoop 0 height (fun row img =>
    forLoop 0 width (fun col img => do
      let v ← ppm_value width height row col
      let img ← store3 img row col Chan.RED v.1
      let img ← store3 img row col Chan.GREEN v.2.1
      store3 img row col Chan.BLUE v.2.2) img) img

/-! ## The generators and `main` as a whole -/

/-- Lines 96-158: `generate_pbm_image`.  The function returns nothing; its result
here is the trace of what it did. -/
def generate_pbm_image (lib : Lib) (width height : Int) (filename : String) (format : Int) :
    Option (List Event) :=
  if lib.create_PBM ≠ 0 then
    some [Event.create_PBM_Image "img" width height,
          Event.print "Error: Failed to create PBM image\n"]
  else do
    let _img ← pbm_fill width height (created width height lib.pbm_garbage)
    let raw_format : Bool := decide (format = 1)
    if lib.save_PBM ≠ 0 then
      pure [Event.create_PBM_Image "img" width height,
            Event.save_PBM_Image "img" filename raw_format,
            Event.print "Error: Failed to save PBM image\n",
            Event.free_PBM_Image "img"]
    else
      pure [Event.create_PBM_Image "img" width height,
            Event.save_PBM_Image "img" filename raw_format,
            Event.free_PBM_Image "img"]

/-- Lines 160-248: `generate_pgm_image`. -/
def generate_pgm_image (lib : Lib) (width height : Int) (filename : String) (format : Int) :
    Option (List Event) :=
  if lib.create_PGM ≠ 0 then
    some [Event.create_PGM_Image "img" width height 255,
          Event.print "Error: Failed to create PGM image\n"]
  else do
    let _img ← pgm_fill width height (created width height lib.pgm_garbage)
    let raw_format : Bool := decide (format = 1)
    if lib.save_PGM ≠ 0 then
      pure [Event.create_PGM_Image "img" width height 255,
            Event.save_PGM_Image "img" filename raw_format,
            Event.print "Error: Failed to save PGM image\n",
            Event.free_PGM_Image "img"]
    else
      pure [Event.create_PGM_Image "img" width height 255,
            Event.save_PGM_Image "img" filename raw_format,
            Event.free_PGM_Image "img"]

/-- The index of the last `.` of a C string (`strrchr(s, '.')`), if there is one. -/
def lastDot : List Char → Option Nat
  | [] => none
  | c :: cs =>
    match lastDot cs with
    | some i => some (i + 1)
    | none => if c = '.' then some 0 else none

/-- Lines 339-362: a derived file name.  `snprintf` into the 256-byte buffer keeps at
most 255 characters of the prefixed name; when the text from the last `.` on is
exactly `.ppm` it is overwritten with `.pgm`.  One character of the model stands for
one `char` of the C string. -/
def channel_filename (pfx filename : String) : String :=
  let buf := (pfx.toList ++ filename.toList).take 255
  match lastDot buf with
  | some i =>
    if buf.drop i = ['.', 'p', 'p', 'm'] then String.mk (buf.take i ++ ['.', 'p', 'g', 'm'])
    else String.mk buf
  | none => String.mk buf

/-- Lines 364-374, 376-386 and 388-398: the export of one channel (the same block
three times, for `RED`, `GREEN` and `BLUE`); `label` is the channel's name in the
messages and `var` the C variable of its gray buffer. -/
def channel_export (lib : Lib) (ch : Chan) (label var chan_filename : String)
    (width height : Int) (raw_format : Bool) : List Event :=
  if lib.chan_create ch = 0 then
    [Event.create_PGM_Image var width height 255] ++
    (if lib.chan_copy ch = 0 then
      [Event.copy_PPM_to_PGM "img" var ch] ++
      (if lib.chan_save ch = 0 then
        [Event.save_PGM_Image var chan_filename raw_format,
         Event.print (label ++ " channel saved: " ++ chan_filename ++ "\n")]
      else
        [Event.save_PGM_Image var chan_filename raw_format,
         Event.print ("Error: Failed to save " ++ label ++ " channel image\n")])
    else
      [Event.copy_PPM_to_PGM "img" var ch]) ++
    [Event.free_PGM_Image var]
  else
    [Event.create_PGM_Image var width height 255]

/-- Lines 250-402: `generate_ppm_image`. -/
def generate_ppm_image (lib : Lib) (width height : Int) (filename : String) (format : Int) :
    Option (List Event) :=
  if lib.create_PPM ≠ 0 then
    some [Event.create_PPM_Image "img" width height 255,
          Event.print "Error: Failed to create PPM image\n"]
  else do
    let _img ← ppm_fill width height (created width height lib.ppm_garbage)
    let raw_format : Bool := decide (format = 1)
    let saved :=
      if lib.save_PPM ≠ 0 then
        [Event.save_PPM_Image "img" filename raw_format,
         Event.print "Error: Failed to save PPM image\n"]
      else
        [Event.save_PPM_Image "img" filename raw_format]
    let red_filename := channel_filename "RED_" filename
    let green_filename := channel_filename "GREEN_" filename
    let blue_filename := channel_filename "BLUE_" filename
    pure ([Event.create_PPM_Image "img" width height 255] ++ saved ++
      channel_export lib Chan.RED "RED" "red_channel" red_filename width height raw_format ++
      channel_export lib Chan.GREEN "GREEN" "green_channel" green_filename width height
        raw_format ++
      channel_export lib Chan.BLUE "BLUE" "blue_channel" blue_filename width height
        raw_format ++
      [Event.free_PPM_Image "img"])

/-- Lines 12-67: `main`, from the argument count and the values `atoi` parsed
(`prog` is `argv[0]`): the exit status and the trace. -/
def main (lib : Lib) (argc : Int) (prog : String) (img_type width height : Int)
    (filename : String) (format : Int) : Option (Int × List Event) :=
  if argc ≠ 6 then
    some (0, [Event.print "Error: Invalid number of arguments\n",
              Event.print ("Usage: " ++ prog ++
                " <img_type> <width> <height> <filename> <format>\n"),
              Event.print "  img_type: 1=PBM, 2=PGM, 3=PPM\n",
              Event.print "  format: 0=ASCII, 1=raw\n"])
  else if img_type < 1 ∨ img_type > 3 then
    some (0, [Event.print "Error: Invalid image type. Use 1=PBM, 2=PGM, or 3=PPM\n"])
  else if format ≠ 0 ∧ format ≠ 1 then
    some (0, [Event.print "Error: Invalid format. Use 0=ASCII or 1=raw\n"])
  else if (validate_dimensions img_type width height).1 = 0 then
    some (0, (validate_dimensions img_type width height).2)
  else do
    let generated ←
      if img_type = 1 then generate_pbm_image lib width height filename format
      else if img_type = 2 then generate_pgm_image lib width height filename format
      else if img_type = 3 then generate_ppm_image lib width height filename format
      else some []
    pure (0, (validate_dimensions img_type width height).2 ++ generated ++
      [Event.print ("Image generated successfully: " ++ filename ++ "\n")])

/-! ## Specification vocabulary -/

/-- A library all of whose calls succeed, with zeroed fresh buffers. -/
def lib_ok : Lib :=
  { create_PBM := 0, save_PBM := 0, create_PGM := 0, save_PGM := 0, create_PPM := 0,
    save_PPM := 0, chan_create := fun _ => 0, chan_copy := fun _ => 0,
    chan_save := fun _ => 0, pbm_garbage := fun _ => 0, pgm_garbage := fun _ => 0,
    ppm_garbage := fun _ => 0 }

/-- The effect of a loop over the indices `lo <= i < hi` on a buffer: the
dimensions stay, a sample whose key has its index `idx k` in the interval becomes
`T old k`, every other sample is untouched, and every value handed to a store
during the loop satisfies `P`. -/
def Evolves {κ : Type} (idx : κ → Int) (T : Int → κ → Int) (P : κ × Int → Prop)
    (lo hi : Int) (a b : Image κ) : Prop :=
  b.width = a.width ∧ b.height = a.height ∧
  (∀ k, b.image k = if lo ≤ idx k ∧ idx k < hi then T (a.image k) k else a.image k) ∧
  (∀ w ∈ b.written, w ∈ a.written ∨ P w)

/-- A value handed to a store of the gray generator: the value computed for that
pixel, stored inside the grid. -/
def GrayWrite (W H : Int) (w : (Int × Int) × Int) : Prop :=
  0 ≤ w.1.1 ∧ w.1.1 < H ∧ 0 ≤ w.1.2 ∧ w.1.2 < W ∧ pgm_value W H w.1.1 w.1.2 = some w.2

/-- The component of a colour pixel `(R, G, B)` selected by a channel. -/
def comp (ch : Chan) (v : Int × Int × Int) : Int :=
  match ch with
  | Chan.RED => v.1
  | Chan.GREEN => v.2.1
  | Chan.BLUE => v.2.2

/-- A value handed to a store of the colour generator: the component computed for
that pixel and channel, stored inside the grid. -/
def ColorWrite (W H : Int) (w : (Int × Int × Chan) × Int) : Prop :=
  0 ≤ w.1.1 ∧ w.1.1 < H ∧ 0 ≤ w.1.2.1 ∧ w.1.2.1 < W ∧
    (ppm_value W H w.1.1 w.1.2.1).map (comp w.1.2.2) = some w.2

/-- A value handed to a store of the bit generator: a bit, stored inside the grid. -/
def PbmWrite (W H : Int) (w : (Int × Int) × Int) : Prop :=
  (w.2 = 0 ∨ w.2 = 1) ∧ 0 ≤ w.1.1 ∧ w.1.1 < H ∧ 0 ≤ w.1.2 ∧ w.1.2 < W

/-- The derived channel file name in the spec's words: the prefix prepended to the
output name, whose trailing `.ppm`, if it has one, is rewritten to `.pgm`. -/
def spec_channel_filename (pfx f : String) : String :=
  pfx ++ (if ['.', 'p', 'p', 'm'] <:+ f.toList then
            String.mk (f.toList.take (f.length - 4) ++ ['.', 'p', 'g', 'm'])
          else f)

/-- The five cases of the body of the gray generator's loops. -/
inductive Triangle
  | OUTSIDE
  | UPPER
  | LOWER
  | LEFT
  | RIGHT
  deriving DecidableEq, Repr

/-- The branch that the body of the loops of `generate_pgm_image` takes for pixel
`(row, col)` (the tests of lines 188-189, 206-207, 213-214 and 220). -/
def pgm_branch (width height row col : Int) : Option Triangle := do
  let rect_width := width.tdiv 2
  let rect_height := height.tdiv 2
  let rect_left := (width - rect_width).tdiv 2
  let rect_right := rect_left + rect_width - 1
  let rect_top := (height - rect_height).tdiv 2
  let rect_bottom := rect_top + rect_height - 1
  let center_row := height.tdiv 2
  let center_col := width.tdiv 2
  if row ≥ rect_top ∧ row ≤ rect_bottom ∧ col ≥ rect_left ∧ col ≤ rect_right then
    let row_offset := row - center_row
    let col_offset := col - center_col
    let d1 ← cdiv (wrap32 (col_offset * rect_height)) rect_width
    let d2 ← cdiv (wrap32 (-col_offset * rect_height)) rect_width
    if row_offset ≤ d1 ∧ row_offset ≤ d2 then
      pure Triangle.UPPER
    else if row_offset ≥ d1 ∧ row_offset ≥ d2 then
      pure Triangle.LOWER
    else if col_offset < 0 then
      pure Triangle.LEFT
    else
      pure Triangle.RIGHT
  else
    pure Triangle.OUTSIDE

/-- The division that a branch of the gray generator executes for pixel `(row, col)`
(lines 209-211, 216-218, 222-224, 228-230): the dividend and the divisor `max_dist`;
outside the rectangle nothing is divided. -/
def pgm_division (width height row col : Int) (t : Triangle) : Option (Int × Int) :=
  let rect_width := width.tdiv 2
  let rect_height := height.tdiv 2
  let rect_left := (width - rect_width).tdiv 2
  let rect_right := rect_left + rect_width - 1
  let rect_top := (height - rect_height).tdiv 2
  let rect_bottom := rect_top + rect_height - 1
  let center_row := height.tdiv 2
  let center_col := width.tdiv 2
  match t with
  | Triangle.OUTSIDE => none
  | Triangle.UPPER => some (wrap32 ((row - rect_top) * 255), center_row - rect_top)
  | Triangle.LOWER => some (wrap32 ((row - center_row) * 255), rect_bottom - center_row)
  | Triangle.LEFT => some (wrap32 ((col - rect_left) * 255), center_col - rect_left)
  | Triangle.RIGHT => some (wrap32 ((col - center_col) * 255), rect_right - center_col)

/-- The value a branch of the gray generator computes from its quotient. -/
def pgm_shade (t : Triangle) (q : Int) : Int :=
  match t with
  | Triangle.OUTSIDE => 0
  | Triangle.UPPER => 255 - q
  | Triangle.LOWER => q
  | Triangle.LEFT => 255 - q
  | Triangle.RIGHT => q

/-- Lines 115-127 of `generate_pbm_image`: the loop that blackens the image and the
loop that paints the rectangle (the first two loops of `pbm_fill`). -/
def pbm_background (width height : Int) (img : Image (Int × Int)) :
    Option (Image (Int × Int)) := do
  let rect_width := width.tdiv 2
  let rect_height := height.tdiv 2
  let rect_left := (width - rect_width).tdiv 2
  let rect_right := rect_left + rect_width - 1
  let rect_top := (height - rect_height).tdiv 2
  let rect_bottom := rect_top + rect_height - 1
  let img ← forLoop 0 height (fun row img =>
    forLoop 0 width (fun col img => store2 img row col BLACK) img) img
  forLoop rect_top (rect_bottom + 1) (fun row img =>
    forLoop rect_left (rect_right + 1) (fun col img => store2 img row col WHITE) img) img

/-- Lines 131-138 of `generate_pbm_image`: the loop of the first diagonal (the third
loop of `pbm_fill`). -/
def pbm_diag1 (width height : Int) (img : Image (Int × Int)) : Option (Image (Int × Int)) :=
  forLoop 0 height (fun row img => do
    let col ← cdiv (wrap32 (row * width)) height
    if col < width then store2 img row col BLACK else pure img) img

/-- Lines 141-148 of `generate_pbm_image`: the loop of the second diagonal (the fourth
loop of `pbm_fill`). -/
def pbm_diag2 (width height : Int) (img : Image (Int × Int)) : Option (Image (Int × Int)) :=
  forLoop 0 height (fun row img => do
    let q ← cdiv (wrap32 (row * width)) height
    let col := wrap32 (width - 1 - q)
    if col ≥ 0 ∧ col < width then store2 img row col BLACK else pure img) img

/-- The rows `0, 1, ..., height - 1` in loop order. -/
def rows (height : Int) : List Int :=
  (List.range height.toNat).map Int.ofNat

/-- The band that the column tests of `generate_ppm_image` select for pixel
`(row, col)` (lines 273, 277, 286 and 310): 1, 2, 3 are the sections of the upper
half from left to right, 4 and 5 those of the lower half. -/
def ppm_band (width height row col : Int) : Nat :=
  let half_height := height.tdiv 2
  let section_width_upper := width.tdiv 3
  let section_width_lower := width.tdiv 2
  if row < half_height then
    if col < section_width_upper then 1
    else if col < 2 * section_width_upper then 2
    else 3
  else
    if col < section_width_lower then 4
    else 5

/-- The value `progress` that `generate_ppm_image` computes in row `row` (lines 281,
290, 299 in the upper half, 313 and 321 in the lower half). -/
def ppm_progress (height row : Int) : Option Int :=
  let half_height := height.tdiv 2
  if row < half_height then cdiv (wrap32 (row * 255)) half_height
  else cdiv (wrap32 ((row - half_height) * 255)) (height - half_height)

/-- The colour `(R, G, B)` that a band of `generate_ppm_image` stores for a value of
`progress`. -/
def ppm_colour (band : Nat) (progress : Int) : Int × Int × Int :=
  match band with
  | 1 => (255, progress, progress)
  | 2 => (255 - progress, 255, 255 - progress)
  | 3 => (progress, progress, 255)
  | 4 => (progress, progress, progress)
  | _ => (255 - progress, 255 - progress, 255 - progress)

/-! ## The `libpnm` layer, modelled from the spec -/

/-- Modelled from the spec: the error taxonomy of section 7 (`libpnm` is not part of
`main.c`). -/
inductive PnmError
  | InvalidDimension
  | UnsupportedMaxValue
  | BadMagic
  | MalformedHeader
  | TruncatedData
  | DimensionMismatch
  | IoFailure
  deriving DecidableEq, Repr

/-- Modelled from the spec: the BitImage of section 3, a dense row-major grid of
`width * height` samples in {0,1} (0 = white, 1 = black). -/
structure BitImage where
  width : Nat
  height : Nat
  samples : List Nat
  deriving DecidableEq, Repr

/-- Modelled from the spec: the GrayImage of section 3, a dense row-major grid of
`width * height` samples in `[0, maxValue]`. -/
structure GrayImage where
  width : Nat
  height : Nat
  maxValue : Nat
  samples : List Nat
  deriving DecidableEq, Repr

/-- Modelled from the spec: the ColorImage of section 3, a dense row-major grid of
`width * height` triples `(R, G, B)` with components in `[0, maxValue]`. -/
structure ColorImage where
  width : Nat
  height : Nat
  maxValue : Nat
  pixels : List (Nat × Nat × Nat)
  deriving DecidableEq, Repr

/-- Modelled from the spec: the invariants of a BitImage (section 3). -/
def BitImage.WellFormed (img : BitImage) : Prop :=
  0 < img.width ∧ 0 < img.height ∧ img.samples.length = img.width * img.height ∧
    ∀ s ∈ img.samples, s ≤ 1

/-- Modelled from the spec: the invariants of a GrayImage (sections 3 and 4.1). -/
def GrayImage.WellFormed (img : GrayImage) : Prop :=
  0 < img.width ∧ 0 < img.height ∧ 1 ≤ img.maxValue ∧ img.maxValue ≤ 255 ∧
    img.samples.length = img.width * img.height ∧ ∀ s ∈ img.samples, s ≤ img.maxValue

/-- Modelled from the spec: the invariants of a ColorImage (sections 3 and 4.1). -/
def ColorImage.WellFormed (img : ColorImage) : Prop :=
  0 < img.width ∧ 0 < img.height ∧ 1 ≤ img.maxValue ∧ img.maxValue ≤ 255 ∧
    img.pixels.length = img.width * img.height ∧
    ∀ p ∈ img.pixels, p.1 ≤ img.maxValue ∧ p.2.1 ≤ img.maxValue ∧ p.2.2 ≤ img.maxValue

/-- The sample of a gray image at `(row, col)`. -/
def GrayImage.at (img : GrayImage) (row col : Nat) : Option Nat :=
  if row < img.height ∧ col < img.width then img.samples[row * img.width + col]?
  else none

/-- The pixel of a colour image at `(row, col)`. -/
def ColorImage.at (img : ColorImage) (row col : Nat) : Option (Nat × Nat × Nat) :=
  if row < img.height ∧ col < img.width then img.pixels[row * img.width + col]?
  else none

/-- The component of a colour pixel selected by a channel. -/
def channelOf (ch : Chan) (p : Nat × Nat × Nat) : Nat :=
  match ch with
  | Chan.RED => p.1
  | Chan.GREEN => p.2.1
  | Chan.BLUE => p.2.2

/-- Modelled from the spec: `create_PGM_Image` of `libpnm` (section 4.1): it fails with
`InvalidDimension` when `width <= 0`, `height <= 0` or `maxValue` is outside
`[1,255]`; on success the samples are defined but unspecified (`garbage`, one value
per sample). -/
def create_PGM_Image (width height maxValue : Int) (garbage : Nat → Nat) :
    Except PnmError GrayImage :=
  if width ≤ 0 ∨ height ≤ 0 ∨ maxValue < 1 ∨ maxValue > 255 then
    Except.error PnmError.InvalidDimension
  else
    Except.ok { width := width.toNat, height := height.toNat, maxValue := maxValue.toNat,
                samples := (List.range (width.toNat * height.toNat)).map garbage }

/-- Modelled from the spec: `copy_PPM_to_PGM` of `libpnm` (section 4.5): it fails with
`DimensionMismatch` when the destination's width, height or max-value differ from
the source's; otherwise the destination's sample at `(row, col)` becomes the selected
component of the source pixel at `(row, col)`. -/
def copy_PPM_to_PGM (src : ColorImage) (dst : GrayImage) (ch : Chan) :
    Except PnmError GrayImage :=
  if dst.width ≠ src.width ∨ dst.height ≠ src.height ∨ dst.maxValue ≠ src.maxValue then
    Except.error PnmError.DimensionMismatch
  else
    Except.ok { dst with samples := src.pixels.map (channelOf ch) }

/-! ### The codecs (sections 4.2-4.4); a file is a list of bytes -/

/-- ASCII white space: space, TAB, LF, CR. -/
def isBlank (b : Nat) : Bool :=
  b = 32 || b = 9 || b = 10 || b = 13

/-- An ASCII decimal digit. -/
def isDigit (b : Nat) : Bool :=
  decide (48 ≤ b) && decide (b ≤ 57)

/-- The decimal digits of `n`, least significant first, as ASCII bytes. -/
def digitsRev : Nat → Nat → List Nat
  | 0, _ => []
  | fuel + 1, n => if n < 10 then [48 + n] else (48 + n % 10) :: digitsRev fuel (n / 10)

/-- Modelled from the spec: a decimal token (sections 4.2-4.4), the digits of `n`
without leading zeros. -/
def decimal (n : Nat) : List Nat :=
  (digitsRev (n + 1) n).reverse

/-- The number that a run of digits denotes, continuing from `acc`; the rest of the
input starts at the first byte that is not a digit. -/
def parseDigits (acc : Nat) : List Nat → Nat × List Nat
  | [] => (acc, [])
  | b :: bs => if isDigit b then parseDigits (acc * 10 + (b - 48)) bs else (acc, b :: bs)

/-- Modelled from the spec: skipping what may stand between header tokens (section
4.2): white space and `#`-to-end-of-line comments; `inComment` tells whether a
comment is open. -/
def skipBlank (inComment : Bool) : List Nat → List Nat
  | [] => []
  | b :: bs =>
    if inComment then
      if b = 10 then skipBlank false bs else skipBlank true bs
    else if isBlank b then skipBlank false bs
    else if b = 35 then skipBlank true bs
    else b :: bs

/-- Modelled from the spec: reading one decimal token after optional white space and
comments: the number and the rest of the input, or `err` when no digit is there. -/
def readToken (err : PnmError) (bytes : List Nat) : Except PnmError (Nat × List Nat) :=
  match skipBlank false bytes with
  | [] => Except.error err
  | b :: bs => if isDigit b then Except.ok (parseDigits 0 (b :: bs)) else Except.error err

/-- Modelled from the spec: the single white-space byte that ends a header. -/
def endHeader (bytes : List Nat) : Except PnmError (List Nat) :=
  match bytes with
  | [] => Except.error PnmError.TruncatedData
  | b :: bs => if isBlank b then Except.ok bs else Except.error PnmError.MalformedHeader

/-- Modelled from the spec: reading `count` decimal sample tokens, each at most
`maxValue` (section 4.3: a larger sample is rejected, a missing one is
`TruncatedData`). -/
def readSamples (maxValue : Nat) : Nat → List Nat → Except PnmError (List Nat)
  | 0, _ => Except.ok []
  | count + 1, bytes =>
    match readToken PnmError.TruncatedData bytes with
    | Except.error e => Except.error e
    | Except.ok (s, rest) =>
      if s ≤ maxValue then
        match readSamples maxValue count rest with
        | Except.error e => Except.error e
        | Except.ok ss => Except.ok (s :: ss)
      else Except.error PnmError.MalformedHeader

/-- Modelled from the spec: reading `count` raw one-byte samples, each at most
`maxValue`. -/
def readBytes (maxValue : Nat) (count : Nat) (bytes : List Nat) :
    Except PnmError (List Nat) :=
  if bytes.length < count then Except.error PnmError.TruncatedData
  else if (bytes.take count).all (fun b => decide (b ≤ maxValue)) then
    Except.ok (bytes.take count)
  else Except.error PnmError.MalformedHeader

/-- Modelled from the spec: reading `count` bits written as the characters `0` and `1`
(section 4.2), separated by white space. -/
def readBits : Nat → List Nat → Except PnmError (List Nat)
  | 0, _ => Except.ok []
  | count + 1, bytes =>
    match skipBlank false bytes with
    | [] => Except.error PnmError.TruncatedData
    | b :: bs =>
      if b = 48 ∨ b = 49 then
        match readBits count bs with
        | Except.error e => Except.error e
        | Except.ok ss => Except.ok ((b - 48) :: ss)
      else Except.error PnmError.MalformedHeader

/-- Modelled from the spec: one packed byte (section 4.2), bit 7 is the leftmost
pixel; missing pixels are zero. -/
def packByte (bits : List Nat) : Nat :=
  bits.getD 0 0 * 128 + bits.getD 1 0 * 64 + bits.getD 2 0 * 32 + bits.getD 3 0 * 16 +
    bits.getD 4 0 * 8 + bits.getD 5 0 * 4 + bits.getD 6 0 * 2 + bits.getD 7 0

/-- The eight pixels of a packed byte, leftmost first. -/
def unpackByte (b : Nat) : List Nat :=
  [b / 128 % 2, b / 64 % 2, b / 32 % 2, b / 16 % 2, b / 8 % 2, b / 4 % 2, b / 2 % 2, b % 2]

/-- Modelled from the spec: a packed row of `width` pixels in `ceil(width/8)` bytes,
the unused low-order bits of the last byte zero. -/
def packRow : Nat → List Nat → List Nat
  | 0, _ => []
  | nbytes + 1, bits => packByte (bits.take 8) :: packRow nbytes (bits.drop 8)

/-- Modelled from the spec: the packed rows of a bitmap, no separators between rows. -/
def packRows (width : Nat) : Nat → List Nat → List Nat
  | 0, _ => []
  | height + 1, bits =>
    packRow ((width + 7) / 8) (bits.take width) ++ packRows width height (bits.drop width)

/-- Modelled from the spec: reading `height` packed rows of `width` pixels. -/
def unpackRows (width : Nat) : Nat → List Nat → Except PnmError (List Nat)
  | 0, _ => Except.ok []
  | height + 1, bytes =>
    if bytes.length < (width + 7) / 8 then Except.error PnmError.TruncatedData
    else
      match unpackRows width height (bytes.drop ((width + 7) / 8)) with
      | Except.error e => Except.error e
      | Except.ok ss =>
        Except.ok ((((bytes.take ((width + 7) / 8)).flatMap unpackByte).take width) ++ ss)

/-- The components of the pixels in row-major, pixel-major, (R,G,B) order. -/
def flatten3 (pixels : List (Nat × Nat × Nat)) : List Nat :=
  pixels.flatMap (fun p => [p.1, p.2.1, p.2.2])

/-- The pixels assembled from components in (R,G,B) order. -/
def group3 : List Nat → List (Nat × Nat × Nat)
  | r :: g :: b :: rest => (r, g, b) :: group3 rest
  | _ => []

/-- Modelled from the spec: the header of a bitmap file: the magic `P<digit>`, then
width and height as decimal tokens, then one newline. -/
def header2 (magic width height : Nat) : List Nat :=
  [80, magic, 10] ++ decimal width ++ [32] ++ decimal height ++ [10]

/-- Modelled from the spec: the header of a graymap or pixmap file: as `header2`, then
the max-value token and one newline. -/
def header3 (magic width height maxValue : Nat) : List Nat :=
  [80, magic, 10] ++ decimal width ++ [32] ++ decimal height ++ [10] ++
    decimal maxValue ++ [10]

/-- Modelled from the spec: the decimal sample tokens of a text body, one per line. -/
def textBody (samples : List Nat) : List Nat :=
  samples.flatMap (fun s => decimal s ++ [10])

/-- Modelled from the spec: `save_PBM_Image` of `libpnm` (section 4.2), the bytes of the
file: `P1` with the samples as the characters `0`/`1`, one per line, or `P4` with
the packed rows; the in-memory value is written as it is (1 = black). -/
def save_PBM_Image (img : BitImage) (raw : Bool) : Except PnmError (List Nat) :=
  if raw then
    Except.ok (header2 52 img.width img.height ++
      packRows img.width img.height img.samples)
  else
    Except.ok (header2 49 img.width img.height ++
      img.samples.flatMap (fun s => [48 + s, 10]))

/-- Modelled from the spec: `save_PGM_Image` of `libpnm` (section 4.3): `P2` with decimal
sample tokens or `P5` with one raw byte per sample; the binary form fails with
`UnsupportedMaxValue` when the max-value exceeds 255. -/
def save_PGM_Image (img : GrayImage) (raw : Bool) : Except PnmError (List Nat) :=
  if raw then
    if img.maxValue > 255 then Except.error PnmError.UnsupportedMaxValue
    else Except.ok (header3 53 img.width img.height img.maxValue ++ img.samples)
  else
    Except.ok (header3 50 img.width img.height img.maxValue ++ textBody img.samples)

/-- Modelled from the spec: `save_PPM_Image` of `libpnm` (section 4.4): `P3` or `P6`, the
components in row-major, pixel-major, (R,G,B) order. -/
def save_PPM_Image (img : ColorImage) (raw : Bool) : Except PnmError (List Nat) :=
  if raw then
    if img.maxValue > 255 then Except.error PnmError.UnsupportedMaxValue
    else Except.ok (header3 54 img.width img.height img.maxValue ++ flatten3 img.pixels)
  else
    Except.ok (header3 51 img.width img.height img.maxValue ++
      textBody (flatten3 img.pixels))

/-- Modelled from the spec: `load_PBM_Image`, the decoder of section 4.2: it accepts
both magics, reads the header tokens and then exactly `width * height` samples in
the encoding of the magic. -/
def load_PBM_Image (bytes : List Nat) : Except PnmError BitImage :=
  match bytes with
  | p :: d :: rest =>
    if p = 80 ∧ (d = 49 ∨ d = 52) then
      match readToken PnmError.MalformedHeader rest with
      | Except.error e => Except.error e
      | Except.ok (w, r1) =>
        match readToken PnmError.MalformedHeader r1 with
        | Except.error e => Except.error e
        | Except.ok (h, r2) =>
          match endHeader r2 with
          | Except.error e => Except.error e
          | Except.ok body =>
            match (if d = 49 then readBits (w * h) body else unpackRows w h body) with
            | Except.error e => Except.error e
            | Except.ok samples => Except.ok { width := w, height := h, samples := samples }
    else Except.error PnmError.BadMagic
  | _ => Except.error PnmError.BadMagic

/-- Modelled from the spec: the part shared by the gray and colour decoders (sections
4.3, 4.4): the header tokens, then `count width height` samples, text for the magic
`textMagic` and one raw byte each for `rawMagic`. -/
def loadSamples (textMagic rawMagic : Nat) (count : Nat → Nat → Nat) (bytes : List Nat) :
    Except PnmError (Nat × Nat × Nat × List Nat) :=
  match bytes with
  | p :: d :: rest =>
    if p = 80 ∧ (d = textMagic ∨ d = rawMagic) then
      match readToken PnmError.MalformedHeader rest with
      | Except.error e => Except.error e
      | Except.ok (w, r1) =>
        match readToken PnmError.MalformedHeader r1 with
        | Except.error e => Except.error e
        | Except.ok (h, r2) =>
          match readToken PnmError.MalformedHeader r2 with
          | Except.error e => Except.error e
          | Except.ok (m, r3) =>
            match endHeader r3 with
            | Except.error e => Except.error e
            | Except.ok body =>
              match (if d = textMagic then readSamples m (count w h) body
                     else readBytes m (count w h) body) with
              | Except.error e => Except.error e
              | Except.ok samples => Except.ok (w, h, m, samples)
    else Except.error PnmError.BadMagic
  | _ => Except.error PnmError.BadMagic

/-- Modelled from the spec: `load_PGM_Image`, the decoder of section 4.3. -/
def load_PGM_Image (bytes : List Nat) : Except PnmError GrayImage :=
  match loadSamples 50 53 (fun w h => w * h) bytes with
  | Except.error e => Except.error e
  | Except.ok (w, h, m, samples) =>
    Except.ok { width := w, height := h, maxValue := m, samples := samples }

/-- Modelled from the spec: `load_PPM_Image`, the decoder of section 4.4. -/
def load_PPM_Image (bytes : List Nat) : Except PnmError ColorImage :=
  match loadSamples 51 54 (fun w h => w * h * 3) bytes with
  | Except.error e => Except.error e
  | Except.ok (w, h, m, samples) =>
    Except.ok { width := w, height := h, maxValue := m, pixels := group3 samples }

end PNM

namespace PNM

/-! ## Facts about `validate_dimensions` -/

/-- What acceptance means, in the floor-division vocabulary that `omega` reads. -/
theorem validate_accepts (t W H : Int) (h : (validate_dimensions t W H).1 = 1) :
    4 ≤ H ∧ H % 4 = 0 ∧ ((t = 1 ∨ t = 2) → 4 ≤ W ∧ W % 4 = 0) ∧
      (t = 3 → 6 ≤ W ∧ W % 6 = 0) := by
  unfold validate_dimensions at h
  by_cases hH : H < 4 ∨ H.tmod 4 ≠ 0
  · simp [hH] at h
  · rw [if_neg hH] at h
    have hH4 : 4 ≤ H := by omega
    have hHm : H % 4 = 0 := by
      have : H.tmod 4 = 0 := by
        by_contra hc; exact hH (Or.inr hc)
      rwa [Int.tmod_eq_emod (by omega) (by omega)] at this
    refine ⟨hH4, hHm, ?_, ?_⟩
    · intro ht
      rw [if_pos ht] at h
      by_cases hW : W < 4 ∨ W.tmod 4 ≠ 0
      · simp [hW] at h
      · have hW4 : 4 ≤ W := by omega
        have : W.tmod 4 = 0 := by
          by_contra hc; exact hW (Or.inr hc)
        rw [Int.tmod_eq_emod (by omega) (by omega)] at this
        exact ⟨hW4, this⟩
    · intro ht
      have hn : ¬ (t = 1 ∨ t = 2) := by omega
      rw [if_neg hn, if_pos ht] at h
      by_cases hW : W < 6 ∨ W.tmod 6 ≠ 0
      · simp [hW] at h
      · have hW6 : 6 ≤ W := by omega
        have : W.tmod 6 = 0 := by
          by_contra hc; exact hW (Or.inr hc)
        rw [Int.tmod_eq_emod (by omega) (by omega)] at this
        exact ⟨hW6, this⟩

/-- The result of `validate_dimensions` on the three image types, rule by rule. -/
theorem validate_dimensions_spec (img_type width height : Int)
    (ht : img_type = 1 ∨ img_type = 2 ∨ img_type = 3) :
    ((validate_dimensions img_type width height).1 = 1 ↔
        (height ≥ 4 ∧ (4:Int) ∣ height ∧
          (((img_type = 1 ∨ img_type = 2) ∧ width ≥ 4 ∧ (4:Int) ∣ width) ∨
           (img_type = 3 ∧ width ≥ 6 ∧ (6:Int) ∣ width)))) ∧
    ((validate_dimensions img_type width height).1 ≠ 1 →
        (validate_dimensions img_type width height).1 = 0) := by
  constructor
  · constructor
    · intro h
      obtain ⟨h1, h2, h3, h4⟩ := validate_accepts _ _ _ h
      refine ⟨h1, Int.dvd_of_emod_eq_zero h2, ?_⟩
      rcases ht with ht | ht | ht
      · exact Or.inl ⟨Or.inl ht, (h3 (Or.inl ht)).1, Int.dvd_of_emod_eq_zero (h3 (Or.inl ht)).2⟩
      · exact Or.inl ⟨Or.inr ht, (h3 (Or.inr ht)).1, Int.dvd_of_emod_eq_zero (h3 (Or.inr ht)).2⟩
      · exact Or.inr ⟨ht, (h4 ht).1, Int.dvd_of_emod_eq_zero (h4 ht).2⟩
    · rintro ⟨h1, h2, h3⟩
      have hH : ¬ (height < 4 ∨ height.tmod 4 ≠ 0) := by
        have := Int.tmod_eq_zero_of_dvd h2
        intro hc
        rcases hc with hc | hc
        · omega
        · exact hc this
      unfold validate_dimensions
      rw [if_neg hH]
      rcases h3 with ⟨h3, h4, h5⟩ | ⟨h3, h4, h5⟩
      · have hW : ¬ (width < 4 ∨ width.tmod 4 ≠ 0) := by
          have := Int.tmod_eq_zero_of_dvd h5
          intro hc
          rcases hc with hc | hc
          · omega
          · exact hc this
        rw [if_pos h3, if_neg hW]
      · have hn : ¬ (img_type = 1 ∨ img_type = 2) := by omega
        have hW : ¬ (width < 6 ∨ width.tmod 6 ≠ 0) := by
          have := Int.tmod_eq_zero_of_dvd h5
          intro hc
          rcases hc with hc | hc
          · omega
          · exact hc this
        rw [if_neg hn, if_pos h3, if_neg hW]
  · intro h
    unfold validate_dimensions at h ⊢
    split_ifs at h ⊢ <;> simp_all

/-- C1. For every `img_type` in {1,2,3} and all integers `width`, `height`,
`validate_dimensions` returns 1 exactly when `height >= 4`, 4 divides `height`, and
the width rule of the type holds (types 1 and 2: `width >= 4` and 4 divides `width`;
type 3: `width >= 6` and 6 divides `width`); in every other case it returns 0. -/
theorem C1_validate_dimensions_iff (img_type width height : Int)
    (ht : img_type = 1 ∨ img_type = 2 ∨ img_type = 3) :
    ((validate_dimensions img_type width height).1 = 1 ↔
        (height ≥ 4 ∧ (4:Int) ∣ height ∧
          (((img_type = 1 ∨ img_type = 2) ∧ width ≥ 4 ∧ (4:Int) ∣ width) ∨
           (img_type = 3 ∧ width ≥ 6 ∧ (6:Int) ∣ width)))) ∧
    ((validate_dimensions img_type width height).1 ≠ 1 →
        (validate_dimensions img_type width height).1 = 0) :=
  validate_dimensions_spec img_type width height ht

/-- C1 at a concrete input: type 3 (color), width 12, height 8 is accepted. -/
theorem C1_validate_dimensions_iff_witness :
    ((3:Int) = 1 ∨ (3:Int) = 2 ∨ (3:Int) = 3) ∧
    (((validate_dimensions 3 12 8).1 = 1 ↔
        ((8:Int) ≥ 4 ∧ (4:Int) ∣ 8 ∧
          ((((3:Int) = 1 ∨ (3:Int) = 2) ∧ (12:Int) ≥ 4 ∧ (4:Int) ∣ 12) ∨
           ((3:Int) = 3 ∧ (12:Int) ≥ 6 ∧ (6:Int) ∣ 12)))) ∧
     ((validate_dimensions 3 12 8).1 ≠ 1 → (validate_dimensions 3 12 8).1 = 0)) :=
  ⟨by decide, C1_validate_dimensions_iff 3 12 8 (by decide)⟩

theorem validate_prints (t W H : Int) :
    ∀ e ∈ (validate_dimensions t W H).2, e.isLibCall = false := by
  intro e he
  unfold validate_dimensions at he
  split_ifs at he <;> simp at he <;> (try subst he) <;> rfl

theorem validate_rejects (t W H : Int) (ht : t = 1 ∨ t = 2 ∨ t = 3)
    (hbad : ¬ (H ≥ 4 ∧ (4:Int) ∣ H ∧ ((t = 1 ∨ t = 2) → W ≥ 4 ∧ (4:Int) ∣ W) ∧
      (t = 3 → W ≥ 6 ∧ (6:Int) ∣ W))) :
    (validate_dimensions t W H).1 = 0 := by
  obtain ⟨h1, h2⟩ := validate_dimensions_spec t W H ht
  apply h2
  intro hacc
  apply hbad
  obtain ⟨a, b, c⟩ := h1.mp hacc
  refine ⟨a, b, ?_, ?_⟩
  · intro h12
    rcases c with c | c
    · exact c.2
    · omega
  · intro h3
    rcases c with c | c
    · omega
    · exact c.2

/-! ## Loops -/

theorem foldlM_range_spec {σ : Type} (f : σ → Nat → Option σ) (Inv : Nat → σ → Prop) :
    ∀ (n : Nat) (s : σ), Inv 0 s →
      (∀ k s, k < n → Inv k s → ∃ s', f s k = some s' ∧ Inv (k + 1) s') →
      ∃ s', (List.range n).foldlM f s = some s' ∧ Inv n s' := by
  intro n
  induction n with
  | zero =>
    intro s h0 _
    exact ⟨s, by simp, h0⟩
  | succ n ih =>
    intro s h0 hstep
    obtain ⟨s1, hs1, hinv1⟩ := ih s h0 (fun k s hk hi => hstep k s (by omega) hi)
    obtain ⟨s2, hs2, hinv2⟩ := hstep n s1 (by omega) hinv1
    refine ⟨s2, ?_, hinv2⟩
    rw [List.range_succ, List.foldlM_append, hs1]
    simp [hs2]

/-- Loop rule: an invariant indexed by the loop counter that every iteration
re-establishes holds at the exit, and the loop has a result. -/
theorem forLoop_spec {σ : Type} (lo hi : Int) (body : Int → σ → Option σ)
    (Inv : Int → σ → Prop) (s : σ) (hle : lo ≤ hi) (h0 : Inv lo s)
    (hstep : ∀ i s, lo ≤ i → i < hi → Inv i s → ∃ s', body i s = some s' ∧ Inv (i + 1) s') :
    ∃ s', forLoop lo hi body s = some s' ∧ Inv hi s' := by
  have key := foldlM_range_spec (fun (s : σ) (k : Nat) => body (lo + Int.ofNat k) s)
    (fun k s => Inv (lo + (k : Int)) s) (hi - lo).toNat s (by simpa using h0)
    (by
      intro k s hk hinv
      obtain ⟨s', h1, h2⟩ := hstep (lo + (k : Int)) s (by omega) (by omega) hinv
      refine ⟨s', h1, ?_⟩
      have : lo + ((k + 1 : Nat) : Int) = lo + (k : Int) + 1 := by push_cast; ring
      show Inv (lo + ((k + 1 : Nat) : Int)) s'
      rw [this]; exact h2)
  obtain ⟨s', h1, h2⟩ := key
  refine ⟨s', by unfold forLoop; exact h1, ?_⟩
  have : lo + (((hi - lo).toNat : Nat) : Int) = hi := by
    rw [Int.toNat_of_nonneg (by omega)]; ring
  rw [this] at h2; exact h2

theorem Evolves.refl {κ : Type} (idx : κ → Int) (T : Int → κ → Int) (P : κ × Int → Prop)
    (lo : Int) (a : Image κ) : Evolves idx T P lo lo a a := by
  refine ⟨rfl, rfl, ?_, fun w hw => Or.inl hw⟩
  intro k
  have : ¬ (lo ≤ idx k ∧ idx k < lo) := by omega
  rw [if_neg this]

theorem Evolves.step {κ : Type} (idx : κ → Int) (T : Int → κ → Int) (P : κ × Int → Prop)
    (lo i : Int) (a s s' : Image κ) (hi : lo ≤ i)
    (h1 : Evolves idx T P lo i a s) (h2 : Evolves idx T P i (i + 1) s s') :
    Evolves idx T P lo (i + 1) a s' := by
  obtain ⟨hw1, hh1, him1, hl1⟩ := h1
  obtain ⟨hw2, hh2, him2, hl2⟩ := h2
  refine ⟨hw2.trans hw1, hh2.trans hh1, ?_, ?_⟩
  · intro k
    rw [him2 k, him1 k]
    by_cases hk : idx k = i
    · have c1 : i ≤ idx k ∧ idx k < i + 1 := by omega
      have c2 : ¬ (lo ≤ idx k ∧ idx k < i) := by omega
      have c3 : lo ≤ idx k ∧ idx k < i + 1 := by omega
      rw [if_pos c1, if_neg c2, if_pos c3]
    · have c1 : ¬ (i ≤ idx k ∧ idx k < i + 1) := by omega
      rw [if_neg c1]
      by_cases hk2 : lo ≤ idx k ∧ idx k < i
      · have c3 : lo ≤ idx k ∧ idx k < i + 1 := by omega
        rw [if_pos hk2, if_pos c3]
      · have c3 : ¬ (lo ≤ idx k ∧ idx k < i + 1) := by omega
        rw [if_neg hk2, if_neg c3]
  · intro w hw
    rcases hl2 w hw with h | h
    · exact hl1 w h
    · exact Or.inr h

/-- A loop whose every iteration `i` rewrites only the samples of index `i`
rewrites exactly the samples whose index lies in the loop's interval. -/
theorem forLoop_evolves {κ : Type} (idx : κ → Int) (T : Int → κ → Int) (P : κ × Int → Prop)
    (W H lo hi : Int) (body : Int → Image κ → Option (Image κ)) (hle : lo ≤ hi)
    (hbody : ∀ i a, lo ≤ i → i < hi → a.width = W → a.height = H →
      ∃ b, body i a = some b ∧ Evolves idx T P i (i + 1) a b)
    (a : Image κ) (hw : a.width = W) (hh : a.height = H) :
    ∃ b, forLoop lo hi body a = some b ∧ Evolves idx T P lo hi a b := by
  apply forLoop_spec lo hi body (fun i s => Evolves idx T P lo i a s) a hle
    (Evolves.refl idx T P lo a)
  intro i s h1 h2 hinv
  obtain ⟨b, hb, hev⟩ := hbody i s h1 h2 (hinv.1.trans hw) (hinv.2.1.trans hh)
  exact ⟨b, hb, Evolves.step idx T P lo i a s b h1 hinv hev⟩

/-- Two nested loops over rows and columns whose body rewrites exactly the samples
of pixel `(r, c)` to `F`: afterwards the samples of the pixels in the box hold `F`
and all the others are untouched. -/
theorem nested_spec {κ : Type} (row col : κ → Int) (F : κ → Int) (P : κ × Int → Prop)
    (W H rlo rhi clo chi : Int) (body : Int → Int → Image κ → Option (Image κ))
    (hrle : rlo ≤ rhi) (hcle : clo ≤ chi)
    (hbody : ∀ r c a, rlo ≤ r → r < rhi → clo ≤ c → c < chi → a.width = W → a.height = H →
      ∃ b, body r c a = some b ∧ b.width = W ∧ b.height = H ∧
        (∀ k, b.image k = if row k = r ∧ col k = c then F k else a.image k) ∧
        (∀ w ∈ b.written, w ∈ a.written ∨ P w))
    (a : Image κ) (hw : a.width = W) (hh : a.height = H) :
    ∃ b, forLoop rlo rhi (fun r img => forLoop clo chi (fun c img => body r c img) img) a
          = some b ∧ b.width = W ∧ b.height = H ∧
        (∀ k, b.image k =
          if rlo ≤ row k ∧ row k < rhi ∧ clo ≤ col k ∧ col k < chi then F k else a.image k) ∧
        (∀ w ∈ b.written, w ∈ a.written ∨ P w) := by
  have outer := forLoop_evolves row
    (fun old k => if clo ≤ col k ∧ col k < chi then F k else old) P W H rlo rhi
    (fun r img => forLoop clo chi (fun c img => body r c img) img) hrle
    (by
      intro r a1 hr1 hr2 hw1 hh1
      have inner := forLoop_evolves col (fun old k => if row k = r then F k else old) P W H
        clo chi (fun c img => body r c img) hcle
        (by
          intro c a2 hc1 hc2 hw2 hh2
          obtain ⟨b, hb, hbw, hbh, hbi, hbl⟩ := hbody r c a2 hr1 hr2 hc1 hc2 hw2 hh2
          refine ⟨b, hb, hbw.trans hw2.symm, hbh.trans hh2.symm, ?_, hbl⟩
          intro k
          rw [hbi k]
          dsimp only
          by_cases hk : col k = c
          · have c1 : c ≤ col k ∧ col k < c + 1 := by omega
            rw [if_pos c1]
            by_cases hk2 : row k = r
            · rw [if_pos ⟨hk2, hk⟩, if_pos hk2]
            · have : ¬ (row k = r ∧ col k = c) := fun h => hk2 h.1
              rw [if_neg this, if_neg hk2]
          · have c1 : ¬ (c ≤ col k ∧ col k < c + 1) := by omega
            have : ¬ (row k = r ∧ col k = c) := fun h => hk h.2
            rw [if_neg c1, if_neg this])
        a1 hw1 hh1
      obtain ⟨b, hb, hbw, hbh, hbi, hbl⟩ := inner
      refine ⟨b, hb, hbw, hbh, ?_, hbl⟩
      intro k
      rw [hbi k]
      dsimp only
      by_cases hk : row k = r
      · have c1 : r ≤ row k ∧ row k < r + 1 := by omega
        rw [if_pos c1, if_pos hk]
      · have c1 : ¬ (r ≤ row k ∧ row k < r + 1) := by omega
        rw [if_neg c1, if_neg hk, ite_self])
    a hw hh
  obtain ⟨b, hb, hbw, hbh, hbi, hbl⟩ := outer
  refine ⟨b, hb, hbw.trans hw, hbh.trans hh, ?_, hbl⟩
  intro k
  rw [hbi k]
  dsimp only
  by_cases h1 : rlo ≤ row k ∧ row k < rhi
  · rw [if_pos h1]
    by_cases h2 : clo ≤ col k ∧ col k < chi
    · rw [if_pos h2, if_pos ⟨h1.1, h1.2, h2.1, h2.2⟩]
    · have : ¬ (rlo ≤ row k ∧ row k < rhi ∧ clo ≤ col k ∧ col k < chi) :=
        fun h => h2 ⟨h.2.2.1, h.2.2.2⟩
      rw [if_neg h2, if_neg this]
  · have : ¬ (rlo ≤ row k ∧ row k < rhi ∧ clo ≤ col k ∧ col k < chi) :=
      fun h => h1 ⟨h.1, h.2.1⟩
    rw [if_neg h1, if_neg this]

/-- A store inside the grid: the one sample changes, the dimensions stay. -/
theorem store2_spec (a : Image (Int × Int)) (r c v : Int)
    (hr : 0 ≤ r ∧ r < a.height) (hc : 0 ≤ c ∧ c < a.width) :
    ∃ b, store2 a r c v = some b ∧ b.width = a.width ∧ b.height = a.height ∧
      (∀ k, b.image k = if k = (r, c) then v % 256 else a.image k) ∧
      (∀ w ∈ b.written, w ∈ a.written ∨ w = ((r, c), v)) := by
  refine ⟨a.put (r, c) v, ?_, rfl, rfl, fun k => rfl, ?_⟩
  · unfold store2
    rw [if_pos ⟨hr.1, hr.2, hc.1, hc.2⟩]
  · intro w hw
    simpa [Image.put] using hw

theorem store3_spec (a : Image (Int × Int × Chan)) (r c : Int) (ch : Chan) (v : Int)
    (hr : 0 ≤ r ∧ r < a.height) (hc : 0 ≤ c ∧ c < a.width) :
    ∃ b, store3 a r c ch v = some b ∧ b.width = a.width ∧ b.height = a.height ∧
      (∀ k, b.image k = if k = (r, c, ch) then v % 256 else a.image k) ∧
      (∀ w ∈ b.written, w ∈ a.written ∨ w = ((r, c, ch), v)) := by
  refine ⟨a.put (r, c, ch) v, ?_, rfl, rfl, fun k => rfl, ?_⟩
  · unfold store3
    rw [if_pos ⟨hr.1, hr.2, hc.1, hc.2⟩]
  · intro w hw
    simpa [Image.put] using hw

theorem cdiv_of_ne_zero (a b : Int) (hb : b ≠ 0) : cdiv a b = some (a.tdiv b) := by
  unfold cdiv
  rw [if_neg hb]

theorem store2_pixel (a : Image (Int × Int)) (W H r c v : Int)
    (hw : a.width = W) (hh : a.height = H) (hr : 0 ≤ r ∧ r < H) (hc : 0 ≤ c ∧ c < W) :
    ∃ b, store2 a r c v = some b ∧ b.width = W ∧ b.height = H ∧
      (∀ k : Int × Int, b.image k = if k.1 = r ∧ k.2 = c then v % 256 else a.image k) ∧
      (∀ w ∈ b.written, w ∈ a.written ∨ w = ((r, c), v)) := by
  obtain ⟨b, hb, hbw, hbh, hbi, hbl⟩ :=
    store2_spec a r c v (by rw [hh]; exact hr) (by rw [hw]; exact hc)
  refine ⟨b, hb, hbw.trans hw, hbh.trans hh, ?_, hbl⟩
  intro k
  rw [hbi k]
  by_cases hk : k = (r, c)
  · subst hk; simp
  · have : ¬ (k.1 = r ∧ k.2 = c) := by
      intro h; apply hk; exact Prod.ext h.1 h.2
    rw [if_neg hk, if_neg this]

/-- A loop over the rows whose every iteration stores one value at column `c row`
inside the grid appends exactly one store per row to the log, in row order. -/
theorem forLoop_one_store_per_row (W H : Int) (hH : 0 ≤ H) (c : Int → Int) (v : Int)
    (body : Int → Image (Int × Int) → Option (Image (Int × Int)))
    (hbody : ∀ r a, 0 ≤ r → r < H → a.width = W → a.height = H →
      body r a = store2 a r (c r) v ∧ 0 ≤ c r ∧ c r < W)
    (a : Image (Int × Int)) (hw : a.width = W) (hh : a.height = H) :
    ∃ b, forLoop 0 H body a = some b ∧ b.width = W ∧ b.height = H ∧
      b.written = a.written ++ (rows H).map (fun r => ((r, c r), v)) := by
  have key := forLoop_spec 0 H body
    (fun i s => s.width = W ∧ s.height = H ∧
      s.written = a.written ++ (rows i).map (fun r => ((r, c r), v))) a hH
    ⟨hw, hh, by simp [rows]⟩
    (by
      intro i s hi0 hiH hinv
      obtain ⟨sw, sh, sl⟩ := hinv
      obtain ⟨hb, hc0, hcW⟩ := hbody i s hi0 hiH sw sh
      refine ⟨s.put (i, c i) v, ?_, sw, sh, ?_⟩
      · rw [hb]
        unfold store2
        rw [if_pos ⟨hi0, by rw [sh]; exact hiH, hc0, by rw [sw]; exact hcW⟩]
      · show s.written ++ [((i, c i), v)] = _
        rw [sl]
        have hn : (i + 1).toNat = i.toNat + 1 := by omega
        have hi : Int.ofNat i.toNat = i := by
          show ((i.toNat : Nat) : Int) = i
          omega
        unfold rows
        rw [hn, List.range_succ, List.map_append, List.map_append, List.append_assoc]
        simp only [List.map_cons, List.map_nil, hi])
  obtain ⟨b, hb, h1, h2, h3⟩ := key
  exact ⟨b, hb, h1, h2, h3⟩

/-! ## 32-bit arithmetic and stores -/

/-- A value inside the range of `int` is not changed by the reduction. -/
theorem wrap32_eq (x : Int) (h1 : -2147483648 ≤ x) (h2 : x ≤ 2147483647) : wrap32 x = x := by
  unfold wrap32
  omega

theorem wrap32_range (x : Int) : -2147483648 ≤ wrap32 x ∧ wrap32 x ≤ 2147483647 := by
  unfold wrap32
  omega

theorem Image.put_width {κ : Type} [DecidableEq κ] (img : Image κ) (k : κ) (v : Int) :
    (img.put k v).width = img.width := rfl

theorem Image.put_height {κ : Type} [DecidableEq κ] (img : Image κ) (k : κ) (v : Int) :
    (img.put k v).height = img.height := rfl

theorem Image.put_written {κ : Type} [DecidableEq κ] (img : Image κ) (k : κ) (v : Int) :
    (img.put k v).written = img.written ++ [(k, v)] := rfl

/-- A product of a row index below `H` with a positive width fits in `int` when
`(H - 1) * W` does. -/
theorem row_product_fits (W H r : Int) (hW : 0 < W) (hr0 : 0 ≤ r) (hrH : r < H)
    (hfit : (H - 1) * W ≤ 2147483647) : wrap32 (r * W) = r * W := by
  have h1 : 0 ≤ r * W := Int.mul_nonneg hr0 (by omega)
  have h2 : r * W ≤ (H - 1) * W := Int.mul_le_mul_of_nonneg_right (by omega) (by omega)
  exact wrap32_eq _ (by omega) (by omega)

/-- On a height of at least 4 the bound on `(H - 1) * W` bounds the width. -/
theorem fits_width (W H : Int) (hW : 0 < W) (hH : 4 ≤ H) (hfit : (H - 1) * W ≤ 2147483647) :
    W ≤ 2147483647 := by
  have h2 : 3 * W ≤ (H - 1) * W := Int.mul_le_mul_of_nonneg_right (by omega) (by omega)
  omega

/-! ## The bit generator -/

/-- The column of the first diagonal in row `r` lies inside the image. -/
theorem diag_col_bounds (W H r : Int) (hW : 0 < W) (hr0 : 0 ≤ r) (hrH : r < H) :
    0 ≤ (r * W).tdiv H ∧ (r * W).tdiv H < W := by
  have hH : 0 < H := by omega
  have hnum : 0 ≤ r * W := Int.mul_nonneg hr0 (by omega)
  rw [Int.tdiv_eq_ediv hnum (by omega)]
  refine ⟨Int.ediv_nonneg hnum (by omega), ?_⟩
  apply Int.ediv_lt_of_lt_mul hH
  rw [Int.mul_comm W H]
  exact mul_lt_mul_of_pos_right hrH hW

theorem pbm_background_spec (W H : Int) (hW4 : 4 ≤ W) (hWm : W % 4 = 0) (hH4 : 4 ≤ H)
    (hHm : H % 4 = 0) (a : Image (Int × Int)) (hw : a.width = W) (hh : a.height = H) :
    ∃ b, pbm_background W H a = some b ∧ b.width = W ∧ b.height = H := by
  have t2W : W.tdiv 2 = W / 2 := Int.tdiv_eq_ediv (by omega) (by omega)
  have t2H : H.tdiv 2 = H / 2 := Int.tdiv_eq_ediv (by omega) (by omega)
  have tlW : (W - W.tdiv 2).tdiv 2 = (W - W / 2) / 2 := by
    rw [t2W]; exact Int.tdiv_eq_ediv (by omega) (by omega)
  have tlH : (H - H.tdiv 2).tdiv 2 = (H - H / 2) / 2 := by
    rw [t2H]; exact Int.tdiv_eq_ediv (by omega) (by omega)
  obtain ⟨b1, e1, w1, h1, -, -⟩ := nested_spec Prod.fst Prod.snd (fun _ => 1)
    (fun _ => True) W H 0 H 0 W (fun r c img => store2 img r c BLACK) (by omega) (by omega)
    (by
      intro r c a' hr1 hr2 hc1 hc2 hw' hh'
      obtain ⟨b, hb, hbw, hbh, hbi, -⟩ :=
        store2_pixel a' W H r c BLACK hw' hh' ⟨hr1, hr2⟩ ⟨hc1, hc2⟩
      exact ⟨b, hb, hbw, hbh, hbi, fun _ _ => Or.inr trivial⟩)
    a hw hh
  obtain ⟨b2, e2, w2, h2, -, -⟩ := nested_spec Prod.fst Prod.snd (fun _ => 0)
    (fun _ => True) W H ((H - H.tdiv 2).tdiv 2) ((H - H.tdiv 2).tdiv 2 + H.tdiv 2 - 1 + 1)
    ((W - W.tdiv 2).tdiv 2) ((W - W.tdiv 2).tdiv 2 + W.tdiv 2 - 1 + 1)
    (fun r c img => store2 img r c WHITE)
    (by rw [tlH, t2H]; omega) (by rw [tlW, t2W]; omega)
    (by
      intro r c a' hr1 hr2 hc1 hc2 hw' hh'
      rw [tlH] at hr1; rw [tlH, t2H] at hr2; rw [tlW] at hc1; rw [tlW, t2W] at hc2
      obtain ⟨b, hb, hbw, hbh, hbi, -⟩ :=
        store2_pixel a' W H r c WHITE hw' hh' (by omega) (by omega)
      exact ⟨b, hb, hbw, hbh, hbi, fun _ _ => Or.inr trivial⟩)
    b1 w1 h1
  refine ⟨b2, ?_, w2, h2⟩
  unfold pbm_background
  simp only [Option.bind_eq_bind] at e1 e2 ⊢
  rw [e1, Option.some_bind, e2]

/-- The bit generator on positive dimensions whose products `row * width` fit in `int`,
loop by loop: it has a result, every pixel of the grid ends up determined by the
rectangle and the two diagonals, and every store wrote a bit inside the grid. -/
theorem pbm_fill_spec (W H : Int) (hW : 0 < W) (hH : 0 < H) (hWi : W ≤ 2147483647)
    (hfit : (H - 1) * W ≤ 2147483647) (a : Image (Int × Int))
    (hw : a.width = W) (hh : a.height = H) :
    ∃ b, pbm_fill W H a = some b ∧ b.width = W ∧ b.height = H ∧
      (∀ r c : Int, 0 ≤ r → r < H → 0 ≤ c → c < W →
        b.image (r, c) =
          if c = W - 1 - (r * W).tdiv H then 1
          else if c = (r * W).tdiv H then 1
          else if (H - H.tdiv 2).tdiv 2 ≤ r ∧ r < (H - H.tdiv 2).tdiv 2 + H.tdiv 2 - 1 + 1 ∧
              (W - W.tdiv 2).tdiv 2 ≤ c ∧ c < (W - W.tdiv 2).tdiv 2 + W.tdiv 2 - 1 + 1 then 0
          else 1) ∧
      (∀ w ∈ b.written, w ∈ a.written ∨ PbmWrite W H w) := by
  have t2W : W.tdiv 2 = W / 2 := Int.tdiv_eq_ediv (by omega) (by omega)
  have t2H : H.tdiv 2 = H / 2 := Int.tdiv_eq_ediv (by omega) (by omega)
  have tlW : (W - W.tdiv 2).tdiv 2 = (W - W / 2) / 2 := by
    rw [t2W]; exact Int.tdiv_eq_ediv (by omega) (by omega)
  have tlH : (H - H.tdiv 2).tdiv 2 = (H - H / 2) / 2 := by
    rw [t2H]; exact Int.tdiv_eq_ediv (by omega) (by omega)
  -- loop 1: everything BLACK
  obtain ⟨b1, e1, w1, h1, i1, l1⟩ := nested_spec Prod.fst Prod.snd (fun _ => 1)
    (PbmWrite W H) W H 0 H 0 W (fun r c img => store2 img r c BLACK) (by omega) (by omega)
    (by
      intro r c a' hr1 hr2 hc1 hc2 hw' hh'
      obtain ⟨b, hb, hbw, hbh, hbi, hbl⟩ :=
        store2_pixel a' W H r c BLACK hw' hh' ⟨hr1, hr2⟩ ⟨hc1, hc2⟩
      refine ⟨b, hb, hbw, hbh, hbi, ?_⟩
      intro w hw
      rcases hbl w hw with h | h
      · exact Or.inl h
      · right; subst h; exact ⟨Or.inr rfl, hr1, hr2, hc1, hc2⟩)
    a hw hh
  -- loop 2: the rectangle WHITE
  obtain ⟨b2, e2, w2, h2, i2, l2⟩ := nested_spec Prod.fst Prod.snd (fun _ => 0)
    (PbmWrite W H) W H ((H - H.tdiv 2).tdiv 2) ((H - H.tdiv 2).tdiv 2 + H.tdiv 2 - 1 + 1)
    ((W - W.tdiv 2).tdiv 2) ((W - W.tdiv 2).tdiv 2 + W.tdiv 2 - 1 + 1)
    (fun r c img => store2 img r c WHITE)
    (by rw [tlH, t2H]; omega) (by rw [tlW, t2W]; omega)
    (by
      intro r c a' hr1 hr2 hc1 hc2 hw' hh'
      rw [tlH] at hr1; rw [tlH, t2H] at hr2; rw [tlW] at hc1; rw [tlW, t2W] at hc2
      have hr : 0 ≤ r ∧ r < H := by omega
      have hc : 0 ≤ c ∧ c < W := by omega
      obtain ⟨b, hb, hbw, hbh, hbi, hbl⟩ := store2_pixel a' W H r c WHITE hw' hh' hr hc
      refine ⟨b, hb, hbw, hbh, hbi, ?_⟩
      intro w hw
      rcases hbl w hw with h | h
      · exact Or.inl h
      · right; subst h; exact ⟨Or.inl rfl, hr.1, hr.2, hc.1, hc.2⟩)
    b1 w1 h1
  -- loop 3: first diagonal
  obtain ⟨b3, e3, w3, h3, i3, l3⟩ := forLoop_evolves Prod.fst
    (fun old (k : Int × Int) => if k.2 = (k.1 * W).tdiv H then 1 else old)
    (PbmWrite W H) W H 0 H
    (fun row img => do
      let col ← cdiv (wrap32 (row * W)) H
      if col < W then store2 img row col BLACK else pure img) (by omega)
    (by
      intro r a' hr1 hr2 hw' hh'
      obtain ⟨hd0, hdW⟩ := diag_col_bounds W H r hW hr1 hr2
      obtain ⟨b, hb, hbw, hbh, hbi, hbl⟩ :=
        store2_pixel a' W H r ((r * W).tdiv H) BLACK hw' hh' ⟨hr1, hr2⟩ ⟨hd0, hdW⟩
      refine ⟨b, ?_, hbw.trans hw'.symm, hbh.trans hh'.symm, ?_, ?_⟩
      · have hne : H ≠ 0 := by omega
        dsimp only
        rw [row_product_fits W H r hW hr1 hr2 hfit, cdiv_of_ne_zero _ _ hne]
        simp only [Option.bind_eq_bind, Option.some_bind, if_pos hdW]
        exact hb
      · intro k
        rw [hbi k]
        dsimp only
        by_cases hk : k.1 = r
        · have c1 : r ≤ k.1 ∧ k.1 < r + 1 := by omega
          rw [if_pos c1, hk]
          by_cases hk2 : k.2 = (r * W).tdiv H
          · rw [if_pos ⟨rfl, hk2⟩, if_pos hk2]; rfl
          · have : ¬ (r = r ∧ k.2 = (r * W).tdiv H) := fun h => hk2 h.2
            rw [if_neg this, if_neg hk2]
        · have c1 : ¬ (r ≤ k.1 ∧ k.1 < r + 1) := by omega
          have : ¬ (k.1 = r ∧ k.2 = (r * W).tdiv H) := fun h => hk h.1
          rw [if_neg c1, if_neg this]
      · intro w hw
        rcases hbl w hw with h | h
        · exact Or.inl h
        · right; subst h; exact ⟨Or.inr rfl, hr1, hr2, hd0, hdW⟩)
    b2 w2 h2
  -- loop 4: second diagonal
  obtain ⟨b4, e4, w4, h4, i4, l4⟩ := forLoop_evolves Prod.fst
    (fun old (k : Int × Int) => if k.2 = W - 1 - (k.1 * W).tdiv H then 1 else old)
    (PbmWrite W H) W H 0 H
    (fun row img => do
      let q ← cdiv (wrap32 (row * W)) H
      let col := wrap32 (W - 1 - q)
      if col ≥ 0 ∧ col < W then store2 img row col BLACK else pure img) (by omega)
    (by
      intro r a' hr1 hr2 hw' hh'
      obtain ⟨hd0, hdW⟩ := diag_col_bounds W H r hW hr1 hr2
      have hc : 0 ≤ W - 1 - (r * W).tdiv H ∧ W - 1 - (r * W).tdiv H < W := by omega
      obtain ⟨b, hb, hbw, hbh, hbi, hbl⟩ :=
        store2_pixel a' W H r (W - 1 - (r * W).tdiv H) BLACK hw' hh' ⟨hr1, hr2⟩ hc
      refine ⟨b, ?_, hbw.trans hw'.symm, hbh.trans hh'.symm, ?_, ?_⟩
      · have hne : H ≠ 0 := by omega
        have hg : W - 1 - (r * W).tdiv H ≥ 0 ∧ W - 1 - (r * W).tdiv H < W := hc
        dsimp only
        rw [row_product_fits W H r hW hr1 hr2 hfit, cdiv_of_ne_zero _ _ hne]
        simp only [Option.bind_eq_bind, Option.some_bind]
        rw [wrap32_eq _ (by omega) (by omega), if_pos hg]
        exact hb
      · intro k
        rw [hbi k]
        dsimp only
        by_cases hk : k.1 = r
        · have c1 : r ≤ k.1 ∧ k.1 < r + 1 := by omega
          rw [if_pos c1, hk]
          by_cases hk2 : k.2 = W - 1 - (r * W).tdiv H
          · rw [if_pos ⟨rfl, hk2⟩, if_pos hk2]; rfl
          · have : ¬ (r = r ∧ k.2 = W - 1 - (r * W).tdiv H) := fun h => hk2 h.2
            rw [if_neg this, if_neg hk2]
        · have c1 : ¬ (r ≤ k.1 ∧ k.1 < r + 1) := by omega
          have : ¬ (k.1 = r ∧ k.2 = W - 1 - (r * W).tdiv H) := fun h => hk h.1
          rw [if_neg c1, if_neg this]
      · intro w hw
        rcases hbl w hw with h | h
        · exact Or.inl h
        · right; subst h; exact ⟨Or.inr rfl, hr1, hr2, hc.1, hc.2⟩)
    b3 (w3.trans w2) (h3.trans h2)
  refine ⟨b4, ?_, (w4.trans w3).trans w2, (h4.trans h3).trans h2, ?_, ?_⟩
  · unfold pbm_fill
    simp only [Option.bind_eq_bind, bind_pure_comp] at e1 e2 e3 e4 ⊢
    rw [e1, Option.some_bind, e2, Option.some_bind, e3, Option.some_bind, e4]
  · intro r c hr0 hrH hc0 hcW
    rw [i4 (r, c), i3 (r, c), i2 (r, c), i1 (r, c)]
    simp only [hr0, hrH, hc0, hcW, true_and, and_self, if_true]
  · intro w hw
    rcases l4 w hw with h | h
    · rcases l3 w h with h | h
      · rcases l2 w h with h | h
        · exact l1 w h
        · exact Or.inr h
      · exact Or.inr h
    · exact Or.inr h

/-- The bit pattern on the accepted sizes whose products `row * width` fit in `int`
(`(H - 1) * W <= 2147483647`): the grid filled by `generate_pbm_image` has pixel `(row, col)` WHITE (0)
exactly when `H/4 <= row <= 3H/4 - 1`, `W/4 <= col <= 3W/4 - 1`, `col != row*W/H` and
`col != W-1-row*W/H` (truncating division); every other pixel is BLACK (1). -/
theorem pbm_pattern_of_fits (W H : Int) (garbage : Int × Int → Int)
    (hv : (validate_dimensions 1 W H).1 = 1) (hfit : (H - 1) * W ≤ 2147483647)
    (row col : Int) (hr0 : 0 ≤ row) (hrH : row < H) (hc0 : 0 ≤ col) (hcW : col < W) :
    ∃ img, pbm_fill W H (created W H garbage) = some img ∧
      (img.image (row, col) = WHITE ↔
        (H.tdiv 4 ≤ row ∧ row ≤ (3 * H).tdiv 4 - 1 ∧ W.tdiv 4 ≤ col ∧
          col ≤ (3 * W).tdiv 4 - 1 ∧ col ≠ (row * W).tdiv H ∧
          col ≠ W - 1 - (row * W).tdiv H)) ∧
      (¬ (H.tdiv 4 ≤ row ∧ row ≤ (3 * H).tdiv 4 - 1 ∧ W.tdiv 4 ≤ col ∧
          col ≤ (3 * W).tdiv 4 - 1 ∧ col ≠ (row * W).tdiv H ∧
          col ≠ W - 1 - (row * W).tdiv H) → img.image (row, col) = BLACK) := by
  obtain ⟨hH4, hHm, hW', -⟩ := validate_accepts 1 W H hv
  obtain ⟨hW4, hWm⟩ := hW' (Or.inl rfl)
  obtain ⟨b, hb, -, -, hbi, -⟩ :=
    pbm_fill_spec W H (by omega) (by omega) (fits_width W H (by omega) hH4 hfit) hfit
      (created W H garbage) rfl rfl
  refine ⟨b, hb, ?_⟩
  have t2W : W.tdiv 2 = W / 2 := Int.tdiv_eq_ediv (by omega) (by omega)
  have t2H : H.tdiv 2 = H / 2 := Int.tdiv_eq_ediv (by omega) (by omega)
  have tlW : (W - W.tdiv 2).tdiv 2 = (W - W / 2) / 2 := by
    rw [t2W]; exact Int.tdiv_eq_ediv (by omega) (by omega)
  have tlH : (H - H.tdiv 2).tdiv 2 = (H - H / 2) / 2 := by
    rw [t2H]; exact Int.tdiv_eq_ediv (by omega) (by omega)
  have t4W : W.tdiv 4 = W / 4 := Int.tdiv_eq_ediv (by omega) (by omega)
  have t4H : H.tdiv 4 = H / 4 := Int.tdiv_eq_ediv (by omega) (by omega)
  have t3W : (3 * W).tdiv 4 = (3 * W) / 4 := Int.tdiv_eq_ediv (by omega) (by omega)
  have t3H : (3 * H).tdiv 4 = (3 * H) / 4 := Int.tdiv_eq_ediv (by omega) (by omega)
  rw [hbi row col hr0 hrH hc0 hcW, tlW, tlH, t2W, t2H, t4W, t4H, t3W, t3H]
  generalize (row * W).tdiv H = d
  unfold WHITE BLACK
  constructor
  · constructor
    · intro h
      split_ifs at h with c1 c2 c3
      · omega
      · omega
      · omega
      · omega
    · intro h
      have c1 : ¬ col = W - 1 - d := by omega
      have c2 : ¬ col = d := by omega
      rw [if_neg c1, if_neg c2, if_pos (by omega)]
  · intro h
    split_ifs with c1 c2 c3
    · rfl
    · rfl
    · exfalso; apply h; omega
    · rfl

/-- The 4 x 4 bit grid, pixel by pixel. -/
theorem pbm_4x4_pixel (garbage : Int × Int → Int)
    (row col : Int) (hr0 : 0 ≤ row) (hr4 : row < 4) (hc0 : 0 ≤ col) (hc4 : col < 4) :
    ∃ img, pbm_fill 4 4 (created 4 4 garbage) = some img ∧ img.image (row, col) = 1 := by
  obtain ⟨b, hb, -, -, hbi, -⟩ :=
    pbm_fill_spec 4 4 (by decide) (by decide) (by decide) (by decide) (created 4 4 garbage)
      rfl rfl
  refine ⟨b, hb, ?_⟩
  rw [hbi row col hr0 hr4 hc0 hc4]
  have e1 : (row * 4).tdiv 4 = row := Int.mul_tdiv_cancel row (by decide)
  have e2 : (4 - (4:Int).tdiv 2).tdiv 2 = 1 := by decide
  have e3 : (4:Int).tdiv 2 = 2 := by decide
  rw [e1, e2, e3]
  split_ifs with c1 c2 c3
  · rfl
  · rfl
  · omega
  · rfl

/-- C6, counterexample. In the 4 x 4 bit grid the interior (rows 1..2, columns 1..2)
has no WHITE pixel at all, not exactly one: its four pixels are BLACK. -/
theorem C6_interior_has_no_white :
    ∃ img, pbm_fill 4 4 (created 4 4 (fun _ => 0)) = some img ∧
      img.image (1, 1) = BLACK ∧ img.image (1, 2) = BLACK ∧
      img.image (2, 1) = BLACK ∧ img.image (2, 2) = BLACK ∧
      (([(1, 1), (1, 2), (2, 1), (2, 2)] : List (Int × Int)).filter
        (fun p => decide (img.image p = WHITE))).length ≠ 1 := by
  obtain ⟨b, hb, h11⟩ := pbm_4x4_pixel (fun _ => 0) 1 1 (by decide) (by decide) (by decide)
    (by decide)
  obtain ⟨b2, hb2, h12⟩ := pbm_4x4_pixel (fun _ => 0) 1 2 (by decide) (by decide) (by decide)
    (by decide)
  obtain ⟨b3, hb3, h21⟩ := pbm_4x4_pixel (fun _ => 0) 2 1 (by decide) (by decide) (by decide)
    (by decide)
  obtain ⟨b4, hb4, h22⟩ := pbm_4x4_pixel (fun _ => 0) 2 2 (by decide) (by decide) (by decide)
    (by decide)
  rw [hb] at hb2 hb3 hb4
  cases Option.some.inj hb2
  cases Option.some.inj hb3
  cases Option.some.inj hb4
  refine ⟨b, hb, h11, h12, h21, h22, ?_⟩
  simp only [List.filter_cons, List.filter_nil, h11, h12, h21, h22, WHITE]
  decide

/-- C6, amended. For width = 4 and height = 4, every pixel of the grid filled by
`generate_pbm_image`, on the border and in the interior, is BLACK: the two diagonals
cover the whole 2 x 2 rectangle, so the grid has no WHITE pixel. -/
theorem C6_pbm_4x4_all_black (garbage : Int × Int → Int)
    (row col : Int) (hr0 : 0 ≤ row) (hr4 : row < 4) (hc0 : 0 ≤ col) (hc4 : col < 4) :
    ∃ img, pbm_fill 4 4 (created 4 4 garbage) = some img ∧ img.image (row, col) = BLACK :=
  pbm_4x4_pixel garbage row col hr0 hr4 hc0 hc4

/-- C6 (amended) at a concrete input: the interior pixel (2, 1). -/
theorem C6_pbm_4x4_all_black_witness :
    (0:Int) ≤ 2 ∧ (2:Int) < 4 ∧ (0:Int) ≤ 1 ∧ (1:Int) < 4 ∧
    ∃ img, pbm_fill 4 4 (created 4 4 (fun _ => 0)) = some img ∧ img.image (2, 1) = BLACK :=
  ⟨by decide, by decide, by decide, by decide,
    C6_pbm_4x4_all_black (fun _ => 0) 2 1 (by decide) (by decide) (by decide) (by decide)⟩

/-- The four loops of `pbm_fill` are the background loops followed by the two diagonal
loops. -/
theorem pbm_fill_decompose (W H : Int) (a : Image (Int × Int)) :
    pbm_fill W H a =
      (pbm_background W H a).bind (fun b => (pbm_diag1 W H b).bind (pbm_diag2 W H)) := by
  unfold pbm_fill pbm_background pbm_diag1 pbm_diag2
  simp only [Option.bind_eq_bind, Option.bind_assoc]

/-- The diagonals on the accepted sizes whose products `row * width` fit in `int`
(`(H - 1) * W <= 2147483647`): for every row `r` in `[0,H)`, both diagonal columns `r*W/H` and `W-1-r*W/H`
lie in `[0,W)`, so the clipping guards of `generate_pbm_image` never reject a pixel;
every array write of the generator is inside the `H x W` grid; and each of the two
diagonals is full-length: its loop stores exactly one BLACK pixel in every row, which
is BLACK in the final grid. -/
theorem pbm_diagonals_of_fits (W H : Int) (garbage : Int × Int → Int)
    (hv : (validate_dimensions 1 W H).1 = 1) (hfit : (H - 1) * W ≤ 2147483647) :
    (∀ r : Int, 0 ≤ r → r < H →
      (0 ≤ (r * W).tdiv H ∧ (r * W).tdiv H < W) ∧
      (W - 1 - (r * W).tdiv H ≥ 0 ∧ W - 1 - (r * W).tdiv H < W)) ∧
    ∃ bg d1 img,
      pbm_background W H (created W H garbage) = some bg ∧
      pbm_diag1 W H bg = some d1 ∧ pbm_diag2 W H d1 = some img ∧
      pbm_fill W H (created W H garbage) = some img ∧
      d1.written = bg.written ++ (rows H).map (fun r => ((r, (r * W).tdiv H), BLACK)) ∧
      img.written =
        d1.written ++ (rows H).map (fun r => ((r, W - 1 - (r * W).tdiv H), BLACK)) ∧
      (∀ w ∈ img.written, 0 ≤ w.1.1 ∧ w.1.1 < H ∧ 0 ≤ w.1.2 ∧ w.1.2 < W) ∧
      (∀ r : Int, 0 ≤ r → r < H →
        img.image (r, (r * W).tdiv H) = BLACK ∧
        img.image (r, W - 1 - (r * W).tdiv H) = BLACK) := by
  obtain ⟨hH4, hHm, hW', -⟩ := validate_accepts 1 W H hv
  obtain ⟨hW4, hWm⟩ := hW' (Or.inl rfl)
  have hcols : ∀ r : Int, 0 ≤ r → r < H →
      (0 ≤ (r * W).tdiv H ∧ (r * W).tdiv H < W) ∧
      (W - 1 - (r * W).tdiv H ≥ 0 ∧ W - 1 - (r * W).tdiv H < W) := by
    intro r hr0 hrH
    obtain ⟨h0, h1⟩ := diag_col_bounds W H r (by omega) hr0 hrH
    exact ⟨⟨h0, h1⟩, by omega, by omega⟩
  refine ⟨hcols, ?_⟩
  have hne : H ≠ 0 := by omega
  obtain ⟨bg, ebg, wbg, hbg⟩ :=
    pbm_background_spec W H hW4 hWm hH4 hHm (created W H garbage) rfl rfl
  obtain ⟨d1, ed1, wd1, hd1, ld1⟩ := forLoop_one_store_per_row W H (by omega)
    (fun r => (r * W).tdiv H) BLACK
    (fun row img => do
      let col ← cdiv (wrap32 (row * W)) H
      if col < W then store2 img row col BLACK else pure img)
    (by
      intro r a hr0 hrH _ _
      obtain ⟨⟨h0, h1⟩, -⟩ := hcols r hr0 hrH
      refine ⟨?_, h0, h1⟩
      dsimp only
      rw [row_product_fits W H r (by omega) hr0 hrH hfit, cdiv_of_ne_zero _ _ hne]
      simp only [Option.bind_eq_bind, Option.some_bind, if_pos h1])
    bg wbg hbg
  obtain ⟨d2, ed2, -, -, ld2⟩ := forLoop_one_store_per_row W H (by omega)
    (fun r => W - 1 - (r * W).tdiv H) BLACK
    (fun row img => do
      let q ← cdiv (wrap32 (row * W)) H
      let col := wrap32 (W - 1 - q)
      if col ≥ 0 ∧ col < W then store2 img row col BLACK else pure img)
    (by
      intro r a hr0 hrH _ _
      obtain ⟨-, h2⟩ := hcols r hr0 hrH
      refine ⟨?_, h2.1, h2.2⟩
      have hWi := fits_width W H (by omega) hH4 hfit
      dsimp only
      rw [row_product_fits W H r (by omega) hr0 hrH hfit, cdiv_of_ne_zero _ _ hne]
      simp only [Option.bind_eq_bind, Option.some_bind]
      rw [wrap32_eq _ (by omega) (by omega), if_pos h2])
    d1 wd1 hd1
  have efill : pbm_fill W H (created W H garbage) = some d2 := by
    rw [pbm_fill_decompose, ebg, Option.some_bind]
    show (pbm_diag1 W H bg).bind (pbm_diag2 W H) = some d2
    unfold pbm_diag1
    rw [ed1, Option.some_bind]
    exact ed2
  obtain ⟨b, hb, -, -, hbi, hbl⟩ :=
    pbm_fill_spec W H (by omega) (by omega) (fits_width W H (by omega) hH4 hfit) hfit
      (created W H garbage) rfl rfl
  rw [efill] at hb
  cases Option.some.inj hb
  refine ⟨bg, d1, d2, ebg, ed1, ed2, efill, ld1, ld2, ?_, ?_⟩
  · intro w hw
    rcases hbl w hw with h | h
    · simp [created] at h
    · exact h.2
  · intro r hr0 hrH
    obtain ⟨⟨h0, h1⟩, h2⟩ := hcols r hr0 hrH
    constructor
    · rw [hbi r _ hr0 hrH h0 h1]
      unfold BLACK
      split_ifs with c1 c2 c3
      · rfl
      · rfl
      · exact absurd rfl c2
      · rfl
    · rw [hbi r _ hr0 hrH h2.1 h2.2, if_pos rfl]
      rfl

/-- The border on the accepted sizes whose products `row * width` fit in `int`
(`(H - 1) * W <= 2147483647`): every border pixel of the grid filled by
`generate_pbm_image` (row 0, row `H-1`, column 0, column `W-1`) is BLACK. -/
theorem pbm_border_of_fits (W H : Int) (garbage : Int × Int → Int)
    (hv : (validate_dimensions 1 W H).1 = 1) (hfit : (H - 1) * W ≤ 2147483647)
    (row col : Int) (hr0 : 0 ≤ row) (hrH : row < H) (hc0 : 0 ≤ col) (hcW : col < W)
    (hborder : row = 0 ∨ row = H - 1 ∨ col = 0 ∨ col = W - 1) :
    ∃ img, pbm_fill W H (created W H garbage) = some img ∧ img.image (row, col) = BLACK := by
  obtain ⟨hH4, hHm, hW', -⟩ := validate_accepts 1 W H hv
  obtain ⟨hW4, hWm⟩ := hW' (Or.inl rfl)
  obtain ⟨b, hb, -, -, hbi, -⟩ :=
    pbm_fill_spec W H (by omega) (by omega) (fits_width W H (by omega) hH4 hfit) hfit
      (created W H garbage) rfl rfl
  refine ⟨b, hb, ?_⟩
  have t2W : W.tdiv 2 = W / 2 := Int.tdiv_eq_ediv (by omega) (by omega)
  have t2H : H.tdiv 2 = H / 2 := Int.tdiv_eq_ediv (by omega) (by omega)
  have tlW : (W - W.tdiv 2).tdiv 2 = (W - W / 2) / 2 := by
    rw [t2W]; exact Int.tdiv_eq_ediv (by omega) (by omega)
  have tlH : (H - H.tdiv 2).tdiv 2 = (H - H / 2) / 2 := by
    rw [t2H]; exact Int.tdiv_eq_ediv (by omega) (by omega)
  rw [hbi row col hr0 hrH hc0 hcW, tlW, tlH, t2W, t2H]
  unfold BLACK
  split_ifs with c1 c2 c3
  · rfl
  · rfl
  · omega
  · rfl

/-- The symmetry on the accepted sizes whose products `row * width` fit in `int`
(`(H - 1) * W <= 2147483647`): the grid filled by `generate_pbm_image` is left-right mirror symmetric:
pixel `(row, col)` equals pixel `(row, W-1-col)` for every row in `[0,H)` and col in
`[0,W)`. -/
theorem pbm_mirror_of_fits (W H : Int) (garbage : Int × Int → Int)
    (hv : (validate_dimensions 1 W H).1 = 1) (hfit : (H - 1) * W ≤ 2147483647)
    (row col : Int) (hr0 : 0 ≤ row) (hrH : row < H) (hc0 : 0 ≤ col) (hcW : col < W) :
    ∃ img, pbm_fill W H (created W H garbage) = some img ∧
      img.image (row, col) = img.image (row, W - 1 - col) := by
  obtain ⟨hH4, hHm, hW', -⟩ := validate_accepts 1 W H hv
  obtain ⟨hW4, hWm⟩ := hW' (Or.inl rfl)
  obtain ⟨b, hb, -, -, hbi, -⟩ :=
    pbm_fill_spec W H (by omega) (by omega) (fits_width W H (by omega) hH4 hfit) hfit
      (created W H garbage) rfl rfl
  refine ⟨b, hb, ?_⟩
  have t2W : W.tdiv 2 = W / 2 := Int.tdiv_eq_ediv (by omega) (by omega)
  have t2H : H.tdiv 2 = H / 2 := Int.tdiv_eq_ediv (by omega) (by omega)
  have tlW : (W - W.tdiv 2).tdiv 2 = (W - W / 2) / 2 := by
    rw [t2W]; exact Int.tdiv_eq_ediv (by omega) (by omega)
  have tlH : (H - H.tdiv 2).tdiv 2 = (H - H / 2) / 2 := by
    rw [t2H]; exact Int.tdiv_eq_ediv (by omega) (by omega)
  rw [hbi row col hr0 hrH hc0 hcW, hbi row (W - 1 - col) hr0 hrH (by omega) (by omega),
    tlW, tlH, t2W, t2H]
  generalize (row * W).tdiv H = d
  split_ifs <;> first | rfl | omega

/-! ## The bit generator where `row * width` overflows -/

/-- At 536870912 x 8 the loop of the first diagonal has no result on any buffer of that
size: rows 0 to 3 store inside the grid, and in row 4 the product `4 * 536870912`
wraps to `-2147483648`, the column is `-268435456`, the guard `col < width` holds and
the store is outside the grid. -/
theorem pbm_diag1_overflow (a : Image (Int × Int)) (hw : a.width = 536870912)
    (hh : a.height = 8) : pbm_diag1 536870912 8 a = none := by
  unfold pbm_diag1 forLoop
  have e : (8 - 0 : Int).toNat = 8 := by decide
  have l : List.range 8 = [0, 1, 2, 3, 4, 5, 6, 7] := by decide
  have c0 : cdiv (wrap32 ((0 + Int.ofNat 0) * 536870912)) 8 = some 0 := by decide
  have c1 : cdiv (wrap32 ((0 + Int.ofNat 1) * 536870912)) 8 = some 67108864 := by decide
  have c2 : cdiv (wrap32 ((0 + Int.ofNat 2) * 536870912)) 8 = some 134217728 := by decide
  have c3 : cdiv (wrap32 ((0 + Int.ofNat 3) * 536870912)) 8 = some 201326592 := by decide
  have c4 : cdiv (wrap32 ((0 + Int.ofNat 4) * 536870912)) 8 = some (-268435456) := by decide
  rw [e, l]
  simp only [List.foldlM_cons, c0, c1, c2, c3, c4, Option.bind_eq_bind, Option.some_bind]
  simp +decide only [store2, Image.put_width, Image.put_height, hw, hh, if_true, if_false,
    Option.some_bind, Option.none_bind, reduceIte]

/-- At 536870912 x 8 the loop of the second diagonal stores in rows 0 to 3 only: from
row 4 on the wrapped quotient is negative, the column is at least `width`, and the
guard `col >= 0 && col < width` skips the store. -/
theorem pbm_diag2_overflow (a : Image (Int × Int)) (hw : a.width = 536870912)
    (hh : a.height = 8) :
    ∃ b, pbm_diag2 536870912 8 a = some b ∧
      b.written = a.written ++
        [((0, 536870911), 1), ((1, 469762047), 1), ((2, 402653183), 1), ((3, 335544319), 1)] := by
  unfold pbm_diag2 forLoop
  have e : (8 - 0 : Int).toNat = 8 := by decide
  have l : List.range 8 = [0, 1, 2, 3, 4, 5, 6, 7] := by decide
  have c0 : cdiv (wrap32 ((0 + Int.ofNat 0) * 536870912)) 8 = some 0 := by decide
  have c1 : cdiv (wrap32 ((0 + Int.ofNat 1) * 536870912)) 8 = some 67108864 := by decide
  have c2 : cdiv (wrap32 ((0 + Int.ofNat 2) * 536870912)) 8 = some 134217728 := by decide
  have c3 : cdiv (wrap32 ((0 + Int.ofNat 3) * 536870912)) 8 = some 201326592 := by decide
  have c4 : cdiv (wrap32 ((0 + Int.ofNat 4) * 536870912)) 8 = some (-268435456) := by decide
  have c5 : cdiv (wrap32 ((0 + Int.ofNat 5) * 536870912)) 8 = some (-201326592) := by decide
  have c6 : cdiv (wrap32 ((0 + Int.ofNat 6) * 536870912)) 8 = some (-134217728) := by decide
  have c7 : cdiv (wrap32 ((0 + Int.ofNat 7) * 536870912)) 8 = some (-67108864) := by decide
  have w0 : wrap32 (536870912 - 1 - 0) = 536870911 := by decide
  have w1 : wrap32 (536870912 - 1 - 67108864) = 469762047 := by decide
  have w2 : wrap32 (536870912 - 1 - 134217728) = 402653183 := by decide
  have w3 : wrap32 (536870912 - 1 - 201326592) = 335544319 := by decide
  have w4 : wrap32 (536870912 - 1 - -268435456) = 805306367 := by decide
  have w5 : wrap32 (536870912 - 1 - -201326592) = 738197503 := by decide
  have w6 : wrap32 (536870912 - 1 - -134217728) = 671088639 := by decide
  have w7 : wrap32 (536870912 - 1 - -67108864) = 603979775 := by decide
  rw [e, l]
  simp only [List.foldlM_cons, List.foldlM_nil, c0, c1, c2, c3, c4, c5, c6, c7,
    Option.bind_eq_bind, Option.some_bind, w0, w1, w2, w3, w4, w5, w6, w7]
  simp +decide only [store2, Image.put_width, Image.put_height, hw, hh, if_true, if_false,
    Option.some_bind, Option.none_bind, reduceIte, Option.pure_def]
  refine ⟨_, rfl, ?_⟩
  simp only [Image.put_written, List.append_assoc, List.cons_append, List.nil_append, BLACK]
  rfl

/-- At 536870912 x 8 the four loops of the bit generator have no result: the
background loops succeed and the first diagonal stores outside the grid. -/
theorem pbm_fill_overflow (garbage : Int × Int → Int) :
    pbm_fill 536870912 8 (created 536870912 8 garbage) = none := by
  obtain ⟨bg, ebg, wbg, hbg⟩ := pbm_background_spec 536870912 8 (by decide) (by decide)
    (by decide) (by decide) (created 536870912 8 garbage) rfl rfl
  rw [pbm_fill_decompose, ebg, Option.some_bind, pbm_diag1_overflow bg wbg hbg]
  rfl

/-- C2, at the failing input: type 1, width 536870912, height 8 is accepted; in row 4
the product `row * width` is `2^31` and wraps to `-2147483648`, so the first diagonal
computes column `-268435456` instead of `268435456`, passes its guard `col < width`
and stores outside the grid: the four loops have no result, and no grid with the
stated pixels is produced.  At 46344 x 46344 the last row computes column `-46332`
in the same way. -/
theorem C2_pbm_overflow :
    (validate_dimensions 1 536870912 8).1 = 1 ∧
    wrap32 (4 * 536870912) = -2147483648 ∧
    cdiv (wrap32 (4 * 536870912)) 8 = some (-268435456) ∧
    ((4 * 536870912 : Int).tdiv 8 = 268435456) ∧
    (∀ garbage, pbm_fill 536870912 8 (created 536870912 8 garbage) = none) ∧
    (validate_dimensions 1 46344 46344).1 = 1 ∧
    cdiv (wrap32 (46343 * 46344)) 46344 = some (-46332) :=
  ⟨by decide, by decide, by decide, by decide, pbm_fill_overflow, by decide, by decide⟩

/-- C15, at the failing input 536870912 x 8: in row 4 the first diagonal's column is
`-268435456`, not in `[0,W)`, and its store is outside the grid, so the loop of the
first diagonal has no result on any buffer of that size; the second diagonal's column
in row 4 is `805306367 >= W`, its guard rejects the pixel, and its loop stores in rows
0 to 3 only, so that diagonal is not full-length. -/
theorem C15_diagonals_overflow :
    (validate_dimensions 1 536870912 8).1 = 1 ∧
    cdiv (wrap32 (4 * 536870912)) 8 = some (-268435456) ∧
    wrap32 (536870912 - 1 - -268435456) = 805306367 ∧
    (∀ a : Image (Int × Int), a.width = 536870912 → a.height = 8 →
      store2 a 4 (-268435456) BLACK = none ∧
      pbm_diag1 536870912 8 a = none ∧
      ∃ b, pbm_diag2 536870912 8 a = some b ∧
        b.written = a.written ++
          [((0, 536870911), 1), ((1, 469762047), 1), ((2, 402653183), 1),
           ((3, 335544319), 1)]) := by
  refine ⟨by decide, by decide, by decide, ?_⟩
  intro a hw hh
  refine ⟨?_, pbm_diag1_overflow a hw hh, pbm_diag2_overflow a hw hh⟩
  unfold store2
  rw [if_neg (by omega)]

/-- C16, at the failing input 536870912 x 8: the generator produces no grid whose
border is BLACK, because its first diagonal stores outside the grid in row 4 and the
four loops have no result. -/
theorem C16_border_overflow :
    (validate_dimensions 1 536870912 8).1 = 1 ∧
    ∀ garbage, ¬ ∃ img, pbm_fill 536870912 8 (created 536870912 8 garbage) = some img ∧
      ∀ row col : Int, 0 ≤ row → row < 8 → 0 ≤ col → col < 536870912 →
        (row = 0 ∨ row = 8 - 1 ∨ col = 0 ∨ col = 536870912 - 1) →
        img.image (row, col) = BLACK := by
  refine ⟨by decide, ?_⟩
  rintro garbage ⟨img, h, -⟩
  rw [pbm_fill_overflow garbage] at h
  cases h

/-- C19, at the failing input 536870912 x 8: the generator produces no mirror-symmetric
grid, because its first diagonal stores outside the grid in row 4, at column
`-268435456`, and the four loops have no result. -/
theorem C19_mirror_overflow :
    (validate_dimensions 1 536870912 8).1 = 1 ∧
    ∀ garbage, ¬ ∃ img, pbm_fill 536870912 8 (created 536870912 8 garbage) = some img ∧
      ∀ row col : Int, 0 ≤ row → row < 8 → 0 ≤ col → col < 536870912 →
        img.image (row, col) = img.image (row, 536870912 - 1 - col) := by
  refine ⟨by decide, ?_⟩
  rintro garbage ⟨img, h, -⟩
  rw [pbm_fill_overflow garbage] at h
  cases h

/-! ## Arithmetic of the gray generator -/

theorem scale_bounds (x b : Int) (hx0 : 0 ≤ x) (hxb : x ≤ b) (hb : 0 < b) :
    0 ≤ (x * 255).tdiv b ∧ (x * 255).tdiv b ≤ 255 := by
  have hnum : 0 ≤ x * 255 := by omega
  rw [Int.tdiv_eq_ediv hnum (by omega)]
  refine ⟨Int.ediv_nonneg hnum (by omega), ?_⟩
  apply Int.ediv_le_of_le_mul hb
  nlinarith

theorem scale_lt (x b : Int) (hx0 : 0 ≤ x) (hxb : x < b) :
    0 ≤ (x * 255).tdiv b ∧ (x * 255).tdiv b < 255 := by
  have hnum : 0 ≤ x * 255 := by omega
  rw [Int.tdiv_eq_ediv hnum (by omega)]
  refine ⟨Int.ediv_nonneg hnum (by omega), ?_⟩
  apply Int.ediv_lt_of_lt_mul (by omega)
  nlinarith

theorem scale_full (b : Int) (hb : b ≠ 0) : (b * 255).tdiv b = 255 :=
  Int.mul_tdiv_cancel_left 255 hb

/-- The truncated slope `(co * (2n)) / (2m)` that separates the triangles of the gray
pattern, for a column offset `co` inside the rectangle. -/
theorem slope_facts (m n co : Int) (hm : 1 ≤ m) (hn : 1 ≤ n) (h1 : -m ≤ co) (h2 : co < m) :
    (-co * (2 * n)).tdiv (2 * m) = -((co * (2 * n)).tdiv (2 * m)) ∧
    (co = 0 → (co * (2 * n)).tdiv (2 * m) = 0) ∧
    (co = -m → (co * (2 * n)).tdiv (2 * m) = -n) ∧
    (0 ≤ co → 0 ≤ (co * (2 * n)).tdiv (2 * m) ∧ (co * (2 * n)).tdiv (2 * m) < n) ∧
    (co ≤ 0 → (co * (2 * n)).tdiv (2 * m) ≤ 0 ∧ -n ≤ (co * (2 * n)).tdiv (2 * m)) ∧
    (-m < co → -n < (co * (2 * n)).tdiv (2 * m)) := by
  have hneg : (-co * (2 * n)).tdiv (2 * m) = -((co * (2 * n)).tdiv (2 * m)) := by
    rw [Int.neg_mul, Int.neg_tdiv]
  have pos : ∀ x : Int, 0 ≤ x → x < m →
      0 ≤ (x * (2 * n)).tdiv (2 * m) ∧ (x * (2 * n)).tdiv (2 * m) < n := by
    intro x hx0 hxm
    have hnum : 0 ≤ x * (2 * n) := Int.mul_nonneg hx0 (by omega)
    rw [Int.tdiv_eq_ediv hnum (by omega)]
    refine ⟨Int.ediv_nonneg hnum (by omega), ?_⟩
    apply Int.ediv_lt_of_lt_mul (by omega)
    nlinarith
  have full : ((-m) * (2 * n)).tdiv (2 * m) = -n := by
    have : (-m) * (2 * n) = (-n) * (2 * m) := by ring
    rw [this, Int.mul_tdiv_cancel _ (by omega)]
  refine ⟨hneg, ?_, ?_, ?_, ?_, ?_⟩
  · intro h; subst h; simp
  · intro h; subst h; exact full
  · intro h; exact pos co h h2
  · intro h
    by_cases hc : co = -m
    · subst hc; rw [full]; omega
    · have := pos (-co) (by omega) (by omega)
      rw [hneg] at this
      omega
  · intro h
    by_cases hc : 0 ≤ co
    · have := pos co hc h2; omega
    · have := pos (-co) (by omega) (by omega)
      rw [hneg] at this
      omega

/-- The constants of the centred rectangle for a width (or height) `4 * m`. -/
theorem rect_consts (m : Int) (hm : 1 ≤ m) :
    (4 * m).tdiv 2 = 2 * m ∧ (4 * m - 2 * m).tdiv 2 = m := by
  constructor
  · rw [Int.tdiv_eq_ediv (by omega) (by omega)]; omega
  · rw [Int.tdiv_eq_ediv (by omega) (by omega)]; omega

/-- The gray generator's value in terms of `m = W/4` and `n = H/4`. -/
theorem pgm_value_norm (m n row col : Int) (hm : 1 ≤ m) (hn : 1 ≤ n) :
    pgm_value (4 * m) (4 * n) row col =
      if row ≥ n ∧ row ≤ n + 2 * n - 1 ∧ col ≥ m ∧ col ≤ m + 2 * m - 1 then
        if row - 2 * n ≤ (wrap32 ((col - 2 * m) * (2 * n))).tdiv (2 * m) ∧
            row - 2 * n ≤ (wrap32 (-(col - 2 * m) * (2 * n))).tdiv (2 * m) then
          (cdiv (wrap32 ((row - n) * 255)) (2 * n - n)).bind (fun q => some (255 - q))
        else if row - 2 * n ≥ (wrap32 ((col - 2 * m) * (2 * n))).tdiv (2 * m) ∧
            row - 2 * n ≥ (wrap32 (-(col - 2 * m) * (2 * n))).tdiv (2 * m) then
          cdiv (wrap32 ((row - 2 * n) * 255)) (n + 2 * n - 1 - 2 * n)
        else if col - 2 * m < 0 then
          (cdiv (wrap32 ((col - m) * 255)) (2 * m - m)).bind (fun q => some (255 - q))
        else
          cdiv (wrap32 ((col - 2 * m) * 255)) (m + 2 * m - 1 - 2 * m)
      else some 0 := by
  obtain ⟨a1, a2⟩ := rect_consts m hm
  obtain ⟨b1, b2⟩ := rect_consts n hn
  unfold pgm_value
  simp only [a1, a2, b1, b2]
  have hne : (2 * m) ≠ 0 := by omega
  rw [cdiv_of_ne_zero _ _ hne, cdiv_of_ne_zero _ _ hne]
  simp only [Option.bind_eq_bind, Option.some_bind, Option.pure_def]

/-- The two slope products of a column offset inside the rectangle fit in `int` when
`(W/4) * (H/2)` does. -/
theorem slope_fits (m n co : Int) (hn : 1 ≤ n) (h1 : -m ≤ co) (h2 : co < m)
    (hs : m * (2 * n) ≤ 2147483647) :
    wrap32 (co * (2 * n)) = co * (2 * n) ∧ wrap32 (-co * (2 * n)) = -co * (2 * n) := by
  have u1 : co * (2 * n) ≤ m * (2 * n) := Int.mul_le_mul_of_nonneg_right (by omega) (by omega)
  have u2 : -m * (2 * n) ≤ co * (2 * n) := Int.mul_le_mul_of_nonneg_right (by omega) (by omega)
  have u3 : -m * (2 * n) = -(m * (2 * n)) := Int.neg_mul _ _
  have u4 : -co * (2 * n) = -(co * (2 * n)) := Int.neg_mul _ _
  constructor
  · exact wrap32_eq _ (by omega) (by omega)
  · exact wrap32_eq _ (by omega) (by omega)

/-- A product `x * 255` with `0 <= x <= b` fits in `int` when `255 * b` does. -/
theorem scale_fits (x b : Int) (hx0 : 0 ≤ x) (hxb : x ≤ b) (hb : 255 * b ≤ 2147483647) :
    wrap32 (x * 255) = x * 255 :=
  wrap32_eq _ (by omega) (by omega)

/-- The gray generator's value for a pixel of the rectangle when the slope products fit
in `int`: the triangle tests compare with the exact truncated slope. -/
theorem pgm_value_norm_of_fits (m n row col : Int) (hm : 1 ≤ m) (hn : 1 ≤ n)
    (hs : m * (2 * n) ≤ 2147483647)
    (hin : row ≥ n ∧ row ≤ n + 2 * n - 1 ∧ col ≥ m ∧ col ≤ m + 2 * m - 1) :
    pgm_value (4 * m) (4 * n) row col =
      if row - 2 * n ≤ ((col - 2 * m) * (2 * n)).tdiv (2 * m) ∧
          row - 2 * n ≤ -(((col - 2 * m) * (2 * n)).tdiv (2 * m)) then
        (cdiv (wrap32 ((row - n) * 255)) n).bind (fun q => some (255 - q))
      else if row - 2 * n ≥ ((col - 2 * m) * (2 * n)).tdiv (2 * m) ∧
          row - 2 * n ≥ -(((col - 2 * m) * (2 * n)).tdiv (2 * m)) then
        cdiv (wrap32 ((row - 2 * n) * 255)) (n - 1)
      else if col - 2 * m < 0 then
        (cdiv (wrap32 ((col - m) * 255)) m).bind (fun q => some (255 - q))
      else
        cdiv (wrap32 ((col - 2 * m) * 255)) (m - 1) := by
  obtain ⟨f1, f2⟩ := slope_fits m n (col - 2 * m) hn (by omega) (by omega) hs
  obtain ⟨hneg, -⟩ := slope_facts m n (col - 2 * m) hm hn (by omega) (by omega)
  have e1 : 2 * n - n = n := by omega
  have e2 : n + 2 * n - 1 - 2 * n = n - 1 := by omega
  have e3 : 2 * m - m = m := by omega
  have e4 : m + 2 * m - 1 - 2 * m = m - 1 := by omega
  rw [pgm_value_norm m n row col hm hn, if_pos hin, f1, f2, hneg, e1, e2, e3, e4]

/-- When every product fits in `int`, every value the gray generator computes exists
(no division by zero) and lies in `[0, 255]`. -/
theorem pgm_value_range_of_fits (m n row col : Int) (hm : 1 ≤ m) (hn : 1 ≤ n)
    (hs : m * (2 * n) ≤ 2147483647) (hn5 : 255 * n ≤ 2147483647)
    (hm5 : 255 * m ≤ 2147483647) :
    ∃ v, pgm_value (4 * m) (4 * n) row col = some v ∧ 0 ≤ v ∧ v ≤ 255 := by
  by_cases hin : row ≥ n ∧ row ≤ n + 2 * n - 1 ∧ col ≥ m ∧ col ≤ m + 2 * m - 1
  · rw [pgm_value_norm_of_fits m n row col hm hn hs hin]
    obtain ⟨-, s0, -, -, -, -⟩ := slope_facts m n (col - 2 * m) hm hn (by omega) (by omega)
    generalize ((col - 2 * m) * (2 * n)).tdiv (2 * m) = d at s0 ⊢
    by_cases hu : row - 2 * n ≤ d ∧ row - 2 * n ≤ -d
    · rw [if_pos hu, scale_fits (row - n) n (by omega) (by omega) hn5,
        cdiv_of_ne_zero _ _ (by omega)]
      obtain ⟨q0, q1⟩ := scale_bounds (row - n) n (by omega) (by omega) (by omega)
      exact ⟨_, rfl, by omega, by omega⟩
    · rw [if_neg hu]
      by_cases hl : row - 2 * n ≥ d ∧ row - 2 * n ≥ -d
      · rw [if_pos hl]
        have hro : 1 ≤ row - 2 * n := by omega
        rw [scale_fits (row - 2 * n) n (by omega) (by omega) hn5,
          cdiv_of_ne_zero _ _ (by omega)]
        obtain ⟨q0, q1⟩ := scale_bounds (row - 2 * n) (n - 1) (by omega) (by omega) (by omega)
        exact ⟨_, rfl, q0, q1⟩
      · rw [if_neg hl]
        by_cases hc : col - 2 * m < 0
        · rw [if_pos hc, scale_fits (col - m) m (by omega) (by omega) hm5,
            cdiv_of_ne_zero _ _ (by omega)]
          obtain ⟨q0, q1⟩ := scale_lt (col - m) m (by omega) (by omega)
          exact ⟨_, rfl, by omega, by omega⟩
        · rw [if_neg hc]
          have hco : 1 ≤ col - 2 * m := by
            by_contra hcon
            have h0 : col - 2 * m = 0 := by omega
            have := s0 h0
            omega
          rw [scale_fits (col - 2 * m) m (by omega) (by omega) hm5,
            cdiv_of_ne_zero _ _ (by omega)]
          obtain ⟨q0, q1⟩ := scale_bounds (col - 2 * m) (m - 1) (by omega) (by omega) (by omega)
          exact ⟨_, rfl, q0, q1⟩
  · rw [pgm_value_norm m n row col hm hn, if_neg hin]
    exact ⟨0, rfl, by omega, by omega⟩

theorem pgm_value_outside (m n row col : Int) (hm : 1 ≤ m) (hn : 1 ≤ n)
    (hout : ¬ (n ≤ row ∧ row ≤ 3 * n - 1 ∧ m ≤ col ∧ col ≤ 3 * m - 1)) :
    pgm_value (4 * m) (4 * n) row col = some 0 := by
  rw [pgm_value_norm m n row col hm hn, if_neg (by omega)]

theorem wrap32_zero_mul (x : Int) : wrap32 (0 * x) = 0 := by
  rw [Int.zero_mul]
  rfl

theorem pgm_value_top (m n col : Int) (hm : 1 ≤ m) (hn : 1 ≤ n)
    (hs : m * (2 * n) ≤ 2147483647)
    (hc1 : m ≤ col) (hc2 : col ≤ 3 * m - 1) :
    pgm_value (4 * m) (4 * n) n col = some 255 := by
  rw [pgm_value_norm_of_fits m n n col hm hn hs (by omega)]
  obtain ⟨-, -, -, s1, s2, -⟩ := slope_facts m n (col - 2 * m) hm hn (by omega) (by omega)
  generalize ((col - 2 * m) * (2 * n)).tdiv (2 * m) = d at s1 s2 ⊢
  have hu : n - 2 * n ≤ d ∧ n - 2 * n ≤ -d := by
    by_cases h : 0 ≤ col - 2 * m
    · have := s1 h; omega
    · have := s2 (by omega); omega
  rw [if_pos hu, Int.sub_self, wrap32_zero_mul, cdiv_of_ne_zero _ _ (by omega)]
  simp

theorem pgm_value_left (m n row : Int) (hm : 1 ≤ m) (hn : 1 ≤ n)
    (hs : m * (2 * n) ≤ 2147483647)
    (hr1 : n ≤ row) (hr2 : row ≤ 3 * n - 1) :
    pgm_value (4 * m) (4 * n) row m = some 255 := by
  rw [pgm_value_norm_of_fits m n row m hm hn hs (by omega)]
  obtain ⟨-, -, s1, -, -, -⟩ := slope_facts m n (m - 2 * m) hm hn (by omega) (by omega)
  have sd := s1 (by omega)
  generalize ((m - 2 * m) * (2 * n)).tdiv (2 * m) = d at sd ⊢
  subst sd
  by_cases hu : row - 2 * n ≤ -n ∧ row - 2 * n ≤ - -n
  · have hrow : row = n := by omega
    subst hrow
    rw [if_pos hu, Int.sub_self, wrap32_zero_mul, cdiv_of_ne_zero _ _ (by omega)]
    simp
  · rw [if_neg hu, if_neg (by omega), if_pos (by omega), Int.sub_self, wrap32_zero_mul,
      cdiv_of_ne_zero _ _ (by omega)]
    simp

theorem pgm_value_bottom (m n col : Int) (hm : 1 ≤ m) (hn : 2 ≤ n)
    (hs : m * (2 * n) ≤ 2147483647) (hn5 : 255 * n ≤ 2147483647)
    (hc1 : m ≤ col) (hc2 : col ≤ 3 * m - 1) :
    pgm_value (4 * m) (4 * n) (3 * n - 1) col = some 255 := by
  rw [pgm_value_norm_of_fits m n (3 * n - 1) col hm (by omega) hs (by omega)]
  obtain ⟨-, -, s1, s2, s3, s4⟩ :=
    slope_facts m n (col - 2 * m) hm (by omega) (by omega) (by omega)
  generalize ((col - 2 * m) * (2 * n)).tdiv (2 * m) = d at s1 s2 s3 s4 ⊢
  have e5 : 3 * n - 1 - 2 * n = n - 1 := by omega
  rw [if_neg (by omega), e5]
  by_cases hl : n - 1 ≥ d ∧ n - 1 ≥ -d
  · rw [if_pos hl, scale_fits (n - 1) n (by omega) (by omega) hn5,
      cdiv_of_ne_zero _ _ (by omega), scale_full _ (by omega)]
  · have hcol : col = m := by
      by_contra hne
      have h4 := s4 (by omega)
      by_cases h : 0 ≤ col - 2 * m
      · have := s2 h; omega
      · have := s3 (by omega); omega
    subst hcol
    rw [if_neg hl, if_pos (by omega), Int.sub_self, wrap32_zero_mul,
      cdiv_of_ne_zero _ _ (by omega)]
    simp

theorem pgm_value_right (m n row : Int) (hm : 1 ≤ m) (hn : 1 ≤ n)
    (hs : m * (2 * n) ≤ 2147483647) (hm5 : 255 * m ≤ 2147483647)
    (hr1 : n ≤ row) (hr2 : row ≤ 3 * n - 1)
    (hnu : ¬ (row - 2 * n ≤ ((3 * m - 1 - 2 * m) * (2 * n)).tdiv (2 * m) ∧
        row - 2 * n ≤ -(((3 * m - 1 - 2 * m) * (2 * n)).tdiv (2 * m))))
    (hnl : ¬ (row - 2 * n ≥ ((3 * m - 1 - 2 * m) * (2 * n)).tdiv (2 * m) ∧
        row - 2 * n ≥ -(((3 * m - 1 - 2 * m) * (2 * n)).tdiv (2 * m)))) :
    pgm_value (4 * m) (4 * n) row (3 * m - 1) = some 255 := by
  rw [pgm_value_norm_of_fits m n row (3 * m - 1) hm hn hs (by omega), if_neg hnu, if_neg hnl]
  obtain ⟨-, s0, -, -, -, -⟩ := slope_facts m n (3 * m - 1 - 2 * m) hm hn (by omega) (by omega)
  generalize ((3 * m - 1 - 2 * m) * (2 * n)).tdiv (2 * m) = d at s0 hnu hnl
  have hm2 : 2 ≤ m := by
    by_contra hcon
    have := s0 (by omega)
    omega
  have e6 : 3 * m - 1 - 2 * m = m - 1 := by omega
  rw [if_neg (by omega), e6, scale_fits (m - 1) m (by omega) (by omega) hm5,
    cdiv_of_ne_zero _ _ (by omega), scale_full _ (by omega)]

/-! ## The branches of the gray generator -/

/-- The value of a pixel is the shade of its branch: `pgm_branch`, `pgm_division` and
`pgm_shade` together are the body of the loops. -/
theorem pgm_value_by_branch (W H row col : Int) :
    pgm_value W H row col =
      (pgm_branch W H row col).bind (fun t =>
        match pgm_division W H row col t with
        | none => some (pgm_shade t 0)
        | some (a, b) => (cdiv a b).bind (fun q => some (pgm_shade t q))) := by
  unfold pgm_value pgm_branch
  simp only [Option.bind_eq_bind, Option.pure_def]
  by_cases hin : row ≥ (H - H.tdiv 2).tdiv 2 ∧ row ≤ (H - H.tdiv 2).tdiv 2 + H.tdiv 2 - 1 ∧
      col ≥ (W - W.tdiv 2).tdiv 2 ∧ col ≤ (W - W.tdiv 2).tdiv 2 + W.tdiv 2 - 1
  · rw [if_pos hin, if_pos hin]
    cases h1 : cdiv (wrap32 ((col - W.tdiv 2) * H.tdiv 2)) (W.tdiv 2) with
    | none => rfl
    | some d1 =>
      cases h2 : cdiv (wrap32 (-(col - W.tdiv 2) * H.tdiv 2)) (W.tdiv 2) with
      | none => rfl
      | some d2 =>
        simp only [Option.some_bind]
        by_cases hu : row - H.tdiv 2 ≤ d1 ∧ row - H.tdiv 2 ≤ d2
        · rw [if_pos hu, if_pos hu]
          simp only [Option.some_bind, pgm_division, pgm_shade]
        · rw [if_neg hu, if_neg hu]
          by_cases hl : row - H.tdiv 2 ≥ d1 ∧ row - H.tdiv 2 ≥ d2
          · rw [if_pos hl, if_pos hl]
            simp only [Option.some_bind, pgm_division, pgm_shade]
            cases cdiv (wrap32 ((row - H.tdiv 2) * 255))
              ((H - H.tdiv 2).tdiv 2 + H.tdiv 2 - 1 - H.tdiv 2) <;> rfl
          · rw [if_neg hl, if_neg hl]
            by_cases hc : col - W.tdiv 2 < 0
            · rw [if_pos hc, if_pos hc]
              simp only [Option.some_bind, pgm_division, pgm_shade]
            · rw [if_neg hc, if_neg hc]
              simp only [Option.some_bind, pgm_division, pgm_shade]
              cases cdiv (wrap32 ((col - W.tdiv 2) * 255))
                ((W - W.tdiv 2).tdiv 2 + W.tdiv 2 - 1 - W.tdiv 2) <;> rfl
  · rw [if_neg hin, if_neg hin]
    simp only [Option.some_bind, pgm_division, pgm_shade]

/-- The branch of a pixel in terms of `m = W/4` and `n = H/4`. -/
theorem pgm_branch_norm (m n row col : Int) (hm : 1 ≤ m) (hn : 1 ≤ n) :
    pgm_branch (4 * m) (4 * n) row col = some (
      if row ≥ n ∧ row ≤ n + 2 * n - 1 ∧ col ≥ m ∧ col ≤ m + 2 * m - 1 then
        if row - 2 * n ≤ (wrap32 ((col - 2 * m) * (2 * n))).tdiv (2 * m) ∧
            row - 2 * n ≤ (wrap32 (-(col - 2 * m) * (2 * n))).tdiv (2 * m) then Triangle.UPPER
        else if row - 2 * n ≥ (wrap32 ((col - 2 * m) * (2 * n))).tdiv (2 * m) ∧
            row - 2 * n ≥ (wrap32 (-(col - 2 * m) * (2 * n))).tdiv (2 * m) then Triangle.LOWER
        else if col - 2 * m < 0 then Triangle.LEFT
        else Triangle.RIGHT
      else Triangle.OUTSIDE) := by
  obtain ⟨a1, a2⟩ := rect_consts m hm
  obtain ⟨b1, b2⟩ := rect_consts n hn
  unfold pgm_branch
  simp only [a1, a2, b1, b2]
  have hne : (2 * m) ≠ 0 := by omega
  rw [cdiv_of_ne_zero _ _ hne, cdiv_of_ne_zero _ _ hne]
  simp only [Option.bind_eq_bind, Option.some_bind, Option.pure_def]
  split_ifs <;> rfl

/-- The division of each branch in terms of `m = W/4` and `n = H/4`. -/
theorem pgm_division_norm (m n row col : Int) (hm : 1 ≤ m) (hn : 1 ≤ n) (t : Triangle) :
    pgm_division (4 * m) (4 * n) row col t =
      match t with
      | Triangle.OUTSIDE => none
      | Triangle.UPPER => some (wrap32 ((row - n) * 255), n)
      | Triangle.LOWER => some (wrap32 ((row - 2 * n) * 255), n - 1)
      | Triangle.LEFT => some (wrap32 ((col - m) * 255), m)
      | Triangle.RIGHT => some (wrap32 ((col - 2 * m) * 255), m - 1) := by
  obtain ⟨a1, a2⟩ := rect_consts m hm
  obtain ⟨b1, b2⟩ := rect_consts n hn
  unfold pgm_division
  simp only [a1, a2, b1, b2]
  have e1 : 2 * n - n = n := by omega
  have e2 : n + 2 * n - 1 - 2 * n = n - 1 := by omega
  have e3 : 2 * m - m = m := by omega
  have e4 : m + 2 * m - 1 - 2 * m = m - 1 := by omega
  cases t <;> simp only [e1, e2, e3, e4]

/-- The branch of a pixel when the slope products fit in `int`, and what reaching it
implies: the LOWER branch needs two rows below the centre row, the RIGHT branch two
columns right of the centre column. -/
theorem pgm_branch_reach_of_fits (m n row col : Int) (hm : 1 ≤ m) (hn : 1 ≤ n)
    (hs : m * (2 * n) ≤ 2147483647) :
    ∃ t, pgm_branch (4 * m) (4 * n) row col = some t ∧
      (t = Triangle.UPPER → n ≤ row ∧ row ≤ 2 * n) ∧
      (t = Triangle.LOWER → 2 ≤ n ∧ 2 * n + 1 ≤ row ∧ row ≤ 3 * n - 1) ∧
      (t = Triangle.LEFT → m ≤ col ∧ col < 2 * m) ∧
      (t = Triangle.RIGHT → 2 ≤ m ∧ 2 * m + 1 ≤ col ∧ col ≤ 3 * m - 1) := by
  rw [pgm_branch_norm m n row col hm hn]
  refine ⟨_, rfl, ?_⟩
  by_cases hin : row ≥ n ∧ row ≤ n + 2 * n - 1 ∧ col ≥ m ∧ col ≤ m + 2 * m - 1
  · rw [if_pos hin]
    obtain ⟨f1, f2⟩ := slope_fits m n (col - 2 * m) hn (by omega) (by omega) hs
    obtain ⟨hneg, s0, -, -, -, -⟩ := slope_facts m n (col - 2 * m) hm hn (by omega) (by omega)
    rw [f1, f2, hneg]
    generalize ((col - 2 * m) * (2 * n)).tdiv (2 * m) = d at s0 ⊢
    by_cases hu : row - 2 * n ≤ d ∧ row - 2 * n ≤ -d
    · rw [if_pos hu]
      refine ⟨?_, ?_, ?_, ?_⟩ <;> (intro h; cases h <;> omega)
    · rw [if_neg hu]
      by_cases hl : row - 2 * n ≥ d ∧ row - 2 * n ≥ -d
      · rw [if_pos hl]
        refine ⟨?_, ?_, ?_, ?_⟩ <;> (intro h; cases h <;> omega)
      · rw [if_neg hl]
        by_cases hc : col - 2 * m < 0
        · rw [if_pos hc]
          refine ⟨?_, ?_, ?_, ?_⟩ <;> (intro h; cases h <;> omega)
        · rw [if_neg hc]
          have hco : 1 ≤ col - 2 * m := by
            by_contra hcon
            have h0 : col - 2 * m = 0 := by omega
            have := s0 h0
            omega
          refine ⟨?_, ?_, ?_, ?_⟩ <;> (intro h; cases h <;> omega)
  · rw [if_neg hin]
    refine ⟨?_, ?_, ?_, ?_⟩ <;> (intro h; cases h)

/-- The branch of a pixel on every accepted size that is an `int`, whether or not the
slope products overflow: the LOWER branch is only reached when `H >= 8` and the RIGHT
branch only when `W >= 8`.  At `H = 4` and at `W = 4` the slope products are at most
`W/2` respectively `H/2` in absolute value and cannot overflow. -/
theorem pgm_branch_reach (m n row col : Int) (hm : 1 ≤ m) (hn : 1 ≤ n)
    (hWi : 4 * m ≤ 2147483647) (hHi : 4 * n ≤ 2147483647) :
    ∃ t, pgm_branch (4 * m) (4 * n) row col = some t ∧
      (t = Triangle.LOWER → 2 ≤ n) ∧ (t = Triangle.RIGHT → 2 ≤ m) := by
  by_cases h1 : n = 1
  · subst h1
    obtain ⟨t, ht, -, hL, -, hR⟩ :=
      pgm_branch_reach_of_fits m 1 row col hm (by omega) (by omega)
    exact ⟨t, ht, fun h => (hL h).1, fun h => (hR h).1⟩
  · by_cases h2 : m = 1
    · subst h2
      obtain ⟨t, ht, -, hL, -, hR⟩ :=
        pgm_branch_reach_of_fits 1 n row col (by omega) hn (by omega)
      exact ⟨t, ht, fun h => (hL h).1, fun h => (hR h).1⟩
    · rw [pgm_branch_norm m n row col hm hn]
      exact ⟨_, rfl, fun _ => by omega, fun _ => by omega⟩

/-- On every accepted size that is an `int` the gray generator computes a value for
every pixel: no division it reaches has a zero divisor. -/
theorem pgm_value_total (m n row col : Int) (hm : 1 ≤ m) (hn : 1 ≤ n)
    (hWi : 4 * m ≤ 2147483647) (hHi : 4 * n ≤ 2147483647) :
    ∃ v, pgm_value (4 * m) (4 * n) row col = some v := by
  obtain ⟨t, ht, hL, hR⟩ := pgm_branch_reach m n row col hm hn hWi hHi
  rw [pgm_value_by_branch, ht, Option.some_bind, pgm_division_norm m n row col hm hn t]
  cases t with
  | OUTSIDE => exact ⟨_, rfl⟩
  | UPPER =>
    simp only
    rw [cdiv_of_ne_zero _ _ (by omega)]
    exact ⟨_, rfl⟩
  | LOWER =>
    have := hL rfl
    simp only
    rw [cdiv_of_ne_zero _ _ (by omega)]
    exact ⟨_, rfl⟩
  | LEFT =>
    simp only
    rw [cdiv_of_ne_zero _ _ (by omega)]
    exact ⟨_, rfl⟩
  | RIGHT =>
    have := hR rfl
    simp only
    rw [cdiv_of_ne_zero _ _ (by omega)]
    exact ⟨_, rfl⟩

/-- The gray generator, given that a value is computed for every pixel: it has a
result, every pixel of the grid holds the 8-bit sample of the value computed for it,
and every store wrote such a value inside the grid. -/
theorem pgm_fill_spec (W H : Int) (hW : 0 < W) (hH : 0 < H)
    (hval : ∀ r c : Int, ∃ v, pgm_value W H r c = some v)
    (a : Image (Int × Int)) (hw : a.width = W) (hh : a.height = H) :
    ∃ b, pgm_fill W H a = some b ∧ b.width = W ∧ b.height = H ∧
      (∀ r c : Int, 0 ≤ r → r < H → 0 ≤ c → c < W →
        ∃ v, pgm_value W H r c = some v ∧ b.image (r, c) = v % 256) ∧
      (∀ w ∈ b.written, w ∈ a.written ∨ GrayWrite W H w) := by
  obtain ⟨b, e, hbw, hbh, hbi, hbl⟩ := nested_spec Prod.fst Prod.snd
    (fun k => (pgm_value W H k.1 k.2).getD 0 % 256) (GrayWrite W H) W H 0 H 0 W
    (fun r c img => do
      let v ← pgm_value W H r c
      store2 img r c v) (by omega) (by omega)
    (by
      intro r c a' hr1 hr2 hc1 hc2 hw' hh'
      obtain ⟨v, hv⟩ := hval r c
      obtain ⟨b, hb, hbw, hbh, hbi, hbl⟩ :=
        store2_pixel a' W H r c v hw' hh' ⟨hr1, hr2⟩ ⟨hc1, hc2⟩
      refine ⟨b, ?_, hbw, hbh, ?_, ?_⟩
      · dsimp only
        rw [hv]
        simpa using hb
      · intro k
        rw [hbi k]
        by_cases hk : k.1 = r ∧ k.2 = c
        · rw [if_pos hk, if_pos hk]
          dsimp only
          rw [hk.1, hk.2, hv]
          simp only [Option.getD_some]
        · rw [if_neg hk, if_neg hk]
      · intro w hw
        rcases hbl w hw with h | h
        · exact Or.inl h
        · right; subst h; exact ⟨hr1, hr2, hc1, hc2, hv⟩)
    a hw hh
  refine ⟨b, e, hbw, hbh, ?_, hbl⟩
  intro r c hr0 hrH hc0 hcW
  obtain ⟨v, hv⟩ := hval r c
  refine ⟨v, hv, ?_⟩
  rw [hbi (r, c)]
  simp only [hr0, hrH, hc0, hcW, true_and, and_self, if_true]
  rw [hv]; rfl

/-- The gray generator on accepted dimensions `W = 4m`, `H = 4n` that are `int`s. -/
theorem pgm_fill_accepted (m n : Int) (hm : 1 ≤ m) (hn : 1 ≤ n)
    (hWi : 4 * m ≤ 2147483647) (hHi : 4 * n ≤ 2147483647) (garbage : Int × Int → Int) :
    ∃ b, pgm_fill (4 * m) (4 * n) (created (4 * m) (4 * n) garbage) = some b ∧
      (∀ r c : Int, 0 ≤ r → r < 4 * n → 0 ≤ c → c < 4 * m →
        ∃ v, pgm_value (4 * m) (4 * n) r c = some v ∧ b.image (r, c) = v % 256) ∧
      (∀ w ∈ b.written, GrayWrite (4 * m) (4 * n) w) := by
  obtain ⟨b, e, -, -, hbi, hbl⟩ := pgm_fill_spec (4 * m) (4 * n) (by omega) (by omega)
    (fun r c => pgm_value_total m n r c hm hn hWi hHi) (created (4 * m) (4 * n) garbage)
    rfl rfl
  refine ⟨b, e, hbi, ?_⟩
  intro w hw
  rcases hbl w hw with h | h
  · simp [created] at h
  · exact h

/-- The sample that the gray generator leaves at a pixel of the grid, from the value
computed for that pixel. -/
theorem pgm_fill_pixel (m n : Int) (hm : 1 ≤ m) (hn : 1 ≤ n)
    (hWi : 4 * m ≤ 2147483647) (hHi : 4 * n ≤ 2147483647) (garbage : Int × Int → Int)
    (r c v : Int) (hr0 : 0 ≤ r) (hrH : r < 4 * n) (hc0 : 0 ≤ c) (hcW : c < 4 * m)
    (hv : pgm_value (4 * m) (4 * n) r c = some v) :
    ∃ b, pgm_fill (4 * m) (4 * n) (created (4 * m) (4 * n) garbage) = some b ∧
      b.image (r, c) = v % 256 := by
  obtain ⟨b, e, hbi, -⟩ := pgm_fill_accepted m n hm hn hWi hHi garbage
  obtain ⟨v', hv', hi⟩ := hbi r c hr0 hrH hc0 hcW
  rw [hv] at hv'
  cases Option.some.inj hv'
  exact ⟨b, e, hi⟩

/-! ## The gray pattern -/

/-- C4. For every width `W` and height `H` accepted by `validate_dimensions` for the
gray type (`W` and `H` being values of a C `int`), every pixel of the grid filled by
`generate_pgm_image` that lies outside the centered `W/2 x H/2` rectangle (rows
`H/4..3H/4-1`, columns `W/4..3W/4-1`) has sample 0.  The generator's products are
computed modulo `2^32`; the statement covers the sizes at which they overflow. -/
theorem C4_pgm_outside_zero (W H : Int) (garbage : Int × Int → Int)
    (hv : (validate_dimensions 2 W H).1 = 1)
    (hWi : W ≤ 2147483647) (hHi : H ≤ 2147483647)
    (row col : Int) (hr0 : 0 ≤ row) (hrH : row < H) (hc0 : 0 ≤ col) (hcW : col < W)
    (hout : ¬ (H.tdiv 4 ≤ row ∧ row ≤ (3 * H).tdiv 4 - 1 ∧
               W.tdiv 4 ≤ col ∧ col ≤ (3 * W).tdiv 4 - 1)) :
    ∃ img, pgm_fill W H (created W H garbage) = some img ∧ img.image (row, col) = 0 := by
  obtain ⟨hH4, hHm, hW', -⟩ := validate_accepts 2 W H hv
  obtain ⟨hW4, hWm⟩ := hW' (Or.inr rfl)
  have t4W : W.tdiv 4 = W / 4 := Int.tdiv_eq_ediv (by omega) (by omega)
  have t4H : H.tdiv 4 = H / 4 := Int.tdiv_eq_ediv (by omega) (by omega)
  have t3W : (3 * W).tdiv 4 = (3 * W) / 4 := Int.tdiv_eq_ediv (by omega) (by omega)
  have t3H : (3 * H).tdiv 4 = (3 * H) / 4 := Int.tdiv_eq_ediv (by omega) (by omega)
  rw [t4W, t4H, t3W, t3H] at hout
  obtain ⟨m, rfl⟩ : ∃ m, W = 4 * m := ⟨W / 4, by omega⟩
  obtain ⟨n, rfl⟩ : ∃ n, H = 4 * n := ⟨H / 4, by omega⟩
  exact pgm_fill_pixel m n (by omega) (by omega) hWi hHi garbage row col 0 hr0 hrH hc0 hcW
    (pgm_value_outside m n row col (by omega) (by omega) (by omega))

/-- C4 at a concrete input: the 8 x 8 gray grid at pixel (1, 4), above the rectangle. -/
theorem C4_pgm_outside_zero_witness :
    (validate_dimensions 2 8 8).1 = 1 ∧ (8:Int) ≤ 2147483647 ∧ (8:Int) ≤ 2147483647 ∧
    (0:Int) ≤ 1 ∧ (1:Int) < 8 ∧ (0:Int) ≤ 4 ∧ (4:Int) < 8 ∧
    ¬ ((8:Int).tdiv 4 ≤ 1 ∧ (1:Int) ≤ (3 * 8 : Int).tdiv 4 - 1 ∧
        (8:Int).tdiv 4 ≤ 4 ∧ (4:Int) ≤ (3 * 8 : Int).tdiv 4 - 1) ∧
    ∃ img, pgm_fill 8 8 (created 8 8 (fun _ => 7)) = some img ∧ img.image (1, 4) = 0 :=
  ⟨by decide, by decide, by decide, by decide, by decide, by decide, by decide, by decide,
    C4_pgm_outside_zero 8 8 (fun _ => 7) (by decide) (by decide) (by decide) 1 4 (by decide)
      (by decide) (by decide) (by decide) (by decide)⟩

/-- C5, counterexample. The gray grids do not reach 255 on every edge pixel of the
rectangle: in the 4 x 4 grid the pixel (2, 2), on the rectangle's bottom row and
rightmost column, holds 0; in the 8 x 8 grid the pixel (3, 5), on the rightmost
column, holds 128. -/
theorem C5_edges_not_all_white :
    (validate_dimensions 2 4 4).1 = 1 ∧ (validate_dimensions 2 8 8).1 = 1 ∧
    (2:Int) = (3 * 4 : Int).tdiv 4 - 1 ∧ (5:Int) = (3 * 8 : Int).tdiv 4 - 1 ∧
    (8:Int).tdiv 4 ≤ 3 ∧ (3:Int) ≤ (3 * 8 : Int).tdiv 4 - 1 ∧
    (∃ img, pgm_fill 4 4 (created 4 4 (fun _ => 0)) = some img ∧ img.image (2, 2) = 0) ∧
    (∃ img, pgm_fill 8 8 (created 8 8 (fun _ => 0)) = some img ∧ img.image (3, 5) = 128) := by
  refine ⟨by decide, by decide, by decide, by decide, by decide, by decide, ?_, ?_⟩
  · exact pgm_fill_pixel 1 1 (by decide) (by decide) (by decide) (by decide) (fun _ => 0)
      2 2 0 (by decide) (by decide) (by decide) (by decide) (by decide)
  · exact pgm_fill_pixel 2 2 (by decide) (by decide) (by decide) (by decide) (fun _ => 0)
      3 5 128 (by decide) (by decide) (by decide) (by decide) (by decide)

/-- C5, amended. For every width `W` and height `H` accepted by `validate_dimensions`
for the gray type (values of a C `int`) whose slope products fit in `int`
(`(W/4) * (H/2) <= 2147483647`), and every pixel of the inner rectangle: on the
rectangle's top row and on its leftmost column the sample is 255; on its bottom row
the sample is 255 when `H >= 8` and `255 * (H/4) <= 2147483647`; on its rightmost
column the sample is 255 when `255 * (W/4) <= 2147483647` and the pixel falls in the
RIGHT triangle, that is when neither the UPPER test nor the LOWER test of the
generator holds for it. -/
theorem C5_pgm_edges (W H : Int) (garbage : Int × Int → Int)
    (hv : (validate_dimensions 2 W H).1 = 1)
    (hWi : W ≤ 2147483647) (hHi : H ≤ 2147483647)
    (hs : W.tdiv 4 * H.tdiv 2 ≤ 2147483647)
    (row col : Int)
    (hr1 : H.tdiv 4 ≤ row) (hr2 : row ≤ (3 * H).tdiv 4 - 1)
    (hc1 : W.tdiv 4 ≤ col) (hc2 : col ≤ (3 * W).tdiv 4 - 1) :
    ∃ img, pgm_fill W H (created W H garbage) = some img ∧
      (row = H.tdiv 4 → img.image (row, col) = 255) ∧
      (col = W.tdiv 4 → img.image (row, col) = 255) ∧
      (8 ≤ H → 255 * H.tdiv 4 ≤ 2147483647 → row = (3 * H).tdiv 4 - 1 →
        img.image (row, col) = 255) ∧
      (255 * W.tdiv 4 ≤ 2147483647 → col = (3 * W).tdiv 4 - 1 →
        ¬ (row - H.tdiv 2 ≤ ((col - W.tdiv 2) * H.tdiv 2).tdiv (W.tdiv 2) ∧
           row - H.tdiv 2 ≤ (-(col - W.tdiv 2) * H.tdiv 2).tdiv (W.tdiv 2)) →
        ¬ (row - H.tdiv 2 ≥ ((col - W.tdiv 2) * H.tdiv 2).tdiv (W.tdiv 2) ∧
           row - H.tdiv 2 ≥ (-(col - W.tdiv 2) * H.tdiv 2).tdiv (W.tdiv 2)) →
        img.image (row, col) = 255) := by
  obtain ⟨hH4, hHm, hW', -⟩ := validate_accepts 2 W H hv
  obtain ⟨hW4, hWm⟩ := hW' (Or.inr rfl)
  have t4W : W.tdiv 4 = W / 4 := Int.tdiv_eq_ediv (by omega) (by omega)
  have t4H : H.tdiv 4 = H / 4 := Int.tdiv_eq_ediv (by omega) (by omega)
  have t3W : (3 * W).tdiv 4 = (3 * W) / 4 := Int.tdiv_eq_ediv (by omega) (by omega)
  have t3H : (3 * H).tdiv 4 = (3 * H) / 4 := Int.tdiv_eq_ediv (by omega) (by omega)
  have t2W : W.tdiv 2 = W / 2 := Int.tdiv_eq_ediv (by omega) (by omega)
  have t2H : H.tdiv 2 = H / 2 := Int.tdiv_eq_ediv (by omega) (by omega)
  rw [t4W, t4H, t3W, t3H, t2W, t2H]
  rw [t4H] at hr1; rw [t3H] at hr2; rw [t4W] at hc1; rw [t3W] at hc2
  rw [t4W, t2H] at hs
  obtain ⟨m, rfl⟩ : ∃ m, W = 4 * m := ⟨W / 4, by omega⟩
  obtain ⟨n, rfl⟩ : ∃ n, H = 4 * n := ⟨H / 4, by omega⟩
  have eW4 : 4 * m / 4 = m := by omega
  have eH4 : 4 * n / 4 = n := by omega
  have eW3 : 3 * (4 * m) / 4 = 3 * m := by omega
  have eH3 : 3 * (4 * n) / 4 = 3 * n := by omega
  have eW2 : 4 * m / 2 = 2 * m := by omega
  have eH2 : 4 * n / 2 = 2 * n := by omega
  rw [eW4, eH4, eW3, eH3, eW2, eH2]
  rw [eH4] at hr1; rw [eH3] at hr2; rw [eW4] at hc1; rw [eW3] at hc2
  rw [eW4, eH2] at hs
  obtain ⟨b, hb, hbi, -⟩ := pgm_fill_accepted m n (by omega) (by omega) hWi hHi garbage
  refine ⟨b, hb, ?_⟩
  obtain ⟨v, hval, hi⟩ := hbi row col (by omega) (by omega) (by omega) (by omega)
  rw [hi]
  refine ⟨?_, ?_, ?_, ?_⟩
  · intro hrow
    subst hrow
    rw [pgm_value_top m row col (by omega) (by omega) hs hc1 hc2] at hval
    rw [← Option.some.inj hval]; rfl
  · intro hcol
    subst hcol
    rw [pgm_value_left col n row (by omega) (by omega) hs hr1 hr2] at hval
    rw [← Option.some.inj hval]; rfl
  · intro h8 hn5 hrow
    subst hrow
    rw [pgm_value_bottom m n col (by omega) (by omega) hs hn5 hc1 hc2] at hval
    rw [← Option.some.inj hval]; rfl
  · intro hm5 hcol hnu hnl
    subst hcol
    rw [Int.neg_mul, Int.neg_tdiv] at hnu hnl
    rw [pgm_value_right m n row (by omega) (by omega) hs hm5 hr1 hr2 hnu hnl] at hval
    rw [← Option.some.inj hval]; rfl

/-- C5 (amended) at a concrete input: in the 8 x 16 gray grid the pixel (8, 5), on the
rectangle's rightmost column and inside the RIGHT triangle, holds 255. -/
theorem C5_pgm_edges_witness :
    (validate_dimensions 2 8 16).1 = 1 ∧ (8:Int) ≤ 2147483647 ∧ (16:Int) ≤ 2147483647 ∧
    (8:Int).tdiv 4 * (16:Int).tdiv 2 ≤ 2147483647 ∧
    (16:Int).tdiv 4 ≤ 8 ∧ (8:Int) ≤ (3 * 16 : Int).tdiv 4 - 1 ∧
    (8:Int).tdiv 4 ≤ 5 ∧ (5:Int) ≤ (3 * 8 : Int).tdiv 4 - 1 ∧
    ∃ img, pgm_fill 8 16 (created 8 16 (fun _ => 0)) = some img ∧ img.image (8, 5) = 255 := by
  refine ⟨by decide, by decide, by decide, by decide, by decide, by decide, by decide,
    by decide, ?_⟩
  obtain ⟨img, h, -, -, -, h4⟩ := C5_pgm_edges 8 16 (fun _ => 0) (by decide) (by decide)
    (by decide) (by decide) 8 5 (by decide) (by decide) (by decide) (by decide)
  exact ⟨img, h, h4 (by decide) (by decide) (by decide) (by decide)⟩

/-- C14. For every width and height accepted by `validate_dimensions` for the gray type
(values of a C `int`), no division executed by `generate_pgm_image` has a zero divisor:
the divisor `rect_width` of the triangle tests is non-zero, every pixel takes a branch
whose divisor `max_dist` is non-zero, and the whole fill has a result.  The LOWER
branch, whose divisor is `rect_bottom - center_row = H/4 - 1`, is only reached when
`H >= 8`, and the RIGHT branch, whose divisor is `rect_right - center_col = W/4 - 1`,
only when `W >= 8`, although these divisors are 0 for `H = 4` respectively `W = 4`.
The generator's products are computed modulo `2^32`; the statement covers the sizes at
which they overflow. -/
theorem C14_pgm_no_zero_divisor (W H : Int) (hv : (validate_dimensions 2 W H).1 = 1)
    (hWi : W ≤ 2147483647) (hHi : H ≤ 2147483647)
    (row col : Int) :
    W.tdiv 2 ≠ 0 ∧
    (∃ t, pgm_branch W H row col = some t ∧
      (∀ a b, pgm_division W H row col t = some (a, b) → b ≠ 0) ∧
      (t = Triangle.LOWER → 8 ≤ H) ∧ (t = Triangle.RIGHT → 8 ≤ W)) ∧
    (∃ v, pgm_value W H row col = some v) ∧
    (∀ garbage, ∃ img, pgm_fill W H (created W H garbage) = some img) ∧
    (∀ a b, pgm_division W H row col Triangle.LOWER = some (a, b) → b = H.tdiv 4 - 1) ∧
    (∀ a b, pgm_division W H row col Triangle.RIGHT = some (a, b) → b = W.tdiv 4 - 1) ∧
    (H = 4 → ∀ a b, pgm_division W H row col Triangle.LOWER = some (a, b) → b = 0) ∧
    (W = 4 → ∀ a b, pgm_division W H row col Triangle.RIGHT = some (a, b) → b = 0) := by
  obtain ⟨hH4, hHm, hW', -⟩ := validate_accepts 2 W H hv
  obtain ⟨hW4, hWm⟩ := hW' (Or.inr rfl)
  have t4W : W.tdiv 4 = W / 4 := Int.tdiv_eq_ediv (by omega) (by omega)
  have t4H : H.tdiv 4 = H / 4 := Int.tdiv_eq_ediv (by omega) (by omega)
  have t2W : W.tdiv 2 = W / 2 := Int.tdiv_eq_ediv (by omega) (by omega)
  rw [t4W, t4H, t2W]
  obtain ⟨m, rfl⟩ : ∃ m, W = 4 * m := ⟨W / 4, by omega⟩
  obtain ⟨n, rfl⟩ : ∃ n, H = 4 * n := ⟨H / 4, by omega⟩
  have hm : 1 ≤ m := by omega
  have hn : 1 ≤ n := by omega
  have eW4 : 4 * m / 4 = m := by omega
  have eH4 : 4 * n / 4 = n := by omega
  rw [eW4, eH4]
  have hL := pgm_division_norm m n row col hm hn Triangle.LOWER
  have hR := pgm_division_norm m n row col hm hn Triangle.RIGHT
  simp only at hL hR
  refine ⟨by omega, ?_, ?_, ?_, ?_, ?_, ?_, ?_⟩
  · obtain ⟨t, ht, hLo, hRi⟩ := pgm_branch_reach m n row col hm hn hWi hHi
    refine ⟨t, ht, ?_, (fun h => by have := hLo h; omega), (fun h => by have := hRi h; omega)⟩
    intro a b hab
    rw [pgm_division_norm m n row col hm hn t] at hab
    cases t with
    | OUTSIDE => simp at hab
    | UPPER => simp only [Option.some.injEq, Prod.mk.injEq] at hab; omega
    | LOWER =>
      have := hLo rfl
      simp only [Option.some.injEq, Prod.mk.injEq] at hab; omega
    | LEFT => simp only [Option.some.injEq, Prod.mk.injEq] at hab; omega
    | RIGHT =>
      have := hRi rfl
      simp only [Option.some.injEq, Prod.mk.injEq] at hab; omega
  · exact pgm_value_total m n row col hm hn hWi hHi
  · intro garbage
    obtain ⟨b, hb, -⟩ := pgm_fill_accepted m n hm hn hWi hHi garbage
    exact ⟨b, hb⟩
  · intro a b hab
    rw [hL] at hab
    simp only [Option.some.injEq, Prod.mk.injEq] at hab; omega
  · intro a b hab
    rw [hR] at hab
    simp only [Option.some.injEq, Prod.mk.injEq] at hab; omega
  · intro h4 a b hab
    rw [hL] at hab
    simp only [Option.some.injEq, Prod.mk.injEq] at hab; omega
  · intro h4 a b hab
    rw [hR] at hab
    simp only [Option.some.injEq, Prod.mk.injEq] at hab; omega

/-- C14 at a concrete input: in the 8 x 8 gray grid the pixel (5, 4) takes the LOWER
branch, whose divisor is 1. -/
theorem C14_pgm_no_zero_divisor_witness :
    (validate_dimensions 2 8 8).1 = 1 ∧ (8:Int) ≤ 2147483647 ∧
    pgm_branch 8 8 5 4 = some Triangle.LOWER ∧
    pgm_division 8 8 5 4 Triangle.LOWER = some (255, 1) ∧
    (∃ t, pgm_branch 8 8 5 4 = some t ∧
      (∀ a b, pgm_division 8 8 5 4 t = some (a, b) → b ≠ 0) ∧
      (t = Triangle.LOWER → (8:Int) ≤ 8) ∧ (t = Triangle.RIGHT → (8:Int) ≤ 8)) :=
  ⟨by decide, by decide, by decide, by decide,
    (C14_pgm_no_zero_divisor 8 8 (by decide) (by decide) (by decide) 5 4).2.1⟩

/-- The gray samples on the accepted sizes whose products fit in `int`
(`(W/4) * (H/2)`, `255 * (H/4)` and `255 * (W/4)` at most 2147483647): every value
handed to a store and every value computed for a pixel of the grid lies in `[0, 255]`,
and the 8-bit store keeps it unchanged. -/
theorem gray_samples_of_fits (W H : Int) (hv : (validate_dimensions 2 W H).1 = 1)
    (hs : W.tdiv 4 * H.tdiv 2 ≤ 2147483647) (hH5 : 255 * H.tdiv 4 ≤ 2147483647)
    (hW5 : 255 * W.tdiv 4 ≤ 2147483647) (garbage : Int × Int → Int) :
    ∃ img, pgm_fill W H (created W H garbage) = some img ∧
      (∀ w ∈ img.written, 0 ≤ w.2 ∧ w.2 ≤ 255 ∧ w.2 % 256 = w.2) ∧
      (∀ row col : Int, 0 ≤ row → row < H → 0 ≤ col → col < W →
        ∃ v, pgm_value W H row col = some v ∧ 0 ≤ v ∧ v ≤ 255 ∧
          img.image (row, col) = v) := by
  obtain ⟨hH4, hHm, hW', -⟩ := validate_accepts 2 W H hv
  obtain ⟨hW4, hWm⟩ := hW' (Or.inr rfl)
  have t4W : W.tdiv 4 = W / 4 := Int.tdiv_eq_ediv (by omega) (by omega)
  have t4H : H.tdiv 4 = H / 4 := Int.tdiv_eq_ediv (by omega) (by omega)
  have t2H : H.tdiv 2 = H / 2 := Int.tdiv_eq_ediv (by omega) (by omega)
  rw [t4W, t2H] at hs; rw [t4H] at hH5; rw [t4W] at hW5
  obtain ⟨m, rfl⟩ : ∃ m, W = 4 * m := ⟨W / 4, by omega⟩
  obtain ⟨n, rfl⟩ : ∃ n, H = 4 * n := ⟨H / 4, by omega⟩
  have eW4 : 4 * m / 4 = m := by omega
  have eH4 : 4 * n / 4 = n := by omega
  have eH2 : 4 * n / 2 = 2 * n := by omega
  rw [eW4, eH2] at hs; rw [eH4] at hH5; rw [eW4] at hW5
  have hm : 1 ≤ m := by omega
  have hn : 1 ≤ n := by omega
  obtain ⟨b, hb, hbi, hbl⟩ := pgm_fill_accepted m n hm hn (by omega) (by omega) garbage
  refine ⟨b, hb, ?_, ?_⟩
  · intro w hw
    obtain ⟨-, -, -, -, hval⟩ := hbl w hw
    obtain ⟨v, hv', v0, v1⟩ := pgm_value_range_of_fits m n w.1.1 w.1.2 hm hn hs hH5 hW5
    rw [hv'] at hval
    cases Option.some.inj hval
    exact ⟨v0, v1, Int.emod_eq_of_lt v0 (by omega)⟩
  · intro row col hr0 hrH hc0 hcW
    obtain ⟨v, hv', v0, v1⟩ := pgm_value_range_of_fits m n row col hm hn hs hH5 hW5
    obtain ⟨v2, hv2, hi⟩ := hbi row col hr0 hrH hc0 hcW
    rw [hv'] at hv2
    cases Option.some.inj hv2
    exact ⟨v, hv', v0, v1, by rw [hi]; exact Int.emod_eq_of_lt v0 (by omega)⟩

/-- At 4 x 33686020 the product `dist_from_edge * 255` of pixel (16843010, 2), in the
UPPER triangle with `dist_from_edge = max_dist = 8421505`, is 2147483775 and wraps to
-2147483521: the value computed is 509 and the sample stored is 253. -/
theorem pgm_overflow_sample (garbage : Int × Int → Int) :
    (validate_dimensions 2 4 33686020).1 = 1 ∧
    pgm_branch 4 33686020 16843010 2 = some Triangle.UPPER ∧
    wrap32 (8421505 * 255) = -2147483521 ∧
    pgm_value 4 33686020 16843010 2 = some 509 ∧
    ∃ img, pgm_fill 4 33686020 (created 4 33686020 garbage) = some img ∧
      img.image (16843010, 2) = 253 :=
  ⟨by decide, by decide, by decide, by decide,
    pgm_fill_pixel 1 8421505 (by decide) (by decide) (by decide) (by decide) garbage
      16843010 2 509 (by decide) (by decide) (by decide) (by decide) (by decide)⟩

/-- At 4 x 33686024 the product `dist_from_center * 255` of the bottom-row pixel
(25264517, 2), in the LOWER triangle with `dist_from_center = max_dist = 8421505`,
wraps: the value computed is -254 and the sample stored is 2, not 255. -/
theorem pgm_overflow_bottom_row (garbage : Int × Int → Int) :
    (validate_dimensions 2 4 33686024).1 = 1 ∧
    (25264517:Int) = (3 * 33686024 : Int).tdiv 4 - 1 ∧
    pgm_branch 4 33686024 25264517 2 = some Triangle.LOWER ∧
    pgm_value 4 33686024 25264517 2 = some (-254) ∧
    ∃ img, pgm_fill 4 33686024 (created 4 33686024 garbage) = some img ∧
      img.image (25264517, 2) = 2 := by
  refine ⟨by decide, by decide, by decide, by decide, ?_⟩
  obtain ⟨img, h, hi⟩ :=
    pgm_fill_pixel 1 8421506 (by decide) (by decide) (by decide) (by decide) garbage
      25264517 2 (-254) (by decide) (by decide) (by decide) (by decide) (by decide)
  exact ⟨img, h, hi.trans (by decide)⟩

/-- The widths and heights of the model are values of an `int`: at the width
`4294967296`, which no `int` holds, the wrapped slope products would send the pixel
(2, 1073741824) of a grid of height 4 to the LOWER branch, whose divisor is 0. -/
theorem pgm_value_beyond_int :
    (validate_dimensions 2 4294967296 4).1 = 1 ∧
    pgm_branch 4294967296 4 2 1073741824 = some Triangle.LOWER ∧
    pgm_value 4294967296 4 2 1073741824 = none :=
  ⟨by decide, by decide, by decide⟩

/-! ## Arithmetic of the colour generator -/

theorem tdiv_mono (a b c : Int) (ha : 0 ≤ a) (hab : a ≤ b) (hc : 0 < c) :
    a.tdiv c ≤ b.tdiv c := by
  rw [Int.tdiv_eq_ediv ha (by omega), Int.tdiv_eq_ediv (by omega) (by omega)]
  exact Int.ediv_le_ediv hc hab

/-- The colour generator's pixel on a height that is a positive multiple of 4. -/
theorem ppm_value_norm (W H row col : Int) (hH4 : 4 ≤ H) (hHm : H % 4 = 0) :
    ppm_value W H row col = some (
      if row < H.tdiv 2 then
        if col < W.tdiv 3 then
          (255, (wrap32 (row * 255)).tdiv (H.tdiv 2), (wrap32 (row * 255)).tdiv (H.tdiv 2))
        else if col < 2 * W.tdiv 3 then
          (255 - (wrap32 (row * 255)).tdiv (H.tdiv 2), 255,
            255 - (wrap32 (row * 255)).tdiv (H.tdiv 2))
        else
          ((wrap32 (row * 255)).tdiv (H.tdiv 2), (wrap32 (row * 255)).tdiv (H.tdiv 2), 255)
      else
        if col < W.tdiv 2 then
          ((wrap32 ((row - H.tdiv 2) * 255)).tdiv (H - H.tdiv 2),
            (wrap32 ((row - H.tdiv 2) * 255)).tdiv (H - H.tdiv 2),
            (wrap32 ((row - H.tdiv 2) * 255)).tdiv (H - H.tdiv 2))
        else
          (255 - (wrap32 ((row - H.tdiv 2) * 255)).tdiv (H - H.tdiv 2),
            255 - (wrap32 ((row - H.tdiv 2) * 255)).tdiv (H - H.tdiv 2),
            255 - (wrap32 ((row - H.tdiv 2) * 255)).tdiv (H - H.tdiv 2))) := by
  have t2H : H.tdiv 2 = H / 2 := Int.tdiv_eq_ediv (by omega) (by omega)
  have n1 : H.tdiv 2 ≠ 0 := by rw [t2H]; omega
  have n2 : H - H.tdiv 2 ≠ 0 := by rw [t2H]; omega
  unfold ppm_value
  simp only [cdiv_of_ne_zero _ _ n1, cdiv_of_ne_zero _ _ n2, Option.bind_eq_bind,
    Option.some_bind, Option.pure_def]
  split_ifs <;> rfl

/-- On accepted heights the colour generator computes a pixel for every position. -/
theorem ppm_value_total (W H row col : Int) (hH4 : 4 ≤ H) (hHm : H % 4 = 0) :
    ∃ v, ppm_value W H row col = some v :=
  ⟨_, ppm_value_norm W H row col hH4 hHm⟩

/-- The products of the colour generator fit in `int` when `255 * (H/2)` does. -/
theorem progress_fits (H row : Int) (hH4 : 4 ≤ H) (hHm : H % 4 = 0)
    (hfit : 255 * H.tdiv 2 ≤ 2147483647) (hr0 : 0 ≤ row) (hrH : row < H) :
    (row < H.tdiv 2 → wrap32 (row * 255) = row * 255) ∧
    (H.tdiv 2 ≤ row → wrap32 ((row - H.tdiv 2) * 255) = (row - H.tdiv 2) * 255) := by
  have t2H : H.tdiv 2 = H / 2 := Int.tdiv_eq_ediv (by omega) (by omega)
  rw [t2H] at hfit ⊢
  constructor
  · intro h
    exact wrap32_eq _ (by omega) (by omega)
  · intro h
    exact wrap32_eq _ (by omega) (by omega)

/-- When the products fit in `int`, every component the colour generator computes for
a pixel of the grid lies in `[0, 255]`. -/
theorem ppm_value_range_of_fits (W H row col : Int) (hH4 : 4 ≤ H) (hHm : H % 4 = 0)
    (hfit : 255 * H.tdiv 2 ≤ 2147483647) (hr0 : 0 ≤ row) (hrH : row < H) :
    ∃ v, ppm_value W H row col = some v ∧ ∀ ch, 0 ≤ comp ch v ∧ comp ch v ≤ 255 := by
  rw [ppm_value_norm W H row col hH4 hHm]
  refine ⟨_, rfl, ?_⟩
  obtain ⟨f1, f2⟩ := progress_fits H row hH4 hHm hfit hr0 hrH
  have t2H : H.tdiv 2 = H / 2 := Int.tdiv_eq_ediv (by omega) (by omega)
  by_cases hrow : row < H.tdiv 2
  · obtain ⟨p0, p1⟩ := scale_lt row (H.tdiv 2) hr0 hrow
    rw [f1 hrow]
    generalize (row * 255).tdiv (H.tdiv 2) = p at p0 p1
    rw [if_pos hrow]
    intro ch
    split_ifs <;> cases ch <;> simp only [comp] <;> omega
  · obtain ⟨p0, p1⟩ := scale_lt (row - H.tdiv 2) (H - H.tdiv 2) (by omega) (by omega)
    rw [f2 (by omega)]
    generalize ((row - H.tdiv 2) * 255).tdiv (H - H.tdiv 2) = q at p0 p1
    rw [if_neg hrow]
    intro ch
    split_ifs <;> cases ch <;> simp only [comp] <;> omega

/-- The colour generator on accepted heights: it has a result, every sample of the grid
holds the 8-bit sample of the component computed for it, and every store wrote such a
component inside the grid. -/
theorem ppm_fill_accepted (W H : Int) (hW : 0 < W) (hH4 : 4 ≤ H) (hHm : H % 4 = 0)
    (garbage : Int × Int × Chan → Int) :
    ∃ b, ppm_fill W H (created W H garbage) = some b ∧
      (∀ (r c : Int) (ch : Chan), 0 ≤ r → r < H → 0 ≤ c → c < W →
        ∃ v, ppm_value W H r c = some v ∧ b.image (r, c, ch) = comp ch v % 256) ∧
      (∀ w ∈ b.written, ColorWrite W H w) := by
  obtain ⟨b, e, -, -, hbi, hbl⟩ := nested_spec (fun k : Int × Int × Chan => k.1)
    (fun k => k.2.1)
    (fun k => comp k.2.2 ((ppm_value W H k.1 k.2.1).getD (0, 0, 0)) % 256) (ColorWrite W H)
    W H 0 H 0 W
    (fun r c img => do
      let v ← ppm_value W H r c
      let img ← store3 img r c Chan.RED v.1
      let img ← store3 img r c Chan.GREEN v.2.1
      store3 img r c Chan.BLUE v.2.2) (by omega) (by omega)
    (by
      intro r c a' hr1 hr2 hc1 hc2 hw' hh'
      obtain ⟨v, hv⟩ := ppm_value_total W H r c hH4 hHm
      obtain ⟨b1, e1, w1, h1, i1, l1⟩ := store3_spec a' r c Chan.RED v.1
        (by rw [hh']; exact ⟨hr1, hr2⟩) (by rw [hw']; exact ⟨hc1, hc2⟩)
      obtain ⟨b2, e2, w2, h2, i2, l2⟩ := store3_spec b1 r c Chan.GREEN v.2.1
        (by rw [h1, hh']; exact ⟨hr1, hr2⟩) (by rw [w1, hw']; exact ⟨hc1, hc2⟩)
      obtain ⟨b3, e3, w3, h3, i3, l3⟩ := store3_spec b2 r c Chan.BLUE v.2.2
        (by rw [h2, h1, hh']; exact ⟨hr1, hr2⟩) (by rw [w2, w1, hw']; exact ⟨hc1, hc2⟩)
      refine ⟨b3, ?_, ?_, ?_, ?_, ?_⟩
      · dsimp only
        rw [hv]
        simp only [Option.bind_eq_bind, Option.some_bind, e1, e2, e3]
      · rw [w3, w2, w1, hw']
      · rw [h3, h2, h1, hh']
      · rintro ⟨kr, kc, kch⟩
        rw [i3, i2, i1]
        dsimp only
        by_cases hk : kr = r ∧ kc = c
        · obtain ⟨rfl, rfl⟩ := hk
          rw [hv]
          cases kch <;> simp [comp]
        · rw [if_neg hk]
          have : ∀ ch, ¬ ((kr, kc, kch) = (r, c, ch)) := by
            intro ch h
            simp only [Prod.mk.injEq] at h
            exact hk ⟨h.1, h.2.1⟩
          rw [if_neg (this _), if_neg (this _), if_neg (this _)]
      · intro w hw
        have inR : ColorWrite W H ((r, c, Chan.RED), v.1) :=
          ⟨hr1, hr2, hc1, hc2, by simp [hv, comp]⟩
        have inG : ColorWrite W H ((r, c, Chan.GREEN), v.2.1) :=
          ⟨hr1, hr2, hc1, hc2, by simp [hv, comp]⟩
        have inB : ColorWrite W H ((r, c, Chan.BLUE), v.2.2) :=
          ⟨hr1, hr2, hc1, hc2, by simp [hv, comp]⟩
        rcases l3 w hw with h | h
        · rcases l2 w h with h | h
          · rcases l1 w h with h | h
            · exact Or.inl h
            · right; rw [h]; exact inR
          · right; rw [h]; exact inG
        · right; rw [h]; exact inB)
    (created W H garbage) rfl rfl
  refine ⟨b, e, ?_, ?_⟩
  · intro r c ch hr0 hrH hc0 hcW
    obtain ⟨v, hv⟩ := ppm_value_total W H r c hH4 hHm
    refine ⟨v, hv, ?_⟩
    rw [hbi (r, c, ch)]
    simp only [hr0, hrH, hc0, hcW, true_and, and_self, if_true]
    rw [hv]; rfl
  · intro w hw
    rcases hbl w hw with h | h
    · simp [created] at h
    · exact h

/-- The three samples that the colour generator leaves at a pixel of the grid, from
the pixel computed for that position. -/
theorem ppm_fill_pixel (W H : Int) (hW : 0 < W) (hH4 : 4 ≤ H) (hHm : H % 4 = 0)
    (garbage : Int × Int × Chan → Int) :
    ∃ b, ppm_fill W H (created W H garbage) = some b ∧
      ∀ (r c : Int) (v : Int × Int × Int), 0 ≤ r → r < H → 0 ≤ c → c < W →
        ppm_value W H r c = some v →
        (b.image (r, c, Chan.RED), b.image (r, c, Chan.GREEN), b.image (r, c, Chan.BLUE)) =
          (v.1 % 256, v.2.1 % 256, v.2.2 % 256) := by
  obtain ⟨b, hb, hbi, -⟩ := ppm_fill_accepted W H hW hH4 hHm garbage
  refine ⟨b, hb, ?_⟩
  intro r c v hr0 hrH hc0 hcW hval
  obtain ⟨v1, e1, hR⟩ := hbi r c Chan.RED hr0 hrH hc0 hcW
  obtain ⟨v2, e2, hG⟩ := hbi r c Chan.GREEN hr0 hrH hc0 hcW
  obtain ⟨v3, e3, hB⟩ := hbi r c Chan.BLUE hr0 hrH hc0 hcW
  rw [hval] at e1 e2 e3
  cases Option.some.inj e1
  cases Option.some.inj e2
  cases Option.some.inj e3
  rw [hR, hG, hB]
  rfl

/-! ## The bands and the gradients of the colour pattern -/

/-- The pixel of the colour generator is the colour of its band at the progress of its
row: `ppm_band`, `ppm_progress` and `ppm_colour` together are the body of the loops. -/
theorem ppm_value_by_band (W H row col : Int) :
    ppm_value W H row col =
      (ppm_progress H row).bind (fun p => some (ppm_colour (ppm_band W H row col) p)) := by
  unfold ppm_value ppm_progress ppm_band
  simp only [Option.bind_eq_bind, Option.pure_def]
  by_cases h1 : row < H.tdiv 2
  · simp only [if_pos h1]
    by_cases h2 : col < W.tdiv 3
    · simp only [if_pos h2, ppm_colour]
    · simp only [if_neg h2]
      by_cases h3 : col < 2 * W.tdiv 3
      · simp only [if_pos h3, ppm_colour]
      · simp only [if_neg h3, ppm_colour]
  · simp only [if_neg h1]
    by_cases h2 : col < W.tdiv 2
    · simp only [if_pos h2, ppm_colour]
    · simp only [if_neg h2, ppm_colour]

/-- The progress of a row on a height that is a positive multiple of 4 whose products
fit in `int`: it exists, it is the exact truncated quotient, and it is in `[0, 255)`. -/
theorem ppm_progress_of_fits (H row : Int) (hH4 : 4 ≤ H) (hHm : H % 4 = 0)
    (hfit : 255 * H.tdiv 2 ≤ 2147483647) (hr0 : 0 ≤ row) (hrH : row < H) :
    ∃ p, ppm_progress H row = some p ∧ 0 ≤ p ∧ p < 255 ∧
      (row < H.tdiv 2 → p = (row * 255).tdiv (H.tdiv 2)) ∧
      (H.tdiv 2 ≤ row → p = ((row - H.tdiv 2) * 255).tdiv (H - H.tdiv 2)) := by
  have t2H : H.tdiv 2 = H / 2 := Int.tdiv_eq_ediv (by omega) (by omega)
  have n1 : H.tdiv 2 ≠ 0 := by rw [t2H]; omega
  have n2 : H - H.tdiv 2 ≠ 0 := by rw [t2H]; omega
  obtain ⟨f1, f2⟩ := progress_fits H row hH4 hHm hfit hr0 hrH
  unfold ppm_progress
  by_cases h1 : row < H.tdiv 2
  · obtain ⟨p0, p1⟩ := scale_lt row (H.tdiv 2) hr0 h1
    simp only [if_pos h1, cdiv_of_ne_zero _ _ n1, f1 h1]
    exact ⟨_, rfl, p0, p1, fun _ => rfl, fun h => by omega⟩
  · obtain ⟨p0, p1⟩ := scale_lt (row - H.tdiv 2) (H - H.tdiv 2) (by omega) (by omega)
    simp only [if_neg h1, cdiv_of_ne_zero _ _ n2, f2 (by omega)]
    exact ⟨_, rfl, p0, p1, fun h => by omega, fun _ => rfl⟩

/-- A quotient of a 32-bit value by a divisor `b` with `x < b` for the exact dividend
`x * 255`: it stays below 255 whether or not the product wrapped. -/
theorem wrapped_scale_lt (x b : Int) (hx0 : 0 ≤ x) (hxb : x < b) :
    (wrap32 (x * 255)).tdiv b < 255 := by
  obtain ⟨w0, w1⟩ := wrap32_range (x * 255)
  by_cases hneg : wrap32 (x * 255) < 0
  · have e : wrap32 (x * 255) = -(-wrap32 (x * 255)) := by omega
    rw [e, Int.neg_tdiv, Int.tdiv_eq_ediv (by omega) (by omega)]
    have := Int.ediv_nonneg (show 0 ≤ -wrap32 (x * 255) by omega) (show 0 ≤ b by omega)
    omega
  · rw [Int.tdiv_eq_ediv (by omega) (by omega)]
    apply Int.ediv_lt_of_lt_mul (by omega)
    by_cases hb : 255 * b ≤ 2147483647
    · rw [wrap32_eq (x * 255) (by omega) (by omega)]
      omega
    · omega

/-- On every accepted size no row reaches the end colour: the progress of every row is
below 255, so a channel that should arrive at 255 (or at 0) stops short of it. -/
theorem ppm_progress_never_full (W H : Int) (hv : (validate_dimensions 3 W H).1 = 1)
    (row : Int) (hr0 : 0 ≤ row) (hrH : row < H) :
    ∃ p, ppm_progress H row = some p ∧ p < 255 := by
  obtain ⟨hH4, hHm, -, -⟩ := validate_accepts 3 W H hv
  have t2H : H.tdiv 2 = H / 2 := Int.tdiv_eq_ediv (by omega) (by omega)
  have n1 : H.tdiv 2 ≠ 0 := by rw [t2H]; omega
  have n2 : H - H.tdiv 2 ≠ 0 := by rw [t2H]; omega
  unfold ppm_progress
  by_cases h1 : row < H.tdiv 2
  · simp only [if_pos h1, cdiv_of_ne_zero _ _ n1]
    exact ⟨_, rfl, wrapped_scale_lt row (H.tdiv 2) hr0 h1⟩
  · simp only [if_neg h1, cdiv_of_ne_zero _ _ n2]
    exact ⟨_, rfl, wrapped_scale_lt (row - H.tdiv 2) (H - H.tdiv 2) (by omega) (by omega)⟩

/-- The columns of `[0, W)` that a row's tests put in band `k` form the interval
`[a, b)`. -/
theorem band_columns_eq (W H row : Int) (k : Nat) (a b : Int)
    (h : ∀ col : Int, 0 ≤ col → col < W → (ppm_band W H row col = k ↔ a ≤ col ∧ col < b))
    (ha : 0 ≤ a) (hb : b ≤ W) :
    (((Finset.Ico 0 W).filter (fun col => ppm_band W H row col = k)).card : Int) =
      max (b - a) 0 := by
  have e : (Finset.Ico 0 W).filter (fun col => ppm_band W H row col = k) = Finset.Ico a b := by
    ext col
    simp only [Finset.mem_filter, Finset.mem_Ico]
    constructor
    · rintro ⟨⟨h0, hW⟩, hk⟩
      exact (h col h0 hW).mp hk
    · rintro ⟨h1, h2⟩
      have h0 : 0 ≤ col := by omega
      have hW : col < W := by omega
      exact ⟨⟨h0, hW⟩, (h col h0 hW).mpr ⟨h1, h2⟩⟩
  rw [e, Int.card_Ico, Int.toNat_eq_max]

/-- C17. For every width `W` with `W >= 6` and `W` divisible by 6, the column tests of
`generate_ppm_image` partition the columns `[0,W)` of the top half into three bands
of exactly `W/3` columns each (`[0,W/3)`, `[W/3,2W/3)`, `[2W/3,W)`) and the columns of
the bottom half into two bands of exactly `W/2` columns each (`[0,W/2)`, `[W/2,W)`):
every column lies in exactly one band of its half. -/
theorem C17_ppm_bands_partition (W H row : Int) (hW6 : 6 ≤ W) (hWd : (6:Int) ∣ W) :
    (row < H.tdiv 2 →
      (∀ col : Int, 0 ≤ col → col < W →
        (ppm_band W H row col = 1 ↔ 0 ≤ col ∧ col < W.tdiv 3) ∧
        (ppm_band W H row col = 2 ↔ W.tdiv 3 ≤ col ∧ col < 2 * W.tdiv 3) ∧
        (ppm_band W H row col = 3 ↔ 2 * W.tdiv 3 ≤ col ∧ col < W) ∧
        (ppm_band W H row col = 1 ∨ ppm_band W H row col = 2 ∨ ppm_band W H row col = 3)) ∧
      (((Finset.Ico 0 W).filter (fun col => ppm_band W H row col = 1)).card : Int)
        = W.tdiv 3 ∧
      (((Finset.Ico 0 W).filter (fun col => ppm_band W H row col = 2)).card : Int)
        = W.tdiv 3 ∧
      (((Finset.Ico 0 W).filter (fun col => ppm_band W H row col = 3)).card : Int)
        = W.tdiv 3) ∧
    (H.tdiv 2 ≤ row →
      (∀ col : Int, 0 ≤ col → col < W →
        (ppm_band W H row col = 4 ↔ 0 ≤ col ∧ col < W.tdiv 2) ∧
        (ppm_band W H row col = 5 ↔ W.tdiv 2 ≤ col ∧ col < W) ∧
        (ppm_band W H row col = 4 ∨ ppm_band W H row col = 5)) ∧
      (((Finset.Ico 0 W).filter (fun col => ppm_band W H row col = 4)).card : Int)
        = W.tdiv 2 ∧
      (((Finset.Ico 0 W).filter (fun col => ppm_band W H row col = 5)).card : Int)
        = W.tdiv 2) := by
  have hm : W % 6 = 0 := Int.emod_eq_zero_of_dvd hWd
  have t3 : W.tdiv 3 = W / 3 := Int.tdiv_eq_ediv (by omega) (by omega)
  have t2 : W.tdiv 2 = W / 2 := Int.tdiv_eq_ediv (by omega) (by omega)
  constructor
  · intro hrow
    have hb : ∀ col : Int, 0 ≤ col → col < W →
        (ppm_band W H row col = 1 ↔ 0 ≤ col ∧ col < W.tdiv 3) ∧
        (ppm_band W H row col = 2 ↔ W.tdiv 3 ≤ col ∧ col < 2 * W.tdiv 3) ∧
        (ppm_band W H row col = 3 ↔ 2 * W.tdiv 3 ≤ col ∧ col < W) ∧
        (ppm_band W H row col = 1 ∨ ppm_band W H row col = 2 ∨
          ppm_band W H row col = 3) := by
      intro col h0 hW
      unfold ppm_band
      simp only [if_pos hrow]
      rw [t3]
      by_cases c1 : col < W / 3
      · simp only [if_pos c1]
        refine ⟨?_, ?_, ?_, ?_⟩ <;> simp <;> omega
      · simp only [if_neg c1]
        by_cases c2 : col < 2 * (W / 3)
        · simp only [if_pos c2]
          refine ⟨?_, ?_, ?_, ?_⟩ <;> simp <;> omega
        · simp only [if_neg c2]
          refine ⟨?_, ?_, ?_, ?_⟩ <;> simp <;> omega
    refine ⟨hb, ?_, ?_, ?_⟩
    · rw [band_columns_eq W H row 1 0 (W.tdiv 3) (fun c h0 hW => (hb c h0 hW).1)
        (by omega) (by omega)]
      omega
    · rw [band_columns_eq W H row 2 (W.tdiv 3) (2 * W.tdiv 3)
        (fun c h0 hW => (hb c h0 hW).2.1) (by omega) (by omega)]
      omega
    · rw [band_columns_eq W H row 3 (2 * W.tdiv 3) W
        (fun c h0 hW => (hb c h0 hW).2.2.1) (by omega) (by omega)]
      omega
  · intro hrow
    have hb : ∀ col : Int, 0 ≤ col → col < W →
        (ppm_band W H row col = 4 ↔ 0 ≤ col ∧ col < W.tdiv 2) ∧
        (ppm_band W H row col = 5 ↔ W.tdiv 2 ≤ col ∧ col < W) ∧
        (ppm_band W H row col = 4 ∨ ppm_band W H row col = 5) := by
      intro col h0 hW
      unfold ppm_band
      simp only [if_neg (not_lt.mpr hrow)]
      rw [t2]
      by_cases c1 : col < W / 2
      · simp only [if_pos c1]
        refine ⟨?_, ?_, ?_⟩ <;> simp <;> omega
      · simp only [if_neg c1]
        refine ⟨?_, ?_, ?_⟩ <;> simp <;> omega
    refine ⟨hb, ?_, ?_⟩
    · rw [band_columns_eq W H row 4 0 (W.tdiv 2) (fun c h0 hW => (hb c h0 hW).1)
        (by omega) (by omega)]
      omega
    · rw [band_columns_eq W H row 5 (W.tdiv 2) W (fun c h0 hW => (hb c h0 hW).2.1)
        (by omega) (by omega)]
      omega

/-- C17 at a concrete input: width 12, the top row: three bands of 4 columns. -/
theorem C17_ppm_bands_partition_witness :
    (6:Int) ≤ 12 ∧ (6:Int) ∣ 12 ∧
    (((Finset.Ico 0 12).filter (fun col => ppm_band 12 8 0 col = 1)).card : Int) = 4 ∧
    (((Finset.Ico 0 12).filter (fun col => ppm_band 12 8 0 col = 2)).card : Int) = 4 ∧
    (((Finset.Ico 0 12).filter (fun col => ppm_band 12 8 0 col = 3)).card : Int) = 4 := by
  obtain ⟨h, -⟩ := C17_ppm_bands_partition 12 8 0 (by decide) (by decide)
  obtain ⟨-, h1, h2, h3⟩ := h (by decide)
  refine ⟨by decide, by decide, ?_, ?_, ?_⟩
  · rw [h1]; decide
  · rw [h2]; decide
  · rw [h3]; decide

theorem ppm_colour_monotone (band : Nat) (ch : Chan) :
    (∀ p q : Int, p ≤ q → comp ch (ppm_colour band p) ≤ comp ch (ppm_colour band q)) ∨
    (∀ p q : Int, p ≤ q → comp ch (ppm_colour band p) ≥ comp ch (ppm_colour band q)) := by
  unfold ppm_colour
  split <;> cases ch <;> simp only [comp] <;>
    first
    | (left; intro p q h; omega)
    | (right; intro p q h; omega)

/-- When the products fit in `int`, the progress does not decrease from one row to a
later row of the same half. -/
theorem ppm_progress_mono_of_fits (H r1 r2 : Int) (hH4 : 4 ≤ H) (hHm : H % 4 = 0)
    (hfit : 255 * H.tdiv 2 ≤ 2147483647)
    (h0 : 0 ≤ r1) (h12 : r1 ≤ r2) (h2 : r2 < H) (hhalf : r2 < H.tdiv 2 ∨ H.tdiv 2 ≤ r1) :
    ∃ p1 p2, ppm_progress H r1 = some p1 ∧ ppm_progress H r2 = some p2 ∧ p1 ≤ p2 := by
  have t2H : H.tdiv 2 = H / 2 := Int.tdiv_eq_ediv (by omega) (by omega)
  obtain ⟨p1, e1, -, -, a1, b1⟩ := ppm_progress_of_fits H r1 hH4 hHm hfit h0 (by omega)
  obtain ⟨p2, e2, -, -, a2, b2⟩ := ppm_progress_of_fits H r2 hH4 hHm hfit (by omega) h2
  refine ⟨p1, p2, e1, e2, ?_⟩
  rcases hhalf with h | h
  · rw [a1 (by omega), a2 h]
    exact tdiv_mono _ _ _ (by omega) (by omega) (by omega)
  · rw [b1 h, b2 (by omega)]
    exact tdiv_mono _ _ _ (by omega) (by omega) (by omega)

/-- The filled colour grid when the products fit in `int`, pixel by pixel: the colour
of the pixel's band at the progress of its row. -/
theorem ppm_fill_by_band_of_fits (W H : Int) (hW : 0 < W) (hH4 : 4 ≤ H) (hHm : H % 4 = 0)
    (hfit : 255 * H.tdiv 2 ≤ 2147483647) (garbage : Int × Int × Chan → Int) :
    ∃ img, ppm_fill W H (created W H garbage) = some img ∧
      ∀ (row col : Int) (ch : Chan), 0 ≤ row → row < H → 0 ≤ col → col < W →
        ∃ p, ppm_progress H row = some p ∧ 0 ≤ p ∧ p < 255 ∧
          img.image (row, col, ch) = comp ch (ppm_colour (ppm_band W H row col) p) := by
  obtain ⟨b, hb, hbi, -⟩ := ppm_fill_accepted W H hW hH4 hHm garbage
  refine ⟨b, hb, ?_⟩
  intro row col ch hr0 hrH hc0 hcW
  obtain ⟨p, hp, p0, p1, -, -⟩ := ppm_progress_of_fits H row hH4 hHm hfit hr0 hrH
  refine ⟨p, hp, p0, p1, ?_⟩
  obtain ⟨v, hv, hi⟩ := hbi row col ch hr0 hrH hc0 hcW
  obtain ⟨v2, hv2, hrange⟩ := ppm_value_range_of_fits W H row col hH4 hHm hfit hr0 hrH
  rw [hv] at hv2
  cases Option.some.inj hv2
  rw [ppm_value_by_band, hp] at hv
  simp only [Option.some_bind, Option.some.injEq] at hv
  rw [hi, Int.emod_eq_of_lt (hrange ch).1 (by have := (hrange ch).2; omega), ← hv]

/-- The colour pattern on the accepted sizes whose products fit in `int`
(`255 * (H/2) <= 2147483647`): the grid filled by `generate_ppm_image` has, with `p = row*255/(H/2)` for
`row < H/2`: pixel `(255,p,p)` when `col < W/3`, `(255-p,255,255-p)` when
`W/3 <= col < 2*(W/3)`, and `(p,p,255)` otherwise; and, with
`q = (row-H/2)*255/(H-H/2)` for `row >= H/2`: pixel `(q,q,q)` when `col < W/2` and
`(255-q,255-q,255-q)` otherwise; all divisions truncating. -/
theorem ppm_pattern_of_fits (W H : Int) (garbage : Int × Int × Chan → Int)
    (hv : (validate_dimensions 3 W H).1 = 1) (hfit : 255 * H.tdiv 2 ≤ 2147483647)
    (row col : Int) (hr0 : 0 ≤ row) (hrH : row < H) (hc0 : 0 ≤ col) (hcW : col < W) :
    ∃ img, ppm_fill W H (created W H garbage) = some img ∧
      (row < H.tdiv 2 → col < W.tdiv 3 →
        (img.image (row, col, Chan.RED), img.image (row, col, Chan.GREEN),
          img.image (row, col, Chan.BLUE))
          = (255, (row * 255).tdiv (H.tdiv 2), (row * 255).tdiv (H.tdiv 2))) ∧
      (row < H.tdiv 2 → W.tdiv 3 ≤ col → col < 2 * W.tdiv 3 →
        (img.image (row, col, Chan.RED), img.image (row, col, Chan.GREEN),
          img.image (row, col, Chan.BLUE))
          = (255 - (row * 255).tdiv (H.tdiv 2), 255, 255 - (row * 255).tdiv (H.tdiv 2))) ∧
      (row < H.tdiv 2 → 2 * W.tdiv 3 ≤ col →
        (img.image (row, col, Chan.RED), img.image (row, col, Chan.GREEN),
          img.image (row, col, Chan.BLUE))
          = ((row * 255).tdiv (H.tdiv 2), (row * 255).tdiv (H.tdiv 2), 255)) ∧
      (H.tdiv 2 ≤ row → col < W.tdiv 2 →
        (img.image (row, col, Chan.RED), img.image (row, col, Chan.GREEN),
          img.image (row, col, Chan.BLUE))
          = (((row - H.tdiv 2) * 255).tdiv (H - H.tdiv 2),
             ((row - H.tdiv 2) * 255).tdiv (H - H.tdiv 2),
             ((row - H.tdiv 2) * 255).tdiv (H - H.tdiv 2))) ∧
      (H.tdiv 2 ≤ row → W.tdiv 2 ≤ col →
        (img.image (row, col, Chan.RED), img.image (row, col, Chan.GREEN),
          img.image (row, col, Chan.BLUE))
          = (255 - ((row - H.tdiv 2) * 255).tdiv (H - H.tdiv 2),
             255 - ((row - H.tdiv 2) * 255).tdiv (H - H.tdiv 2),
             255 - ((row - H.tdiv 2) * 255).tdiv (H - H.tdiv 2))) := by
  obtain ⟨hH4, hHm, -, hW'⟩ := validate_accepts 3 W H hv
  obtain ⟨hW6, hWm⟩ := hW' rfl
  obtain ⟨b, hb, hpx⟩ := ppm_fill_pixel W H (by omega) hH4 hHm garbage
  refine ⟨b, hb, ?_⟩
  obtain ⟨v, hv', hrange⟩ := ppm_value_range_of_fits W H row col hH4 hHm hfit hr0 hrH
  have hR := (hrange Chan.RED)
  have hG := (hrange Chan.GREEN)
  have hB := (hrange Chan.BLUE)
  simp only [comp] at hR hG hB
  rw [hpx row col v hr0 hrH hc0 hcW hv', Int.emod_eq_of_lt hR.1 (by omega),
    Int.emod_eq_of_lt hG.1 (by omega), Int.emod_eq_of_lt hB.1 (by omega)]
  obtain ⟨f1, f2⟩ := progress_fits H row hH4 hHm hfit hr0 hrH
  rw [ppm_value_norm W H row col hH4 hHm] at hv'
  have hv2 := Option.some.inj hv'
  rw [← hv2]
  have t3 : W.tdiv 3 = W / 3 := Int.tdiv_eq_ediv (by omega) (by omega)
  refine ⟨?_, ?_, ?_, ?_, ?_⟩
  · intro h1 h2
    rw [if_pos h1, if_pos h2, f1 h1]
  · intro h1 h2 h3
    rw [if_pos h1, if_neg (by omega), if_pos h3, f1 h1]
  · intro h1 h2
    rw [if_pos h1, if_neg (by omega), if_neg (by omega), f1 h1]
  · intro h1 h2
    rw [if_neg (by omega), if_pos h2, f2 h1]
  · intro h1 h2
    rw [if_neg (by omega), if_neg (by omega), f2 h1]

/-- The gradients on the accepted sizes whose products fit in `int`
(`255 * (H/2) <= 2147483647`): within each half of the image filled by `generate_ppm_image` the pixel depends
only on its row and its band (not on the column inside the band), and the gradient is
monotone from top to bottom: for rows `r1 <= r2` in the same half the progress value
of `r1` is `<=` that of `r2`, so in every band each colour component is either
non-decreasing or non-increasing in the row. -/
theorem ppm_gradients_of_fits (W H : Int) (garbage : Int × Int × Chan → Int)
    (hv : (validate_dimensions 3 W H).1 = 1) (hfit : 255 * H.tdiv 2 ≤ 2147483647) :
    ∃ img, ppm_fill W H (created W H garbage) = some img ∧
      (∀ (row c1 c2 : Int) (ch : Chan), 0 ≤ row → row < H → 0 ≤ c1 → c1 < W → 0 ≤ c2 →
        c2 < W → ppm_band W H row c1 = ppm_band W H row c2 →
        img.image (row, c1, ch) = img.image (row, c2, ch)) ∧
      (∀ r1 r2 : Int, 0 ≤ r1 → r1 ≤ r2 → r2 < H → (r2 < H.tdiv 2 ∨ H.tdiv 2 ≤ r1) →
        ∃ p1 p2, ppm_progress H r1 = some p1 ∧ ppm_progress H r2 = some p2 ∧ p1 ≤ p2) ∧
      (∀ (col : Int) (ch : Chan), 0 ≤ col → col < W →
        ((∀ r1 r2 : Int, 0 ≤ r1 → r1 ≤ r2 → r2 < H.tdiv 2 →
            img.image (r1, col, ch) ≤ img.image (r2, col, ch)) ∨
         (∀ r1 r2 : Int, 0 ≤ r1 → r1 ≤ r2 → r2 < H.tdiv 2 →
            img.image (r1, col, ch) ≥ img.image (r2, col, ch))) ∧
        ((∀ r1 r2 : Int, H.tdiv 2 ≤ r1 → r1 ≤ r2 → r2 < H →
            img.image (r1, col, ch) ≤ img.image (r2, col, ch)) ∨
         (∀ r1 r2 : Int, H.tdiv 2 ≤ r1 → r1 ≤ r2 → r2 < H →
            img.image (r1, col, ch) ≥ img.image (r2, col, ch)))) := by
  obtain ⟨hH4, hHm, -, hW'⟩ := validate_accepts 3 W H hv
  obtain ⟨hW6, hWm⟩ := hW' rfl
  have t2H : H.tdiv 2 = H / 2 := Int.tdiv_eq_ediv (by omega) (by omega)
  obtain ⟨img, himg, hpix⟩ := ppm_fill_by_band_of_fits W H (by omega) hH4 hHm hfit garbage
  refine ⟨img, himg, ?_, ?_, ?_⟩
  · intro row c1 c2 ch hr0 hrH h10 h1W h20 h2W hband
    obtain ⟨p, hp, -, -, e1⟩ := hpix row c1 ch hr0 hrH h10 h1W
    obtain ⟨q, hq, -, -, e2⟩ := hpix row c2 ch hr0 hrH h20 h2W
    rw [hp] at hq
    cases Option.some.inj hq
    rw [e1, e2, hband]
  · intro r1 r2 h0 h12 h2 hhalf
    exact ppm_progress_mono_of_fits H r1 r2 hH4 hHm hfit h0 h12 h2 hhalf
  · intro col ch hc0 hcW
    -- the band of a column is the same in all rows of a half
    have top : ∀ r : Int, r < H.tdiv 2 → ppm_band W H r col = ppm_band W H 0 col := by
      intro r hr
      unfold ppm_band
      simp only [if_pos hr, if_pos (show (0:Int) < H.tdiv 2 by omega)]
    have bot : ∀ r : Int, H.tdiv 2 ≤ r →
        ppm_band W H r col = ppm_band W H (H.tdiv 2) col := by
      intro r hr
      unfold ppm_band
      simp only [if_neg (not_lt.mpr hr), if_neg (lt_irrefl (H.tdiv 2))]
    have mono : ∀ (band : Nat) (lo hi : Int), 0 ≤ lo → hi ≤ H →
        (hi ≤ H.tdiv 2 ∨ H.tdiv 2 ≤ lo) →
        (∀ r : Int, lo ≤ r → r < hi → ppm_band W H r col = band) →
        ((∀ r1 r2 : Int, lo ≤ r1 → r1 ≤ r2 → r2 < hi →
            img.image (r1, col, ch) ≤ img.image (r2, col, ch)) ∨
         (∀ r1 r2 : Int, lo ≤ r1 → r1 ≤ r2 → r2 < hi →
            img.image (r1, col, ch) ≥ img.image (r2, col, ch))) := by
      intro band lo hi hlo hhi hhalf hband
      have step : ∀ r1 r2 : Int, lo ≤ r1 → r1 ≤ r2 → r2 < hi →
          ∃ p1 p2, p1 ≤ p2 ∧ img.image (r1, col, ch) = comp ch (ppm_colour band p1) ∧
            img.image (r2, col, ch) = comp ch (ppm_colour band p2) := by
        intro r1 r2 h1 h12 h2
        obtain ⟨p1, e1, -, -, i1⟩ := hpix r1 col ch (by omega) (by omega) hc0 hcW
        obtain ⟨p2, e2, -, -, i2⟩ := hpix r2 col ch (by omega) (by omega) hc0 hcW
        obtain ⟨q1, q2, f1, f2, hle⟩ := ppm_progress_mono_of_fits H r1 r2 hH4 hHm hfit (by omega) h12
          (by omega) (by omega)
        rw [e1] at f1; rw [e2] at f2
        cases Option.some.inj f1
        cases Option.some.inj f2
        rw [hband r1 h1 (by omega)] at i1
        rw [hband r2 (by omega) h2] at i2
        exact ⟨p1, p2, hle, i1, i2⟩
      rcases ppm_colour_monotone band ch with hm | hm
      · left
        intro r1 r2 h1 h12 h2
        obtain ⟨p1, p2, hle, i1, i2⟩ := step r1 r2 h1 h12 h2
        rw [i1, i2]; exact hm p1 p2 hle
      · right
        intro r1 r2 h1 h12 h2
        obtain ⟨p1, p2, hle, i1, i2⟩ := step r1 r2 h1 h12 h2
        rw [i1, i2]; exact hm p1 p2 hle
    constructor
    · exact mono (ppm_band W H 0 col) 0 (H.tdiv 2) (le_refl 0) (by omega) (Or.inl (le_refl _))
        (fun r _ h2 => top r h2)
    · exact mono (ppm_band W H (H.tdiv 2) col) (H.tdiv 2) H (by omega) (le_refl H)
        (Or.inr (le_refl _)) (fun r h1 _ => bot r h1)

/-- On every accepted size, whether or not the products overflow, a sample of the
filled colour grid depends only on its row and its band, not on the column inside
the band. -/
theorem ppm_pixel_by_band (W H : Int) (garbage : Int × Int × Chan → Int)
    (hv : (validate_dimensions 3 W H).1 = 1) :
    ∃ img, ppm_fill W H (created W H garbage) = some img ∧
      ∀ (row c1 c2 : Int) (ch : Chan), 0 ≤ row → row < H → 0 ≤ c1 → c1 < W → 0 ≤ c2 →
        c2 < W → ppm_band W H row c1 = ppm_band W H row c2 →
        img.image (row, c1, ch) = img.image (row, c2, ch) := by
  obtain ⟨hH4, hHm, -, hW'⟩ := validate_accepts 3 W H hv
  obtain ⟨hW6, hWm⟩ := hW' rfl
  obtain ⟨b, hb, hbi, -⟩ := ppm_fill_accepted W H (by omega) hH4 hHm garbage
  refine ⟨b, hb, ?_⟩
  intro row c1 c2 ch hr0 hrH h10 h1W h20 h2W hband
  obtain ⟨v1, e1, i1⟩ := hbi row c1 ch hr0 hrH h10 h1W
  obtain ⟨v2, e2, i2⟩ := hbi row c2 ch hr0 hrH h20 h2W
  rw [ppm_value_by_band, hband] at e1
  rw [ppm_value_by_band, e1] at e2
  cases Option.some.inj e2
  rw [i1, i2]

/-- The colour samples on the accepted sizes whose products fit in `int`
(`255 * (H/2) <= 2147483647`): every value handed to a store and every component
computed for a pixel of the grid lies in `[0, 255]`, and the 8-bit store keeps it
unchanged. -/
theorem colour_samples_of_fits (W H : Int) (hv : (validate_dimensions 3 W H).1 = 1)
    (hfit : 255 * H.tdiv 2 ≤ 2147483647) (garbage : Int × Int × Chan → Int) :
    ∃ img, ppm_fill W H (created W H garbage) = some img ∧
      (∀ w ∈ img.written, 0 ≤ w.2 ∧ w.2 ≤ 255 ∧ w.2 % 256 = w.2) ∧
      (∀ row col : Int, 0 ≤ row → row < H → 0 ≤ col → col < W →
        ∃ v, ppm_value W H row col = some v ∧
          ∀ ch, 0 ≤ comp ch v ∧ comp ch v ≤ 255 ∧ img.image (row, col, ch) = comp ch v) := by
  obtain ⟨hH4, hHm, -, hW'⟩ := validate_accepts 3 W H hv
  obtain ⟨hW6, hWm⟩ := hW' rfl
  obtain ⟨b, hb, hbi, hbl⟩ := ppm_fill_accepted W H (by omega) hH4 hHm garbage
  refine ⟨b, hb, ?_, ?_⟩
  · intro w hw
    obtain ⟨r0, r1, -, -, hval⟩ := hbl w hw
    obtain ⟨v, hv', hrange⟩ := ppm_value_range_of_fits W H w.1.1 w.1.2.1 hH4 hHm hfit r0 r1
    rw [hv'] at hval
    simp only [Option.map_some', Option.some.injEq] at hval
    rw [← hval]
    exact ⟨(hrange _).1, (hrange _).2,
      Int.emod_eq_of_lt (hrange _).1 (by have := (hrange w.1.2.2).2; omega)⟩
  · intro row col hr0 hrH hc0 hcW
    obtain ⟨v, hv', hrange⟩ := ppm_value_range_of_fits W H row col hH4 hHm hfit hr0 hrH
    refine ⟨v, hv', ?_⟩
    intro ch
    obtain ⟨v2, hv2, hi⟩ := hbi row col ch hr0 hrH hc0 hcW
    rw [hv'] at hv2
    cases Option.some.inj hv2
    refine ⟨(hrange ch).1, (hrange ch).2, ?_⟩
    rw [hi]
    exact Int.emod_eq_of_lt (hrange ch).1 (by have := (hrange ch).2; omega)

/-- The colour grid at 6 x 16843012, whose half height is 8421506: the pixels of
column 0 (band 1) and column 2 (band 2) in rows 0, 8421504 and 8421505.  In row
8421505 the product `8421505 * 255 = 2147483775` wraps to `-2147483521` and the
progress is `-254`. -/
theorem ppm_overflow_pixels (garbage : Int × Int × Chan → Int) :
    ∃ img, ppm_fill 6 16843012 (created 6 16843012 garbage) = some img ∧
      (img.image (0, 0, Chan.RED), img.image (0, 0, Chan.GREEN),
        img.image (0, 0, Chan.BLUE)) = (255, 0, 0) ∧
      (img.image (8421504, 0, Chan.RED), img.image (8421504, 0, Chan.GREEN),
        img.image (8421504, 0, Chan.BLUE)) = (255, 254, 254) ∧
      (img.image (8421505, 0, Chan.RED), img.image (8421505, 0, Chan.GREEN),
        img.image (8421505, 0, Chan.BLUE)) = (255, 2, 2) ∧
      (img.image (0, 2, Chan.RED), img.image (0, 2, Chan.GREEN),
        img.image (0, 2, Chan.BLUE)) = (255, 255, 255) ∧
      (img.image (8421504, 2, Chan.RED), img.image (8421504, 2, Chan.GREEN),
        img.image (8421504, 2, Chan.BLUE)) = (1, 255, 1) ∧
      (img.image (8421505, 2, Chan.RED), img.image (8421505, 2, Chan.GREEN),
        img.image (8421505, 2, Chan.BLUE)) = (253, 255, 253) := by
  obtain ⟨b, hb, px⟩ :=
    ppm_fill_pixel 6 16843012 (by decide) (by decide) (by decide) garbage
  refine ⟨b, hb, ?_, ?_, ?_, ?_, ?_, ?_⟩
  · exact px 0 0 (255, 0, 0) (by decide) (by decide) (by decide) (by decide) (by decide)
  · exact px 8421504 0 (255, 254, 254) (by decide) (by decide) (by decide) (by decide)
      (by decide)
  · exact px 8421505 0 (255, -254, -254) (by decide) (by decide) (by decide) (by decide)
      (by decide)
  · exact px 0 2 (255, 255, 255) (by decide) (by decide) (by decide) (by decide) (by decide)
  · exact px 8421504 2 (1, 255, 1) (by decide) (by decide) (by decide) (by decide)
      (by decide)
  · exact px 8421505 2 (509, 255, 509) (by decide) (by decide) (by decide) (by decide)
      (by decide)

/-- C3, at the failing input: type 3, width 6, height 16843012 is accepted; row 8421505
is in the top half, where the claim's `p = row*255/(H/2)` is 254, but the product
`row * 255 = 2147483775` wraps to `-2147483521`: the generator computes the pixel
`(255, -254, -254)` in the first band and stores the samples `(255, 2, 2)`, where the
claim says `(255, 254, 254)`. -/
theorem C3_ppm_overflow :
    (validate_dimensions 3 6 16843012).1 = 1 ∧
    (8421505:Int) < (16843012:Int).tdiv 2 ∧ (0:Int) < (6:Int).tdiv 3 ∧
    (8421505 * 255 : Int).tdiv ((16843012:Int).tdiv 2) = 254 ∧
    wrap32 (8421505 * 255) = -2147483521 ∧
    ppm_value 6 16843012 8421505 0 = some (255, -254, -254) ∧
    ∀ garbage, ∃ img, ppm_fill 6 16843012 (created 6 16843012 garbage) = some img ∧
      (img.image (8421505, 0, Chan.RED), img.image (8421505, 0, Chan.GREEN),
        img.image (8421505, 0, Chan.BLUE)) = (255, 2, 2) := by
  refine ⟨by decide, by decide, by decide, by decide, by decide, by decide, ?_⟩
  intro garbage
  obtain ⟨img, h, -, -, h3, -⟩ := ppm_overflow_pixels garbage
  exact ⟨img, h, h3⟩

/-- C20, at the failing input: type 3, width 6, height 16843012.  Rows 8421504 and
8421505 are both in the top half, and the progress falls from 254 to -254 between
them; in the filled grid the GREEN sample of column 0 goes 0, 254, 2 over the rows 0,
8421504, 8421505 and the RED sample of column 2 goes 255, 1, 253, so these components
are neither non-decreasing nor non-increasing in the row. -/
theorem C20_gradient_overflow :
    (validate_dimensions 3 6 16843012).1 = 1 ∧
    (8421505:Int) < (16843012:Int).tdiv 2 ∧
    ppm_progress 16843012 8421504 = some 254 ∧
    ppm_progress 16843012 8421505 = some (-254) ∧
    ∀ garbage, ∃ img, ppm_fill 6 16843012 (created 6 16843012 garbage) = some img ∧
      img.image (0, 0, Chan.GREEN) < img.image (8421504, 0, Chan.GREEN) ∧
      img.image (8421504, 0, Chan.GREEN) > img.image (8421505, 0, Chan.GREEN) ∧
      img.image (0, 2, Chan.RED) > img.image (8421504, 2, Chan.RED) ∧
      img.image (8421504, 2, Chan.RED) < img.image (8421505, 2, Chan.RED) := by
  refine ⟨by decide, by decide, by decide, by decide, ?_⟩
  intro garbage
  obtain ⟨img, h, h1, h2, h3, h4, h5, h6⟩ := ppm_overflow_pixels garbage
  simp only [Prod.mk.injEq] at h1 h2 h3 h4 h5 h6
  refine ⟨img, h, ?_, ?_, ?_, ?_⟩
  · rw [h1.2.1, h2.2.1]; decide
  · rw [h2.2.1, h3.2.1]; decide
  · rw [h4.1, h5.1]; decide
  · rw [h5.1, h6.1]; decide

/-! ## The generators and `main`: traces -/

/-- The trace of `generate_pbm_image` on accepted dimensions; when the buffer is
created, the products `row * width` are required to fit in `int`, so that every store
of the pattern is inside the buffer. -/
theorem generate_pbm_image_accepted (lib : Lib) (W H : Int) (filename : String) (format : Int)
    (hv : (validate_dimensions 1 W H).1 = 1)
    (hfit : lib.create_PBM = 0 → (H - 1) * W ≤ 2147483647) :
    generate_pbm_image lib W H filename format = some (
      if lib.create_PBM ≠ 0 then
        [Event.create_PBM_Image "img" W H, Event.print "Error: Failed to create PBM image\n"]
      else if lib.save_PBM ≠ 0 then
        [Event.create_PBM_Image "img" W H,
         Event.save_PBM_Image "img" filename (decide (format = 1)),
         Event.print "Error: Failed to save PBM image\n", Event.free_PBM_Image "img"]
      else
        [Event.create_PBM_Image "img" W H,
         Event.save_PBM_Image "img" filename (decide (format = 1)),
         Event.free_PBM_Image "img"]) := by
  obtain ⟨hH4, hHm, hW', -⟩ := validate_accepts 1 W H hv
  obtain ⟨hW4, hWm⟩ := hW' (Or.inl rfl)
  unfold generate_pbm_image
  by_cases hc : lib.create_PBM ≠ 0
  · rw [if_pos hc, if_pos hc]
  · have hc0 : lib.create_PBM = 0 := by simpa using hc
    obtain ⟨b, hb, -⟩ :=
      pbm_fill_spec W H (by omega) (by omega) (fits_width W H (by omega) hH4 (hfit hc0))
        (hfit hc0) (created W H lib.pbm_garbage) rfl rfl
    rw [if_neg hc, if_neg hc, hb]
    split_ifs <;> rfl

/-- The trace of `generate_pgm_image` on accepted dimensions that are `int`s. -/
theorem generate_pgm_image_accepted (lib : Lib) (W H : Int) (filename : String) (format : Int)
    (hv : (validate_dimensions 2 W H).1 = 1)
    (hWi : W ≤ 2147483647) (hHi : H ≤ 2147483647) :
    generate_pgm_image lib W H filename format = some (
      if lib.create_PGM ≠ 0 then
        [Event.create_PGM_Image "img" W H 255,
         Event.print "Error: Failed to create PGM image\n"]
      else if lib.save_PGM ≠ 0 then
        [Event.create_PGM_Image "img" W H 255,
         Event.save_PGM_Image "img" filename (decide (format = 1)),
         Event.print "Error: Failed to save PGM image\n", Event.free_PGM_Image "img"]
      else
        [Event.create_PGM_Image "img" W H 255,
         Event.save_PGM_Image "img" filename (decide (format = 1)),
         Event.free_PGM_Image "img"]) := by
  obtain ⟨hH4, hHm, hW', -⟩ := validate_accepts 2 W H hv
  obtain ⟨hW4, hWm⟩ := hW' (Or.inr rfl)
  obtain ⟨m, rfl⟩ : ∃ m, W = 4 * m := ⟨W / 4, by omega⟩
  obtain ⟨n, rfl⟩ : ∃ n, H = 4 * n := ⟨H / 4, by omega⟩
  obtain ⟨b, hb, -⟩ := pgm_fill_accepted m n (by omega) (by omega) hWi hHi lib.pgm_garbage
  unfold generate_pgm_image
  rw [hb]
  split_ifs <;> rfl

/-- The trace of `generate_ppm_image` on accepted dimensions. -/
theorem generate_ppm_image_accepted (lib : Lib) (W H : Int) (filename : String) (format : Int)
    (hv : (validate_dimensions 3 W H).1 = 1) :
    generate_ppm_image lib W H filename format = some (
      if lib.create_PPM ≠ 0 then
        [Event.create_PPM_Image "img" W H 255,
         Event.print "Error: Failed to create PPM image\n"]
      else
        [Event.create_PPM_Image "img" W H 255] ++
        (if lib.save_PPM ≠ 0 then
          [Event.save_PPM_Image "img" filename (decide (format = 1)),
           Event.print "Error: Failed to save PPM image\n"]
        else [Event.save_PPM_Image "img" filename (decide (format = 1))]) ++
        channel_export lib Chan.RED "RED" "red_channel" (channel_filename "RED_" filename)
          W H (decide (format = 1)) ++
        channel_export lib Chan.GREEN "GREEN" "green_channel"
          (channel_filename "GREEN_" filename) W H (decide (format = 1)) ++
        channel_export lib Chan.BLUE "BLUE" "blue_channel"
          (channel_filename "BLUE_" filename) W H (decide (format = 1)) ++
        [Event.free_PPM_Image "img"]) := by
  obtain ⟨hH4, hHm, -, hW'⟩ := validate_accepts 3 W H hv
  obtain ⟨hW6, hWm⟩ := hW' rfl
  obtain ⟨b, hb, -⟩ := ppm_fill_accepted W H (by omega) hH4 hHm lib.ppm_garbage
  unfold generate_ppm_image
  rw [hb]
  split_ifs <;> rfl

/-- C8. For every parsed input whose dimensions violate the validation rules, or whose
`img_type` is outside 1..3, or whose `format` is outside {0,1}, `main` invokes none of
the three generators (its trace holds no library call: no buffer is created and no
file is written, only diagnostics are printed) and returns exit status 0. -/
theorem C8_invalid_input_no_generation (lib : Lib) (argc : Int) (prog : String)
    (img_type width height : Int) (filename : String) (format : Int)
    (hbad : img_type < 1 ∨ img_type > 3 ∨ (format ≠ 0 ∧ format ≠ 1) ∨
      ¬ (height ≥ 4 ∧ (4:Int) ∣ height ∧
          ((img_type = 1 ∨ img_type = 2) → width ≥ 4 ∧ (4:Int) ∣ width) ∧
          (img_type = 3 → width ≥ 6 ∧ (6:Int) ∣ width))) :
    ∃ out, main lib argc prog img_type width height filename format = some (0, out) ∧
      ∀ e ∈ out, e.isLibCall = false := by
  unfold main
  by_cases hargc : argc ≠ 6
  · rw [if_pos hargc]
    refine ⟨_, rfl, ?_⟩
    intro e he
    simp at he
    rcases he with h | h | h | h <;> subst h <;> rfl
  · rw [if_neg hargc]
    by_cases htype : img_type < 1 ∨ img_type > 3
    · rw [if_pos htype]
      refine ⟨_, rfl, ?_⟩
      intro e he
      simp at he
      subst he; rfl
    · rw [if_neg htype]
      by_cases hfmt : format ≠ 0 ∧ format ≠ 1
      · rw [if_pos hfmt]
        refine ⟨_, rfl, ?_⟩
        intro e he
        simp at he
        subst he; rfl
      · rw [if_neg hfmt]
        have hrules : ¬ (height ≥ 4 ∧ (4:Int) ∣ height ∧
            ((img_type = 1 ∨ img_type = 2) → width ≥ 4 ∧ (4:Int) ∣ width) ∧
            (img_type = 3 → width ≥ 6 ∧ (6:Int) ∣ width)) := by
          rcases hbad with h | h | h | h
          · exact absurd (Or.inl h) htype
          · exact absurd (Or.inr h) htype
          · exact absurd h hfmt
          · exact h
        have h0 := validate_rejects img_type width height (by omega) hrules
        rw [if_pos h0]
        exact ⟨_, rfl, validate_prints img_type width height⟩

/-- C8 at a concrete input: a bit image of height 5. -/
theorem C8_invalid_input_no_generation_witness :
    ((1:Int) < 1 ∨ (1:Int) > 3 ∨ ((0:Int) ≠ 0 ∧ (0:Int) ≠ 1) ∨
      ¬ ((5:Int) ≥ 4 ∧ (4:Int) ∣ 5 ∧
          (((1:Int) = 1 ∨ (1:Int) = 2) → (4:Int) ≥ 4 ∧ (4:Int) ∣ 4) ∧
          ((1:Int) = 3 → (4:Int) ≥ 6 ∧ (6:Int) ∣ 4))) ∧
    ∃ out, main lib_ok 6 "pnm" 1 4 5 "out.pbm" 0 = some (0, out) ∧
      ∀ e ∈ out, e.isLibCall = false :=
  ⟨by decide, C8_invalid_input_no_generation lib_ok 6 "pnm" 1 4 5 "out.pbm" 0 (by decide)⟩

/-- The trace of `main` on an accepted input whose width and height are `int`s and, for a
created bit buffer, whose products `row * width` fit in `int`: the generator's trace
followed by the success message; the exit status is 0. -/
theorem main_accepted (lib : Lib) (prog : String) (img_type width height : Int)
    (filename : String) (format : Int)
    (ht : img_type = 1 ∨ img_type = 2 ∨ img_type = 3) (hf : format = 0 ∨ format = 1)
    (hv : (validate_dimensions img_type width height).1 = 1)
    (hWi : width ≤ 2147483647) (hHi : height ≤ 2147483647)
    (hfit : img_type = 1 → lib.create_PBM = 0 → (height - 1) * width ≤ 2147483647) :
    ∃ generated,
      (if img_type = 1 then generate_pbm_image lib width height filename format
        else if img_type = 2 then generate_pgm_image lib width height filename format
        else generate_ppm_image lib width height filename format) = some generated ∧
      main lib 6 prog img_type width height filename format = some (0, generated ++
        [Event.print ("Image generated successfully: " ++ filename ++ "\n")]) := by
  have hout : (validate_dimensions img_type width height).2 = [] := by
    unfold validate_dimensions at hv ⊢
    split_ifs at hv ⊢ <;> simp_all
  have h0 : ¬ ((6:Int) ≠ 6) := by decide
  have h1 : ¬ (img_type < 1 ∨ img_type > 3) := by omega
  have h2 : ¬ (format ≠ 0 ∧ format ≠ 1) := by omega
  have h3 : ¬ ((validate_dimensions img_type width height).1 = 0) := by rw [hv]; decide
  have hmain : main lib 6 prog img_type width height filename format =
      (if img_type = 1 then generate_pbm_image lib width height filename format
        else if img_type = 2 then generate_pgm_image lib width height filename format
        else if img_type = 3 then generate_ppm_image lib width height filename format
        else some []).bind (fun generated => some (0, [] ++ generated ++
          [Event.print ("Image generated successfully: " ++ filename ++ "\n")])) := by
    unfold main
    rw [if_neg h0, if_neg h1, if_neg h2, if_neg h3, hout]
    split_ifs <;> rfl
  rw [hmain]
  rcases ht with ht | ht | ht
  · subst ht
    have hg := generate_pbm_image_accepted lib width height filename format hv (hfit rfl)
    rw [if_pos rfl, hg]
    exact ⟨_, rfl, rfl⟩
  · subst ht
    have hg := generate_pgm_image_accepted lib width height filename format hv hWi hHi
    have n1 : ¬ ((2:Int) = 1) := by decide
    rw [if_neg n1, if_pos rfl, hg]
    exact ⟨_, rfl, rfl⟩
  · subst ht
    have hg := generate_ppm_image_accepted lib width height filename format hv
    have n1 : ¬ ((3:Int) = 1) := by decide
    have n2 : ¬ ((3:Int) = 2) := by decide
    rw [if_neg n1, if_neg n2, if_pos rfl, hg]
    exact ⟨_, rfl, rfl⟩

/-- C9, counterexample. When `create_PBM_Image` fails on the accepted input
(type 1, 4 x 4), `generate_pbm_image` prints its diagnostic and returns, and `main`
still reports "Image generated successfully" and exits with status 0. -/
theorem C9_success_reported_after_failure :
    (validate_dimensions 1 4 4).1 = 1 ∧
    main { lib_ok with create_PBM := 1 } 6 "pnm" 1 4 4 "out.pbm" 0 =
      some (0, [Event.create_PBM_Image "img" 4 4,
                Event.print "Error: Failed to create PBM image\n",
                Event.print "Image generated successfully: out.pbm\n"]) := by
  refine ⟨by decide, ?_⟩
  obtain ⟨g, hg, hm⟩ := main_accepted { lib_ok with create_PBM := 1 } "pnm" 1 4 4 "out.pbm" 0
    (by decide) (by decide) (by decide) (by decide) (by decide) (fun _ _ => by decide)
  rw [hm]
  rw [if_pos rfl, generate_pbm_image_accepted _ 4 4 "out.pbm" 0 (by decide)
    (fun _ => by decide)] at hg
  rw [← Option.some.inj hg]
  rfl

/-- C9, amended. A failure of creating or of saving the generator's own image `img`
(lines 101, 152, 165, 242, 255, 332) is reported only by the diagnostic that the
generator prints; the generators return no value, so whatever the library calls
return, `main` ends its output with "Image generated successfully: <filename>" and
returns 0.  This holds on every accepted input whose width and height are `int`s and,
for the bit type with a created buffer, whose products `row * width` fit in `int`
(`(height - 1) * width <= 2147483647`), so that the stores of the pattern stay inside
the buffer.  The failures inside the channel exports of `generate_ppm_image` are not
part of this statement. -/
theorem C9_failures_only_printed (lib : Lib) (prog : String) (img_type width height : Int)
    (filename : String) (format : Int)
    (ht : img_type = 1 ∨ img_type = 2 ∨ img_type = 3) (hf : format = 0 ∨ format = 1)
    (hv : (validate_dimensions img_type width height).1 = 1)
    (hWi : width ≤ 2147483647) (hHi : height ≤ 2147483647)
    (hfit : img_type = 1 → lib.create_PBM = 0 → (height - 1) * width ≤ 2147483647) :
    ∃ out, main lib 6 prog img_type width height filename format = some (0, out) ∧
      out.getLast? = some (Event.print ("Image generated successfully: " ++ filename ++ "\n")) ∧
      (img_type = 1 → lib.create_PBM ≠ 0 →
        Event.print "Error: Failed to create PBM image\n" ∈ out) ∧
      (img_type = 1 → lib.create_PBM = 0 → lib.save_PBM ≠ 0 →
        Event.print "Error: Failed to save PBM image\n" ∈ out) ∧
      (img_type = 2 → lib.create_PGM ≠ 0 →
        Event.print "Error: Failed to create PGM image\n" ∈ out) ∧
      (img_type = 2 → lib.create_PGM = 0 → lib.save_PGM ≠ 0 →
        Event.print "Error: Failed to save PGM image\n" ∈ out) ∧
      (img_type = 3 → lib.create_PPM ≠ 0 →
        Event.print "Error: Failed to create PPM image\n" ∈ out) ∧
      (img_type = 3 → lib.create_PPM = 0 → lib.save_PPM ≠ 0 →
        Event.print "Error: Failed to save PPM image\n" ∈ out) := by
  obtain ⟨g, hg, hm⟩ := main_accepted lib prog img_type width height filename format ht hf hv
    hWi hHi hfit
  refine ⟨_, hm, by simp, ?_, ?_, ?_, ?_, ?_, ?_⟩
  · intro h1 hc
    subst h1
    rw [if_pos rfl, generate_pbm_image_accepted lib width height filename format hv (hfit rfl),
      if_pos hc] at hg
    rw [← Option.some.inj hg]; simp
  · intro h1 hc hs
    subst h1
    rw [if_pos rfl, generate_pbm_image_accepted lib width height filename format hv (hfit rfl),
      if_neg (by simpa using hc), if_pos hs] at hg
    rw [← Option.some.inj hg]; simp
  · intro h1 hc
    subst h1
    rw [if_neg (show ¬ ((2:Int) = 1) by decide), if_pos rfl,
      generate_pgm_image_accepted lib width height filename format hv hWi hHi, if_pos hc] at hg
    rw [← Option.some.inj hg]; simp
  · intro h1 hc hs
    subst h1
    rw [if_neg (show ¬ ((2:Int) = 1) by decide), if_pos rfl,
      generate_pgm_image_accepted lib width height filename format hv hWi hHi,
      if_neg (by simpa using hc), if_pos hs] at hg
    rw [← Option.some.inj hg]; simp
  · intro h1 hc
    subst h1
    rw [if_neg (show ¬ ((3:Int) = 1) by decide), if_neg (show ¬ ((3:Int) = 2) by decide),
      generate_ppm_image_accepted lib width height filename format hv, if_pos hc] at hg
    rw [← Option.some.inj hg]; simp
  · intro h1 hc hs
    subst h1
    rw [if_neg (show ¬ ((3:Int) = 1) by decide), if_neg (show ¬ ((3:Int) = 2) by decide),
      generate_ppm_image_accepted lib width height filename format hv,
      if_neg (by simpa using hc), if_pos hs] at hg
    rw [← Option.some.inj hg]; simp

/-- C9 (amended) at a concrete input: a gray 8 x 8 image whose save fails. -/
theorem C9_failures_only_printed_witness :
    ((2:Int) = 1 ∨ (2:Int) = 2 ∨ (2:Int) = 3) ∧ ((1:Int) = 0 ∨ (1:Int) = 1) ∧
    (validate_dimensions 2 8 8).1 = 1 ∧ (8:Int) ≤ 2147483647 ∧
    ((2:Int) = 1 → (0:Int) = 0 → ((8:Int) - 1) * 8 ≤ 2147483647) ∧
    ∃ out, main { lib_ok with save_PGM := 1 } 6 "pnm" 2 8 8 "out.pgm" 1 = some (0, out) ∧
      out.getLast? = some (Event.print ("Image generated successfully: " ++ "out.pgm" ++ "\n")) ∧
      Event.print "Error: Failed to save PGM image\n" ∈ out := by
  refine ⟨by decide, by decide, by decide, by decide, by decide, ?_⟩
  obtain ⟨out, h1, h2, -, -, -, h6, -, -⟩ := C9_failures_only_printed
    { lib_ok with save_PGM := 1 } "pnm" 2 8 8 "out.pgm" 1 (by decide) (by decide) (by decide)
    (by decide) (by decide) (fun _ _ => by decide)
  exact ⟨out, h1, h2, h6 rfl rfl (by decide)⟩

/-- Whatever the library returns for a channel, the export of that channel starts with
the creation of the channel's buffer: the export is attempted. -/
theorem channel_export_attempted (lib : Lib) (ch : Chan) (label var chan_filename : String)
    (W H : Int) (raw : Bool) :
    (channel_export lib ch label var chan_filename W H raw).head? =
      some (Event.create_PGM_Image var W H 255) := by
  unfold channel_export
  split_ifs <;> rfl

/-- On accepted dimensions with a created colour buffer, the three channel exports are
all attempted, whatever the library returns for any step of any channel. -/
theorem channel_exports_all_attempted (lib : Lib) (W H : Int) (filename : String)
    (format : Int) (hv : (validate_dimensions 3 W H).1 = 1) (hc : lib.create_PPM = 0) :
    ∃ out, generate_ppm_image lib W H filename format = some out ∧
      Event.create_PGM_Image "red_channel" W H 255 ∈ out ∧
      Event.create_PGM_Image "green_channel" W H 255 ∈ out ∧
      Event.create_PGM_Image "blue_channel" W H 255 ∈ out := by
  have hmem : ∀ (ch : Chan) (label var fn : String) (raw : Bool),
      Event.create_PGM_Image var W H 255 ∈ channel_export lib ch label var fn W H raw := by
    intro ch label var fn raw
    exact List.mem_of_mem_head? (channel_export_attempted lib ch label var fn W H raw)
  refine ⟨_, generate_ppm_image_accepted lib W H filename format hv, ?_, ?_, ?_⟩
  · rw [if_neg (by simpa using hc)]
    simp only [List.mem_append]
    exact Or.inl (Or.inl (Or.inl (Or.inr (hmem _ _ _ _ _))))
  · rw [if_neg (by simpa using hc)]
    simp only [List.mem_append]
    exact Or.inl (Or.inl (Or.inr (hmem _ _ _ _ _)))
  · rw [if_neg (by simpa using hc)]
    simp only [List.mem_append]
    exact Or.inl (Or.inr (hmem _ _ _ _ _))

/-- C10, at the failing input. `generate_ppm_image(6, 4, "out.ppm", 0)` when
`create_PGM_Image` fails for the RED channel and every other call succeeds: the GREEN
and BLUE exports are attempted and saved, but nothing at all is printed about the RED
channel, whose failure is therefore not reported. -/
theorem C10_red_create_failure_trace :
    generate_ppm_image
        { lib_ok with chan_create := fun ch => if ch = Chan.RED then 1 else 0 }
        6 4 "out.ppm" 0 =
      some [Event.create_PPM_Image "img" 6 4 255,
            Event.save_PPM_Image "img" "out.ppm" false,
            Event.create_PGM_Image "red_channel" 6 4 255,
            Event.create_PGM_Image "green_channel" 6 4 255,
            Event.copy_PPM_to_PGM "img" "green_channel" Chan.GREEN,
            Event.save_PGM_Image "green_channel" "GREEN_out.pgm" false,
            Event.print "GREEN channel saved: GREEN_out.pgm\n",
            Event.free_PGM_Image "green_channel",
            Event.create_PGM_Image "blue_channel" 6 4 255,
            Event.copy_PPM_to_PGM "img" "blue_channel" Chan.BLUE,
            Event.save_PGM_Image "blue_channel" "BLUE_out.pgm" false,
            Event.print "BLUE channel saved: BLUE_out.pgm\n",
            Event.free_PGM_Image "blue_channel",
            Event.free_PPM_Image "img"] := by
  rw [generate_ppm_image_accepted _ 6 4 "out.ppm" 0 (by decide)]
  rfl

/-! ## The samples where a product overflows -/

/-- C7, at the failing inputs.  Gray, 4 x 33686020, pixel (16843010, 2): the product
`dist_from_edge * 255 = 8421505 * 255` wraps, the value computed is 509, outside
`[0, 255]`, and the 8-bit store keeps 253.  Colour, 6 x 16843012, pixel (8421505, 0):
the product `row * 255` wraps, the GREEN and BLUE components computed are -254, and the
8-bit stores keep 2. -/
theorem C7_samples_overflow :
    (validate_dimensions 2 4 33686020).1 = 1 ∧
    pgm_value 4 33686020 16843010 2 = some 509 ∧
    (∀ garbage, ∃ img, pgm_fill 4 33686020 (created 4 33686020 garbage) = some img ∧
      img.image (16843010, 2) = 253) ∧
    (validate_dimensions 3 6 16843012).1 = 1 ∧
    ppm_value 6 16843012 8421505 0 = some (255, -254, -254) ∧
    (∀ garbage, ∃ img, ppm_fill 6 16843012 (created 6 16843012 garbage) = some img ∧
      img.image (8421505, 0, Chan.GREEN) = 2 ∧ img.image (8421505, 0, Chan.BLUE) = 2) := by
  refine ⟨by decide, by decide, ?_, by decide, by decide, ?_⟩
  · intro garbage
    exact (pgm_overflow_sample garbage).2.2.2.2
  · intro garbage
    obtain ⟨img, h, -, -, h3, -⟩ := ppm_overflow_pixels garbage
    simp only [Prod.mk.injEq] at h3
    exact ⟨img, h, h3.2.1, h3.2.2⟩

/-! ## Derived file names -/

theorem lastDot_none_of_not_mem (l : List Char) (h : '.' ∉ l) : lastDot l = none := by
  induction l with
  | nil => rfl
  | cons c cs ih =>
    have h1 : c ≠ '.' := fun e => h (by rw [e]; exact List.mem_cons_self _ _)
    have h2 : '.' ∉ cs := fun e => h (List.mem_cons_of_mem _ e)
    simp only [lastDot, ih h2, if_neg h1]

theorem lastDot_append_dot (l r : List Char) (h : '.' ∉ r) :
    lastDot (l ++ '.' :: r) = some l.length := by
  induction l with
  | nil =>
    simp only [List.nil_append, lastDot, lastDot_none_of_not_mem r h, if_true, List.length_nil]
  | cons c cs ih =>
    show (match lastDot (cs ++ '.' :: r) with
      | some i => some (i + 1)
      | none => if c = '.' then some 0 else none) = some (cs.length + 1)
    rw [ih]

theorem suffix_of_suffix_append (s P F : List Char) (c : Char) (t : List Char)
    (hs : s = c :: t) (hc : c ∉ P) (h : s <:+ P ++ F) : s <:+ F := by
  obtain ⟨u, hu⟩ := h
  rcases List.append_eq_append_iff.mp hu with ⟨a, hP, hF⟩ | ⟨b, hu', hF⟩
  · cases a with
    | nil =>
      simp only [List.nil_append] at hF
      rw [hF]
    | cons x xs =>
      exfalso
      rw [hs] at hF
      simp only [List.cons_append, List.cons.injEq] at hF
      apply hc
      rw [hP, hF.1]
      simp
  · exact ⟨b, hF.symm⟩

theorem channel_filename_spec (pfx f : String) (hp : '.' ∉ pfx.toList)
    (hlen : pfx.length + f.length ≤ 255) :
    channel_filename pfx f = spec_channel_filename pfx f := by
  unfold channel_filename spec_channel_filename
  have htake : (pfx.toList ++ f.toList).take 255 = pfx.toList ++ f.toList := by
    apply List.take_of_length_le
    have e1 : pfx.length = pfx.toList.length := rfl
    have e2 : f.length = f.toList.length := rfl
    rw [List.length_append, ← e1, ← e2]
    exact hlen
  simp only [htake]
  by_cases hs : ['.', 'p', 'p', 'm'] <:+ f.toList
  · rw [if_pos hs]
    obtain ⟨g, hg⟩ := hs
    have hbuf : pfx.toList ++ f.toList = (pfx.toList ++ g) ++ '.' :: ['p', 'p', 'm'] := by
      rw [← hg]; simp
    have hld := lastDot_append_dot (pfx.toList ++ g) ['p', 'p', 'm'] (by decide)
    rw [hbuf, hld]
    simp only [List.drop_left, if_true, List.take_left]
    have hlenf : f.length = g.length + 4 := by
      have e2 : f.length = f.toList.length := rfl
      rw [e2, ← hg]; simp
    apply String.ext
    simp only [String.data_append]
    rw [← hg, hlenf]
    simp
  · rw [if_neg hs]
    have hres : String.mk (pfx.toList ++ f.toList) = pfx ++ f := by
      apply String.ext; simp
    cases hld : lastDot (pfx.toList ++ f.toList) with
    | none => exact hres
    | some i =>
      simp only
      by_cases hd : List.drop i (pfx.toList ++ f.toList) = ['.', 'p', 'p', 'm']
      · exfalso
        apply hs
        apply suffix_of_suffix_append _ pfx.toList f.toList '.' ['p', 'p', 'm'] rfl hp
        rw [← hd]
        exact List.drop_suffix i _
      · rw [if_neg hd]; exact hres

/-- C11. For every output filename `f` short enough to fit the 256-byte buffers after
prefixing, the three derived channel filenames built by `generate_ppm_image` are
`RED_`, `GREEN_` and `BLUE_` prepended to `f`, with a trailing `.ppm` of `f` rewritten
to `.pgm` and `f` otherwise unchanged (a name not ending in `.ppm` keeps its
extension). -/
theorem C11_channel_filenames (f : String) (hlen : 6 + f.length ≤ 255) :
    channel_filename "RED_" f = spec_channel_filename "RED_" f ∧
    channel_filename "GREEN_" f = spec_channel_filename "GREEN_" f ∧
    channel_filename "BLUE_" f = spec_channel_filename "BLUE_" f ∧
    (¬ (['.', 'p', 'p', 'm'] <:+ f.toList) →
      channel_filename "RED_" f = "RED_" ++ f ∧
      channel_filename "GREEN_" f = "GREEN_" ++ f ∧
      channel_filename "BLUE_" f = "BLUE_" ++ f) := by
  have hR := channel_filename_spec "RED_" f (by decide)
    (by have : ("RED_" : String).length = 4 := by decide
        omega)
  have hG := channel_filename_spec "GREEN_" f (by decide)
    (by have : ("GREEN_" : String).length = 6 := by decide
        omega)
  have hB := channel_filename_spec "BLUE_" f (by decide)
    (by have : ("BLUE_" : String).length = 5 := by decide
        omega)
  refine ⟨hR, hG, hB, ?_⟩
  intro hs
  rw [hR, hG, hB]
  unfold spec_channel_filename
  rw [if_neg hs]
  exact ⟨rfl, rfl, rfl⟩

/-- C11 at a concrete input: `out.ppm` gives `RED_out.pgm`, `GREEN_out.pgm` and
`BLUE_out.pgm`. -/
theorem C11_channel_filenames_witness :
    6 + ("out.ppm" : String).length ≤ 255 ∧
    channel_filename "RED_" "out.ppm" = "RED_out.pgm" ∧
    channel_filename "GREEN_" "out.ppm" = "GREEN_out.pgm" ∧
    channel_filename "BLUE_" "out.ppm" = "BLUE_out.pgm" := by
  obtain ⟨h1, h2, h3, -⟩ := C11_channel_filenames "out.ppm" (by decide)
  refine ⟨by decide, ?_, ?_, ?_⟩
  · rw [h1]; decide
  · rw [h2]; decide
  · rw [h3]; decide

/-! ## Channel extraction (spec-modelled `libpnm`) -/

/-- C12. Channel extraction as used by `generate_ppm_image`: for every colour image
(max-value 255) and every channel in {RED, GREEN, BLUE}, the gray image produced by
`copy_PPM_to_PGM` into a destination created with the same width, height and
max-value 255 has the same width, height and max-value and, at every `(row, col)`,
the selected component of the colour pixel at `(row, col)`; in particular a colour
image whose every pixel is (10,20,30) yields for RED a gray image with every
sample 10. -/
theorem C12_channel_extraction (src : ColorImage) (ch : Chan) (garbage : Nat → Nat)
    (hwf : src.WellFormed) (hmax : src.maxValue = 255) :
    ∃ dst out,
      create_PGM_Image (src.width : Int) (src.height : Int) 255 garbage = Except.ok dst ∧
      copy_PPM_to_PGM src dst ch = Except.ok out ∧
      out.width = src.width ∧ out.height = src.height ∧ out.maxValue = 255 ∧
      out.WellFormed ∧
      (∀ row col : Nat, row < src.height → col < src.width →
        ∃ p, src.at row col = some p ∧ out.at row col = some (channelOf ch p)) ∧
      ((∀ p ∈ src.pixels, p = (10, 20, 30)) → ch = Chan.RED →
        ∀ row col : Nat, row < src.height → col < src.width → out.at row col = some 10) := by
  obtain ⟨hW, hH, hM1, hM2, hlen, hrange⟩ := hwf
  have hcreate : create_PGM_Image (src.width : Int) (src.height : Int) 255 garbage =
      Except.ok { width := src.width, height := src.height, maxValue := 255,
                  samples := (List.range (src.width * src.height)).map garbage } := by
    unfold create_PGM_Image
    have hc : ¬ ((src.width : Int) ≤ 0 ∨ (src.height : Int) ≤ 0 ∨ (255:Int) < 1 ∨
        (255:Int) > 255) := by omega
    rw [if_neg hc]
    simp
  refine ⟨_, GrayImage.mk src.width src.height 255 (src.pixels.map (channelOf ch)),
    hcreate, ?_, ?_, ?_, ?_, ?_, ?_, ?_⟩
  · unfold copy_PPM_to_PGM
    have hc : ¬ (src.width ≠ src.width ∨ src.height ≠ src.height ∨ 255 ≠ src.maxValue) := by
      rw [hmax]; simp
    simp only
    rw [if_neg hc]
  · rfl
  · rfl
  · rfl
  · refine ⟨hW, hH, (show (1:Nat) ≤ 255 by decide), Nat.le_refl 255, ?_, ?_⟩
    · simp only [List.length_map]; exact hlen
    · intro s hs
      simp only [List.mem_map] at hs
      obtain ⟨p, hp, rfl⟩ := hs
      have := hrange p hp
      rw [hmax] at this
      cases ch
      · exact this.1
      · exact this.2.1
      · exact this.2.2
  · intro row col hr hc
    have hidx : row * src.width + col < src.pixels.length := by
      rw [hlen]
      calc row * src.width + col < row * src.width + src.width := by omega
        _ = (row + 1) * src.width := by ring
        _ ≤ src.height * src.width := Nat.mul_le_mul_right _ hr
        _ = src.width * src.height := Nat.mul_comm _ _
    refine ⟨src.pixels[row * src.width + col], ?_, ?_⟩
    · unfold ColorImage.at
      rw [if_pos ⟨hr, hc⟩]
      exact List.getElem?_eq_getElem hidx
    · unfold GrayImage.at
      simp only
      rw [if_pos ⟨hr, hc⟩, List.getElem?_map, List.getElem?_eq_getElem hidx]
      rfl
  · intro hall hch row col hr hc
    have hidx : row * src.width + col < src.pixels.length := by
      rw [hlen]
      calc row * src.width + col < row * src.width + src.width := by omega
        _ = (row + 1) * src.width := by ring
        _ ≤ src.height * src.width := Nat.mul_le_mul_right _ hr
        _ = src.width * src.height := Nat.mul_comm _ _
    unfold GrayImage.at
    simp only
    rw [if_pos ⟨hr, hc⟩, List.getElem?_map, List.getElem?_eq_getElem hidx]
    have hp := hall _ (List.getElem_mem hidx)
    rw [hp, hch]
    rfl

/-- C12 at a concrete input: the 2 x 2 colour image whose every pixel is (10,20,30). -/
theorem C12_channel_extraction_witness :
    (ColorImage.mk 2 2 255 [(10, 20, 30), (10, 20, 30), (10, 20, 30), (10, 20, 30)]).WellFormed ∧
    (ColorImage.mk 2 2 255 [(10, 20, 30), (10, 20, 30), (10, 20, 30), (10, 20, 30)]).maxValue
      = 255 ∧
    ∃ dst out,
      create_PGM_Image 2 2 255 (fun _ => 0) = Except.ok dst ∧
      copy_PPM_to_PGM
        (ColorImage.mk 2 2 255 [(10, 20, 30), (10, 20, 30), (10, 20, 30), (10, 20, 30)])
        dst Chan.RED = Except.ok out ∧
      out = GrayImage.mk 2 2 255 [10, 10, 10, 10] := by
  have hwf : (ColorImage.mk 2 2 255
      [(10, 20, 30), (10, 20, 30), (10, 20, 30), (10, 20, 30)]).WellFormed := by
    refine ⟨by decide, by decide, by decide, by decide, by decide, ?_⟩
    intro p hp
    simp only [List.mem_cons, List.mem_singleton, List.not_mem_nil, or_false, or_self] at hp
    subst hp
    decide
  refine ⟨hwf, rfl, ?_⟩
  obtain ⟨dst, out, h1, h2, -, -, -, -, -, -⟩ := C12_channel_extraction
    (ColorImage.mk 2 2 255 [(10, 20, 30), (10, 20, 30), (10, 20, 30), (10, 20, 30)])
    Chan.RED (fun _ => 0) hwf rfl
  refine ⟨dst, out, h1, h2, ?_⟩
  have hd : create_PGM_Image 2 2 255 (fun _ => 0) =
      Except.ok (GrayImage.mk 2 2 255 [0, 0, 0, 0]) := rfl
  rw [show ((2:Nat) : Int) = 2 from rfl] at h1
  rw [hd] at h1
  cases h1
  have ho : copy_PPM_to_PGM
      (ColorImage.mk 2 2 255 [(10, 20, 30), (10, 20, 30), (10, 20, 30), (10, 20, 30)])
      (GrayImage.mk 2 2 255 [0, 0, 0, 0]) Chan.RED =
      Except.ok (GrayImage.mk 2 2 255 [10, 10, 10, 10]) := rfl
  rw [ho] at h2
  cases h2
  rfl

/-! ## The codecs (spec-modelled `libpnm`): decimal tokens -/

theorem digitsRev_isDigit (fuel n : Nat) : ∀ d ∈ digitsRev fuel n, isDigit d = true := by
  induction fuel generalizing n with
  | zero => intro d hd; simp [digitsRev] at hd
  | succ fuel ih =>
    intro d hd
    unfold digitsRev at hd
    by_cases h : n < 10
    · rw [if_pos h] at hd
      simp only [List.mem_singleton] at hd
      subst hd
      simp only [isDigit, Bool.and_eq_true, decide_eq_true_eq]
      omega
    · rw [if_neg h] at hd
      simp only [List.mem_cons] at hd
      rcases hd with hd | hd
      · subst hd
        simp only [isDigit, Bool.and_eq_true, decide_eq_true_eq]
        omega
      · exact ih (n / 10) d hd

theorem digitsRev_ne_nil (fuel n : Nat) : digitsRev (fuel + 1) n ≠ [] := by
  unfold digitsRev
  split_ifs <;> simp

/-- The number denoted by digits given least significant first. -/
theorem digitsRev_value (fuel n : Nat) (h : n < fuel) :
    (digitsRev fuel n).foldr (fun b acc => acc * 10 + (b - 48)) 0 = n := by
  induction fuel generalizing n with
  | zero => omega
  | succ fuel ih =>
    unfold digitsRev
    by_cases h10 : n < 10
    · rw [if_pos h10]
      simp only [List.foldr_cons, List.foldr_nil]
      omega
    · rw [if_neg h10]
      simp only [List.foldr_cons]
      rw [ih (n / 10) (by omega)]
      omega

theorem parseDigits_append (ds rest : List Nat) (acc : Nat)
    (hds : ∀ d ∈ ds, isDigit d = true)
    (hrest : ∀ b bs, rest = b :: bs → isDigit b = false) :
    parseDigits acc (ds ++ rest) = (ds.foldl (fun a b => a * 10 + (b - 48)) acc, rest) := by
  induction ds generalizing acc with
  | nil =>
    simp only [List.nil_append, List.foldl_nil]
    cases rest with
    | nil => rfl
    | cons b bs =>
      unfold parseDigits
      rw [hrest b bs rfl]
      simp
  | cons d ds ih =>
    simp only [List.cons_append, List.foldl_cons]
    unfold parseDigits
    rw [hds d (List.mem_cons_self _ _)]
    simp only [if_true]
    exact ih _ (fun x hx => hds x (List.mem_cons_of_mem _ hx))

theorem decimal_isDigit (n : Nat) : ∀ d ∈ decimal n, isDigit d = true := by
  intro d hd
  unfold decimal at hd
  exact digitsRev_isDigit _ _ d (List.mem_reverse.mp hd)

theorem decimal_cons (n : Nat) : ∃ d ds, decimal n = d :: ds ∧ isDigit d = true := by
  have hne : decimal n ≠ [] := by
    unfold decimal
    simp only [ne_eq, List.reverse_eq_nil_iff]
    exact digitsRev_ne_nil n n
  cases hdec : decimal n with
  | nil => exact absurd hdec hne
  | cons d ds =>
    exact ⟨d, ds, rfl, decimal_isDigit n d (by rw [hdec]; exact List.mem_cons_self _ _)⟩

/-- Parsing a decimal token gives the number back. -/
theorem parseDigits_decimal (n : Nat) (rest : List Nat)
    (hrest : ∀ b bs, rest = b :: bs → isDigit b = false) :
    parseDigits 0 (decimal n ++ rest) = (n, rest) := by
  rw [parseDigits_append (decimal n) rest 0 (decimal_isDigit n) hrest]
  unfold decimal
  rw [List.foldl_reverse, digitsRev_value (n + 1) n (by omega)]

theorem skipBlank_digit (d : Nat) (rest : List Nat) (hd : isDigit d = true) :
    skipBlank false (d :: rest) = d :: rest := by
  simp only [isDigit, Bool.and_eq_true, decide_eq_true_eq] at hd
  have h1 : isBlank d = false := by
    simp only [isBlank, Bool.or_eq_false_iff, decide_eq_false_iff_not]
    omega
  have h2 : ¬ d = 35 := by omega
  simp [skipBlank, h1, h2]

theorem skipBlank_blank (w : Nat) (rest : List Nat) (hw : isBlank w = true) :
    skipBlank false (w :: rest) = skipBlank false rest := by
  simp [skipBlank, hw]

/-- Reading a decimal token that is followed by a byte that is not a digit. -/
theorem readToken_decimal (err : PnmError) (n s : Nat) (rest : List Nat)
    (hs : isDigit s = false) :
    readToken err (decimal n ++ s :: rest) = Except.ok (n, s :: rest) := by
  obtain ⟨d, ds, hdec, hd⟩ := decimal_cons n
  unfold readToken
  rw [hdec, List.cons_append, skipBlank_digit d _ hd]
  simp only [hd, if_true]
  rw [← List.cons_append, ← hdec, parseDigits_decimal n (s :: rest)]
  intro b bs hb
  cases hb
  exact hs

theorem readToken_blank (err : PnmError) (w : Nat) (rest : List Nat)
    (hw : isBlank w = true) : readToken err (w :: rest) = readToken err rest := by
  unfold readToken
  rw [skipBlank_blank w rest hw]

/-! ## The codecs: sample streams -/

theorem readSamples_blank (m count w : Nat) (rest : List Nat) (hw : isBlank w = true) :
    readSamples m count (w :: rest) = readSamples m count rest := by
  cases count with
  | zero => rfl
  | succ count =>
    unfold readSamples
    rw [readToken_blank _ w rest hw]

/-- Reading back the decimal sample tokens of a text body. -/
theorem readSamples_textBody (m : Nat) (samples tail : List Nat)
    (hrange : ∀ s ∈ samples, s ≤ m) :
    readSamples m samples.length (textBody samples ++ tail) = Except.ok samples := by
  induction samples with
  | nil => rfl
  | cons s ss ih =>
    have hbody : textBody (s :: ss) ++ tail = decimal s ++ 10 :: (textBody ss ++ tail) := by
      simp [textBody]
    rw [hbody, List.length_cons]
    unfold readSamples
    rw [readToken_decimal _ s 10 _ (by decide)]
    simp only
    rw [if_pos (hrange s (List.mem_cons_self _ _)),
      readSamples_blank m ss.length 10 _ (by decide),
      ih (fun x hx => hrange x (List.mem_cons_of_mem _ hx))]

/-- Reading back raw one-byte samples. -/
theorem readBytes_self (m : Nat) (samples : List Nat) (hrange : ∀ s ∈ samples, s ≤ m) :
    readBytes m samples.length samples = Except.ok samples := by
  unfold readBytes
  rw [if_neg (by omega), List.take_length]
  have hall : samples.all (fun b => decide (b ≤ m)) = true := by
    rw [List.all_eq_true]
    intro x hx
    exact decide_eq_true (hrange x hx)
  rw [if_pos hall]

theorem readBits_blank (count w : Nat) (rest : List Nat) (hw : isBlank w = true) :
    readBits count (w :: rest) = readBits count rest := by
  cases count with
  | zero => rfl
  | succ count =>
    unfold readBits
    rw [skipBlank_blank w rest hw]

/-- Reading back the bits of a text bitmap body. -/
theorem readBits_body (samples tail : List Nat) (hrange : ∀ s ∈ samples, s ≤ 1) :
    readBits samples.length (samples.flatMap (fun s => [48 + s, 10]) ++ tail)
      = Except.ok samples := by
  induction samples with
  | nil => rfl
  | cons s ss ih =>
    have hs : s ≤ 1 := hrange s (List.mem_cons_self _ _)
    have hbody : (s :: ss).flatMap (fun s => [48 + s, 10]) ++ tail =
        (48 + s) :: 10 :: (ss.flatMap (fun s => [48 + s, 10]) ++ tail) := by
      simp [List.flatMap]
    rw [hbody, List.length_cons]
    unfold readBits
    rw [skipBlank_digit (48 + s) _ (by
      simp only [isDigit, Bool.and_eq_true, decide_eq_true_eq]; omega)]
    simp only
    rw [if_pos (by omega), readBits_blank ss.length 10 _ (by decide),
      ih (fun x hx => hrange x (List.mem_cons_of_mem _ hx))]
    simp

theorem group3_flatten3 (pixels : List (Nat × Nat × Nat)) :
    group3 (flatten3 pixels) = pixels := by
  induction pixels with
  | nil => rfl
  | cons p ps ih =>
    have : flatten3 (p :: ps) = p.1 :: p.2.1 :: p.2.2 :: flatten3 ps := by
      simp [flatten3, List.flatMap]
    rw [this]
    unfold group3
    rw [ih]

theorem flatten3_length (pixels : List (Nat × Nat × Nat)) :
    (flatten3 pixels).length = pixels.length * 3 := by
  induction pixels with
  | nil => rfl
  | cons p ps ih =>
    have : flatten3 (p :: ps) = p.1 :: p.2.1 :: p.2.2 :: flatten3 ps := by
      simp [flatten3, List.flatMap]
    rw [this]
    simp only [List.length_cons, ih]
    omega

theorem flatten3_range (pixels : List (Nat × Nat × Nat)) (m : Nat)
    (h : ∀ p ∈ pixels, p.1 ≤ m ∧ p.2.1 ≤ m ∧ p.2.2 ≤ m) :
    ∀ s ∈ flatten3 pixels, s ≤ m := by
  intro s hs
  simp only [flatten3, List.mem_flatMap, List.mem_cons, List.mem_singleton,
    List.not_mem_nil, or_false] at hs
  obtain ⟨p, hp, hs⟩ := hs
  obtain ⟨h1, h2, h3⟩ := h p hp
  rcases hs with rfl | rfl | rfl
  · exact h1
  · exact h2
  · exact h3

/-! ## The codecs: packed bits -/

theorem unpackByte_bits (b0 b1 b2 b3 b4 b5 b6 b7 : Nat) (h0 : b0 ≤ 1) (h1 : b1 ≤ 1)
    (h2 : b2 ≤ 1) (h3 : b3 ≤ 1) (h4 : b4 ≤ 1) (h5 : b5 ≤ 1) (h6 : b6 ≤ 1) (h7 : b7 ≤ 1) :
    unpackByte (b0 * 128 + b1 * 64 + b2 * 32 + b3 * 16 + b4 * 8 + b5 * 4 + b6 * 2 + b7)
      = [b0, b1, b2, b3, b4, b5, b6, b7] := by
  unfold unpackByte
  simp only [List.cons.injEq, and_true]
  refine ⟨?_, ?_, ?_, ?_, ?_, ?_, ?_, ?_⟩ <;> omega

theorem getD_le_one (l : List Nat) (i : Nat) (h : ∀ s ∈ l, s ≤ 1) : l.getD i 0 ≤ 1 := by
  rw [List.getD_eq_getElem?_getD]
  cases hi : l[i]? with
  | none => simp
  | some x =>
    simp only [Option.getD_some]
    exact h x (List.getElem?_mem hi)

theorem pad8 (l : List Nat) (hlen : l.length ≤ 8) :
    [l.getD 0 0, l.getD 1 0, l.getD 2 0, l.getD 3 0, l.getD 4 0, l.getD 5 0, l.getD 6 0,
      l.getD 7 0] = l ++ List.replicate (8 - l.length) 0 := by
  match l, hlen with
  | [], _ => rfl
  | [_], _ => rfl
  | [_, _], _ => rfl
  | [_, _, _], _ => rfl
  | [_, _, _, _], _ => rfl
  | [_, _, _, _, _], _ => rfl
  | [_, _, _, _, _, _], _ => rfl
  | [_, _, _, _, _, _, _], _ => rfl
  | [_, _, _, _, _, _, _, _], _ => rfl
  | _ :: _ :: _ :: _ :: _ :: _ :: _ :: _ :: _ :: _, h =>
    simp only [List.length_cons] at h
    omega

/-- Unpacking a packed byte gives its pixels back, followed by the zero padding. -/
theorem unpackByte_packByte (l : List Nat) (hlen : l.length ≤ 8) (h : ∀ s ∈ l, s ≤ 1) :
    unpackByte (packByte l) = l ++ List.replicate (8 - l.length) 0 := by
  unfold packByte
  rw [unpackByte_bits _ _ _ _ _ _ _ _ (getD_le_one l 0 h) (getD_le_one l 1 h)
    (getD_le_one l 2 h) (getD_le_one l 3 h) (getD_le_one l 4 h) (getD_le_one l 5 h)
    (getD_le_one l 6 h) (getD_le_one l 7 h)]
  exact pad8 l hlen

theorem packRow_length (n : Nat) (bits : List Nat) : (packRow n bits).length = n := by
  induction n generalizing bits with
  | zero => rfl
  | succ n ih =>
    unfold packRow
    simp only [List.length_cons, ih]

/-- Unpacking a packed row gives its pixels back. -/
theorem unpack_packRow (n : Nat) (bits : List Nat) (hlen : bits.length ≤ 8 * n)
    (h : ∀ s ∈ bits, s ≤ 1) :
    ((packRow n bits).flatMap unpackByte).take bits.length = bits := by
  induction n generalizing bits with
  | zero =>
    have : bits = [] := List.eq_nil_of_length_eq_zero (by omega)
    subst this
    rfl
  | succ n ih =>
    unfold packRow
    have h8 : ∀ s ∈ bits.take 8, s ≤ 1 := fun s hs => h s (List.mem_of_mem_take hs)
    have hd : ∀ s ∈ bits.drop 8, s ≤ 1 := fun s hs => h s (List.mem_of_mem_drop hs)
    have hl8 : (bits.take 8).length ≤ 8 := by
      rw [List.length_take]; omega
    rw [List.flatMap_cons, unpackByte_packByte _ hl8 h8]
    by_cases hshort : bits.length ≤ 8
    · rw [List.take_of_length_le hshort, List.append_assoc, List.take_left]
    · have ht : (bits.take 8).length = 8 := by
        rw [List.length_take]; omega
      have hpad : List.take 8 bits ++ List.replicate (8 - (List.take 8 bits).length) 0 =
          List.take 8 bits := by
        rw [ht]; simp
      rw [hpad]
      have hsplit : bits.length = (bits.take 8).length + (bits.drop 8).length := by
        rw [List.length_take, List.length_drop]; omega
      rw [hsplit, List.take_append,
        ih (bits.drop 8) (by rw [List.length_drop]; omega) hd, List.take_append_drop]

/-- Unpacking the packed rows of a bitmap gives its samples back. -/
theorem unpackRows_packRows (w h : Nat) (bits : List Nat) (hlen : bits.length = w * h)
    (hrange : ∀ s ∈ bits, s ≤ 1) :
    unpackRows w h (packRows w h bits) = Except.ok bits := by
  induction h generalizing bits with
  | zero =>
    have : bits = [] := List.eq_nil_of_length_eq_zero (by simpa using hlen)
    subst this
    rfl
  | succ h ih =>
    have hw : w ≤ bits.length := by
      rw [hlen, Nat.mul_succ]; omega
    have htl : (bits.take w).length = w := by
      rw [List.length_take]; omega
    have hdl : (bits.drop w).length = w * h := by
      rw [List.length_drop, hlen, Nat.mul_succ]; omega
    have hrow := unpack_packRow ((w + 7) / 8) (bits.take w) (by rw [htl]; omega)
      (fun s hs => hrange s (List.mem_of_mem_take hs))
    rw [htl] at hrow
    unfold packRows unpackRows
    have hplen : (packRow ((w + 7) / 8) (bits.take w)).length = (w + 7) / 8 :=
      packRow_length _ _
    rw [if_neg (by rw [List.length_append, hplen]; omega),
      List.drop_left' hplen, List.take_left' hplen,
      ih (bits.drop w) hdl (fun s hs => hrange s (List.mem_of_mem_drop hs))]
    simp only
    rw [hrow, List.take_append_drop]

/-! ## The codecs: headers and round trips -/

theorem header2_eq (magic w h : Nat) (body : List Nat) :
    header2 magic w h ++ body =
      80 :: magic :: 10 :: (decimal w ++ 32 :: (decimal h ++ 10 :: body)) := by
  simp [header2]

theorem header3_eq (magic w h m : Nat) (body : List Nat) :
    header3 magic w h m ++ body =
      80 :: magic :: 10 :: (decimal w ++ 32 :: (decimal h ++ 10 :: (decimal m ++ 10 :: body)))
      := by
  simp [header3]

/-- Decoding a bitmap file made of a header and a body. -/
theorem load_PBM_header (d w h : Nat) (body : List Nat) (hd : d = 49 ∨ d = 52) :
    load_PBM_Image (header2 d w h ++ body) =
      match (if d = 49 then readBits (w * h) body else unpackRows w h body) with
      | Except.error e => Except.error e
      | Except.ok samples => Except.ok { width := w, height := h, samples := samples } := by
  rw [header2_eq]
  unfold load_PBM_Image
  simp only
  rw [if_pos ⟨trivial, hd⟩, readToken_blank _ 10 _ (by decide),
    readToken_decimal _ w 32 _ (by decide)]
  simp only
  rw [readToken_blank _ 32 _ (by decide), readToken_decimal _ h 10 _ (by decide)]
  simp only [endHeader]
  rfl

/-- Decoding the samples of a graymap or pixmap file made of a header and a body. -/
theorem loadSamples_header (t r : Nat) (count : Nat → Nat → Nat) (d w h m : Nat)
    (body : List Nat) (hd : d = t ∨ d = r) :
    loadSamples t r count (header3 d w h m ++ body) =
      match (if d = t then readSamples m (count w h) body
             else readBytes m (count w h) body) with
      | Except.error e => Except.error e
      | Except.ok samples => Except.ok (w, h, m, samples) := by
  rw [header3_eq]
  unfold loadSamples
  simp only
  rw [if_pos ⟨trivial, hd⟩, readToken_blank _ 10 _ (by decide),
    readToken_decimal _ w 32 _ (by decide)]
  simp only
  rw [readToken_blank _ 32 _ (by decide), readToken_decimal _ h 10 _ (by decide)]
  simp only
  rw [readToken_blank _ 10 _ (by decide), readToken_decimal _ m 10 _ (by decide)]
  simp only [endHeader]
  rfl

theorem round_trip_PBM (img : BitImage) (hwf : img.WellFormed) (raw : Bool) :
    ∃ bytes, save_PBM_Image img raw = Except.ok bytes ∧
      load_PBM_Image bytes = Except.ok img := by
  obtain ⟨-, -, hlen, hrange⟩ := hwf
  cases raw with
  | true =>
    refine ⟨_, rfl, ?_⟩
    rw [load_PBM_header 52 _ _ _ (Or.inr rfl), if_neg (by decide),
      unpackRows_packRows _ _ _ hlen hrange]
  | false =>
    refine ⟨_, rfl, ?_⟩
    have hb := readBits_body img.samples [] hrange
    rw [List.append_nil, hlen] at hb
    rw [load_PBM_header 49 _ _ _ (Or.inl rfl), if_pos rfl, hb]

theorem round_trip_PGM (img : GrayImage) (hwf : img.WellFormed) (raw : Bool) :
    ∃ bytes, save_PGM_Image img raw = Except.ok bytes ∧
      load_PGM_Image bytes = Except.ok img := by
  obtain ⟨-, -, -, hM, hlen, hrange⟩ := hwf
  cases raw with
  | true =>
    refine ⟨header3 53 img.width img.height img.maxValue ++ img.samples, ?_, ?_⟩
    · unfold save_PGM_Image
      rw [if_pos rfl, if_neg (by omega)]
    · have hb := readBytes_self img.maxValue img.samples hrange
      rw [hlen] at hb
      unfold load_PGM_Image
      rw [loadSamples_header 50 53 _ 53 _ _ _ _ (Or.inr rfl), if_neg (by decide), hb]
  | false =>
    refine ⟨_, rfl, ?_⟩
    have hb := readSamples_textBody img.maxValue img.samples [] hrange
    rw [List.append_nil, hlen] at hb
    unfold load_PGM_Image
    rw [loadSamples_header 50 53 _ 50 _ _ _ _ (Or.inl rfl), if_pos rfl, hb]

theorem round_trip_PPM (img : ColorImage) (hwf : img.WellFormed) (raw : Bool) :
    ∃ bytes, save_PPM_Image img raw = Except.ok bytes ∧
      load_PPM_Image bytes = Except.ok img := by
  obtain ⟨-, -, -, hM, hlen, hrange⟩ := hwf
  have hfl : (flatten3 img.pixels).length = img.width * img.height * 3 := by
    rw [flatten3_length, hlen]
  have hfr := flatten3_range img.pixels img.maxValue hrange
  cases raw with
  | true =>
    refine ⟨header3 54 img.width img.height img.maxValue ++ flatten3 img.pixels, ?_, ?_⟩
    · unfold save_PPM_Image
      rw [if_pos rfl, if_neg (by omega)]
    · have hb := readBytes_self img.maxValue (flatten3 img.pixels) hfr
      rw [hfl] at hb
      unfold load_PPM_Image
      rw [loadSamples_header 51 54 _ 54 _ _ _ _ (Or.inr rfl), if_neg (by decide), hb]
      simp only [group3_flatten3]
  | false =>
    refine ⟨_, rfl, ?_⟩
    have hb := readSamples_textBody img.maxValue (flatten3 img.pixels) [] hfr
    rw [List.append_nil, hfl] at hb
    unfold load_PPM_Image
    rw [loadSamples_header 51 54 _ 51 _ _ _ _ (Or.inl rfl), if_pos rfl, hb]
    simp only [group3_flatten3]

/-- C13. Round trip: for each of the three formats and each encoding (text, binary),
decoding the file written by `save_PBM_Image` / `save_PGM_Image` / `save_PPM_Image`
for an image yields an image equal to the original (same width, height, max-value
and every sample), for all sample values including the boundary max-value. -/
theorem C13_round_trip (bit : BitImage) (gray : GrayImage) (color : ColorImage)
    (hbit : bit.WellFormed) (hgray : gray.WellFormed) (hcolor : color.WellFormed)
    (raw : Bool) :
    (∃ bytes, save_PBM_Image bit raw = Except.ok bytes ∧
      load_PBM_Image bytes = Except.ok bit) ∧
    (∃ bytes, save_PGM_Image gray raw = Except.ok bytes ∧
      load_PGM_Image bytes = Except.ok gray) ∧
    (∃ bytes, save_PPM_Image color raw = Except.ok bytes ∧
      load_PPM_Image bytes = Except.ok color) :=
  ⟨round_trip_PBM bit hbit raw, round_trip_PGM gray hgray raw,
    round_trip_PPM color hcolor raw⟩

/-- C13 at a concrete input: a 2 x 1 bitmap, a 2 x 1 graymap holding the max-value 255
and a 1 x 1 pixmap, in the binary encoding. -/
theorem C13_round_trip_witness :
    (BitImage.mk 2 1 [1, 0]).WellFormed ∧ (GrayImage.mk 2 1 255 [255, 0]).WellFormed ∧
    (ColorImage.mk 1 1 255 [(10, 20, 255)]).WellFormed ∧
    (∃ bytes, save_PBM_Image (BitImage.mk 2 1 [1, 0]) true = Except.ok bytes ∧
      load_PBM_Image bytes = Except.ok (BitImage.mk 2 1 [1, 0])) ∧
    (∃ bytes, save_PGM_Image (GrayImage.mk 2 1 255 [255, 0]) true = Except.ok bytes ∧
      load_PGM_Image bytes = Except.ok (GrayImage.mk 2 1 255 [255, 0])) ∧
    (∃ bytes, save_PPM_Image (ColorImage.mk 1 1 255 [(10, 20, 255)]) true = Except.ok bytes ∧
      load_PPM_Image bytes = Except.ok (ColorImage.mk 1 1 255 [(10, 20, 255)])) := by
  have hb : (BitImage.mk 2 1 [1, 0]).WellFormed :=
    ⟨by decide, by decide, by decide, by decide⟩
  have hg : (GrayImage.mk 2 1 255 [255, 0]).WellFormed :=
    ⟨by decide, by decide, by decide, by decide, by decide, by decide⟩
  have hc : (ColorImage.mk 1 1 255 [(10, 20, 255)]).WellFormed :=
    ⟨by decide, by decide, by decide, by decide, by decide, by decide⟩
  exact ⟨hb, hg, hc, C13_round_trip _ _ _ hb hg hc true⟩

end PNM
